import Mathlib

/-! # node-kyoto: indexed write transactions and the asynchronous request lifecycle

A shallow embedding of `src/_kyoto.cc`.  The Kyoto Cabinet engine (`PolyDB`) is an
external library; it is represented by a small executable model of the operations
the binding calls (`add`, `replace`, `remove`, `begin_transaction`,
`end_transaction`, `accept_bulk`) together with its last-error register and a log
of the calls issued.  Engine failures that do not depend on the record contents
(I/O errors, a handle that is not open, ...) are supplied from outside as
`Faults`, one optional fault per call site of `IndexedRequest::exec`.
-/

namespace Kyoto

/-! ## Byte strings, lists and maps -/

/-- One `char` of a `std::string` / `String::Utf8Value`. -/
abbrev Byte := Fin 256

/-- The contents of a `std::string` or of a `String::Utf8Value` (length known, may hold zero bytes). -/
abbrev Bytes := List Byte

/-- The type `StringList` (`std::vector<std::string>`). -/
abbrev StringList := List Bytes

/-- The type `MapItem` (`pair<std::string, std::string>`). -/
abbrev MapItem := Bytes × Bytes

/-- The type `StringMap` (`std::map<std::string, std::string>`), kept as the list of its items.
Only `find`, `insert`, `empty` and the key listing are used by the source; every result
below is stated through `StringMap.find`, so it does not depend on the iteration order. -/
abbrev StringMap := List MapItem

/-- The call `map.find(key)`: the mapped value, or `none` for `map.end()`. -/
def StringMap.find : StringMap → Bytes → Option Bytes
  | [], _ => none
  | (k, v) :: rest, key => if key = k then some v else StringMap.find rest key

/-- The call `map.insert(item)`: adds the item unless the key is already mapped
(`std::map::insert` never overwrites). -/
def StringMap.insert (m : StringMap) (item : MapItem) : StringMap :=
  match StringMap.find m item.1 with
  | some _ => m
  | none => m ++ [item]

/-- The call `map.empty()`. -/
def StringMap.empty (m : StringMap) : Bool := m.isEmpty

/-- The function `MapKeys`: the keys of the map, in iteration order. -/
def MapKeys (map : StringMap) : StringList := map.map Prod.fst

/-! ## Comparison macros -/

/-- The macro `EQ_STRING_BUF(str, buf, bsiz)`:
`str.length() == bsiz && str.compare(0, bsiz, vbuf, bsiz) == 0`. -/
def EQ_STRING_BUF (str buf : Bytes) : Bool :=
  decide (str.length = buf.length) && decide (str.take buf.length = buf)

/-- The C function `strncmp(a, b, n) == 0`: compares at most `n` characters and stops at the
first difference or at a zero byte common to both.  Reading `a` or `b` at its length yields
the terminating zero of the C string. -/
def strncmp_eq : Bytes → Bytes → Nat → Bool
  | _, _, 0 => true
  | a, b, n + 1 =>
    let x := a.headD 0
    let y := b.headD 0
    if x ≠ y then false
    else if x = 0 then true
    else strncmp_eq a.tail b.tail n

/-- The macro `EQ_UTF8_BUF(utf, buf, bsiz)`:
`(size_t)utf.length() == bsiz && strncmp(*utf, buf, bsiz) == 0`. -/
def EQ_UTF8_BUF (utf buf : Bytes) : Bool :=
  decide (utf.length = buf.length) && strncmp_eq utf buf buf.length

/-! ## Engine model -/

/-- The enumeration `PolyDB::Error::Code`, with the constants `PolyDBWrap::Init` exports. -/
inductive Code
  | SUCCESS | NOIMPL | INVALID | NOREPOS | NOPERM | BROKEN
  | DUPREC | NOREC | LOGIC | SYSTEM | MISC
  deriving DecidableEq, Repr

/-- Modelled from the spec: an engine failure (`EngineError`), as the code the engine leaves
in `db->error().code()` when a call fails; a failing call never leaves `SUCCESS`. -/
abbrev Fault := { c : Code // c ≠ Code.SUCCESS }

/-- Modelled from the spec: the records of the engine's store, one value per key; the pairs
are read through `Records.get`. -/
abbrev Records := List (Bytes × Bytes)

/-- The value stored at a key, if any. -/
def Records.get : Records → Bytes → Option Bytes
  | [], _ => none
  | (k, v) :: rest, key => if key = k then some v else Records.get rest key

/-- The records without the given key. -/
def Records.remove (r : Records) (key : Bytes) : Records :=
  r.filter (fun p => decide (p.1 ≠ key))

/-- The records with the key (re)bound to the value. -/
def Records.set (r : Records) (key value : Bytes) : Records :=
  (key, value) :: Records.remove r key

/-- One engine call as it is issued by the binding, with its outcome. -/
inductive Call
  | begin_transaction (ok : Bool)
  | end_transaction (commit : Bool) (ok : Bool)
  | add (key value : Bytes) (ok : Bool)
  | replace (key value : Bytes) (ok : Bool)
  | remove (key : Bytes) (ok : Bool)
  | accept_bulk (keys : StringList) (written : Int)
  | cas (key : Bytes) (ok : Bool)
  deriving DecidableEq, Repr

/-- Modelled from the spec: the engine handle `PolyDB* db` (the Store Handle, an external
collaborator): its records, the snapshot a running transaction rolls back to, the last error
code (`db->error().code()`, left as it is by a call that succeeds), and the calls issued so
far. -/
structure PolyDB where
  records : Records
  saved : Option Records
  err : Code
  log : List Call
  deriving DecidableEq, Repr

/-- The call `db->get(key)`, as a read of the records. -/
def PolyDB.get (db : PolyDB) (key : Bytes) : Option Bytes := Records.get db.records key

/-- Records an engine failure: sets the last error and appends the call to the log. -/
def PolyDB.fail (db : PolyDB) (c : Code) (call : Call) : PolyDB :=
  { db with err := c, log := db.log ++ [call] }

/-- Modelled from the spec: the call `db->add(key, value)`, which fails with `DUPREC` exactly
when the key exists, or with the injected engine failure. -/
def PolyDB.add (db : PolyDB) (fault : Option Fault) (key value : Bytes) : Bool × PolyDB :=
  match fault with
  | some f => (false, db.fail f.val (Call.add key value false))
  | none =>
    match db.get key with
    | some _ => (false, db.fail Code.DUPREC (Call.add key value false))
    | none =>
      (true, { db with records := Records.set db.records key value,
                       log := db.log ++ [Call.add key value true] })

/-- Modelled from the spec: the call `db->replace(key, value)`, which fails with `NOREC`
exactly when the key is absent, or with the injected engine failure. -/
def PolyDB.replace (db : PolyDB) (fault : Option Fault) (key value : Bytes) : Bool × PolyDB :=
  match fault with
  | some f => (false, db.fail f.val (Call.replace key value false))
  | none =>
    match db.get key with
    | none => (false, db.fail Code.NOREC (Call.replace key value false))
    | some _ =>
      (true, { db with records := Records.set db.records key value,
                       log := db.log ++ [Call.replace key value true] })

/-- Modelled from the spec: the call `db->remove(key)`, which fails with `NOREC` when the key
is absent, or with the injected engine failure. -/
def PolyDB.remove (db : PolyDB) (fault : Option Fault) (key : Bytes) : Bool × PolyDB :=
  match fault with
  | some f => (false, db.fail f.val (Call.remove key false))
  | none =>
    match db.get key with
    | none => (false, db.fail Code.NOREC (Call.remove key false))
    | some _ =>
      (true, { db with records := Records.remove db.records key,
                       log := db.log ++ [Call.remove key true] })

/-- Modelled from the spec: the call `db->begin_transaction()`, which remembers the records
to roll back to. -/
def PolyDB.begin_transaction (db : PolyDB) (fault : Option Fault) : Bool × PolyDB :=
  match fault with
  | some f => (false, db.fail f.val (Call.begin_transaction false))
  | none =>
    (true, { db with saved := some db.records,
                     log := db.log ++ [Call.begin_transaction true] })

/-- Modelled from the spec: the call `db->end_transaction(commit)`.  With `commit = false` the
records of `begin_transaction` are restored (the binding ignores the returned value); with
`commit = true` the current records are kept.  A failing commit records its error code and
leaves the records as they are. -/
def PolyDB.end_transaction (db : PolyDB) (fault : Option Fault) (commit : Bool) : Bool × PolyDB :=
  if commit then
    match fault with
    | some f => (false, db.fail f.val (Call.end_transaction true false))
    | none => (true, { db with saved := none, log := db.log ++ [Call.end_transaction true true] })
  else
    (true, { db with records := db.saved.getD db.records, saved := none,
                     log := db.log ++ [Call.end_transaction false true] })

/-- Modelled from the spec: what a visitor returns, `NOP` (no change), `REMOVE` (delete), or
a value buffer to store. -/
inductive Action
  | NOP
  | REMOVE
  | SET (value : Bytes)
  deriving DecidableEq, Repr

/-- Modelled from the spec: the interface `DB::Visitor` (the per-key visitor callback); `σ`
is the state the visitor object mutates. -/
structure Visitor (σ : Type) where
  visit_full : σ → Bytes → Bytes → Action × σ
  visit_empty : σ → Bytes → Action × σ

/-- Modelled from the spec: the default `DB::Visitor::visit_empty`, which returns `NOP`. -/
def Visitor.default_visit_empty {σ : Type} (st : σ) (_kbuf : Bytes) : Action × σ :=
  (Action.NOP, st)

/-- Modelled from the spec: the effect of the answer of a visitor on the visited key. -/
def Records.apply (r : Records) (key : Bytes) : Action → Records
  | Action.NOP => r
  | Action.REMOVE => Records.remove r key
  | Action.SET value => Records.set r key value

/-- Modelled from the spec: one visit of `accept_bulk`, an atomic inspect-and-change of one
key: `visit_full` when the key is present, `visit_empty` otherwise, followed by the requested
change. -/
def Records.accept {σ : Type} (r : Records) (vis : Visitor σ) (st : σ) (key : Bytes) :
    Records × σ :=
  match Records.get r key with
  | some value =>
    let (a, st1) := vis.visit_full st key value
    (Records.apply r key a, st1)
  | none =>
    let (a, st1) := vis.visit_empty st key
    (Records.apply r key a, st1)

/-- Modelled from the spec: the visits of `accept_bulk`, key after key. -/
def Records.acceptAll {σ : Type} (vis : Visitor σ) : Records → σ → StringList → Records × σ
  | r, st, [] => (r, st)
  | r, st, key :: rest =>
    let (r1, st1) := Records.accept r vis st key
    Records.acceptAll vis r1 st1 rest

/-- Modelled from the spec: the call `db->accept_bulk(keys, &visitor, true)`, which visits
every key and returns a count, or the failure sentinel `-1` the binding tests for.  A fault
`(n, f)` makes the engine fail with `f` after `n` visits. -/
def PolyDB.accept_bulk {σ : Type} (db : PolyDB) (fault : Option (Nat × Fault))
    (keys : StringList) (vis : Visitor σ) (st : σ) : Int × PolyDB × σ :=
  match fault with
  | some (n, f) =>
    let (r1, st1) := Records.acceptAll vis db.records st (keys.take n)
    (-1, { db with records := r1, err := f.val, log := db.log ++ [Call.accept_bulk keys (-1)] }, st1)
  | none =>
    let (r1, st1) := Records.acceptAll vis db.records st keys
    (keys.length,
      { db with records := r1, log := db.log ++ [Call.accept_bulk keys keys.length] }, st1)

/-! ## Toji support: the index visitors -/

/-- The class `ApplyIndexVisitor`; the mutated state is the `errors` map. -/
def ApplyIndexVisitor (index : StringMap) : Visitor StringMap where
  visit_full := fun errors kbuf vbuf =>
    match StringMap.find index kbuf with
    | some second =>
      if !EQ_STRING_BUF second vbuf then (Action.NOP, StringMap.insert errors (kbuf, vbuf))
      else (Action.NOP, errors)
    | none => (Action.NOP, errors)
  visit_empty := fun errors kbuf =>
    match StringMap.find index kbuf with
    | none => (Action.NOP, errors)
    | some second => (Action.SET second, errors)

/-- The class `RemoveIndexVisitor`; the mutated state is the `errors` map. -/
def RemoveIndexVisitor (key : Bytes) : Visitor StringMap where
  visit_full := fun errors kbuf vbuf =>
    if !EQ_UTF8_BUF key vbuf then (Action.NOP, StringMap.insert errors (kbuf, vbuf))
    else (Action.REMOVE, errors)
  visit_empty := Visitor.default_visit_empty

/-! ## JavaScript values at the binding boundary -/

/-- The message of a delivered `Error`: the engine's `codename` of a code, or a literal text. -/
inductive Message
  | codename (c : Code)
  | text (s : String)
  deriving DecidableEq, Repr

/-- A `double` that is not handled as an integer: only `std::isnan` is observed. -/
structure DoubleNum where
  isnan : Bool
  bits : Nat
  deriving DecidableEq, Repr

/-- A V8 value as the binding sees it: its type tag, and the content the binding reads.
An array carries the strings `ArrayToList` extracts, an object the items `ObjToMap` extracts,
an `Error` object its message and the `code` and `invalid` properties the binding sets. -/
inductive Value
  | undefined
  | null
  | boolean (b : Bool)
  | number (n : Int)
  | double (d : DoubleNum)
  | string (s : Bytes)
  | array (items : StringList)
  | object (props : StringMap)
  | function (id : Nat)
  | error (message : Message) (code : Option Code) (invalid : Option StringMap)
  | typeError (message : String)
  deriving DecidableEq, Repr

/-- The macro `LNULL`. -/
def LNULL : Value := Value.null

/-- The test `value->IsNull()`. -/
def Value.IsNull : Value → Bool
  | Value.null => true
  | _ => false

/-- The function `MapToObj`. -/
def MapToObj (map : StringMap) : Value := Value.object map

/-- The function `ListToArray`. -/
def ListToArray (list : StringList) : Value := Value.array list

/-- The statement `obj->Set(invalid_symbol, MapToObj(errors))` on an `Error` object. -/
def Value.setInvalid (errors : StringMap) : Value → Value
  | Value.error message code _ => Value.error message code (some errors)
  | v => v

/-- The method `Request::error()` of `PolyDBWrap::Request` and `CursorWrap::Request`:
null on `SUCCESS`, otherwise an `Error` named after the code and carrying it as `code`. -/
def Request.error (result : Code) : Value :=
  if result = Code.SUCCESS then LNULL
  else Value.error (Message.codename result) (some result) none

/-! ## Indexed requests -/

/-- The three subclasses of `IndexedRequest`. -/
inductive IndexedKind
  | AddIndexed
  | ReplaceIndexed
  | RemoveIndexed
  deriving DecidableEq, Repr

/-- The class `IndexedRequest` with the members of its subclasses (`value` is unused by
`RemoveIndexedRequest`). -/
structure IndexedRequest where
  kind : IndexedKind
  key : Bytes
  value : Bytes
  toIndex : StringMap
  toRemove : StringList
  errors : StringMap
  result : Code
  deriving DecidableEq, Repr

/-- The constructor `AddIndexedRequest(args)` on marshalled arguments; a null `args[2]`
leaves `toIndex` empty. -/
def AddIndexedRequest (key value : Bytes) (index : StringMap) : IndexedRequest :=
  { kind := IndexedKind.AddIndexed, key := key, value := value, toIndex := index,
    toRemove := [], errors := [], result := Code.SUCCESS }

/-- The constructor `ReplaceIndexedRequest(args)` on marshalled arguments. -/
def ReplaceIndexedRequest (key value : Bytes) (index : StringMap) (remove : StringList) :
    IndexedRequest :=
  { kind := IndexedKind.ReplaceIndexed, key := key, value := value, toIndex := index,
    toRemove := remove, errors := [], result := Code.SUCCESS }

/-- The constructor `RemoveIndexedRequest(args)` on marshalled arguments. -/
def RemoveIndexedRequest (key : Bytes) (remove : StringList) : IndexedRequest :=
  { kind := IndexedKind.RemoveIndexed, key := key, value := [], toIndex := [],
    toRemove := remove, errors := [], result := Code.SUCCESS }

/-- The engine failures met by one run of `IndexedRequest::exec`, one per call site. -/
structure Faults where
  begin_transaction : Option Fault
  main_operation : Option Fault
  apply_index : Option (Nat × Fault)
  cleanup : Option (Nat × Fault)
  commit : Option Fault

/-- A run in which no engine call fails for reasons of its own. -/
def Faults.none : Faults :=
  { begin_transaction := Option.none, main_operation := Option.none,
    apply_index := Option.none, cleanup := Option.none, commit := Option.none }

/-- The virtual method `main_operation()` of the three subclasses. -/
def IndexedRequest.main_operation (req : IndexedRequest) (db : PolyDB) (fault : Option Fault) :
    Bool × PolyDB :=
  match req.kind with
  | IndexedKind.AddIndexed => db.add fault req.key req.value
  | IndexedKind.ReplaceIndexed => db.replace fault req.key req.value
  | IndexedKind.RemoveIndexed => db.remove fault req.key

/-- The method `IndexedRequest::apply_index()`. -/
def IndexedRequest.apply_index (req : IndexedRequest) (db : PolyDB)
    (fault : Option (Nat × Fault)) : Bool × IndexedRequest × PolyDB :=
  let keys := MapKeys req.toIndex
  let (written, db1, errors) := db.accept_bulk fault keys (ApplyIndexVisitor req.toIndex) req.errors
  (decide (written ≠ -1) && StringMap.empty errors, { req with errors := errors }, db1)

/-- The method `IndexedRequest::cleanup()`. -/
def IndexedRequest.cleanup (req : IndexedRequest) (db : PolyDB)
    (fault : Option (Nat × Fault)) : Bool × IndexedRequest × PolyDB :=
  let (written, db1, errors) :=
    db.accept_bulk fault req.toRemove (RemoveIndexVisitor req.key) req.errors
  (decide (written ≠ -1) && StringMap.empty errors, { req with errors := errors }, db1)

/-- The method `IndexedRequest::transaction()`. -/
def IndexedRequest.transaction (req : IndexedRequest) (db : PolyDB) (f : Faults) :
    IndexedRequest × PolyDB :=
  let (began, db1) := db.begin_transaction f.begin_transaction
  if !began then ({ req with result := db1.err }, db1)
  else
    let (ok, db2) := req.main_operation db1 f.main_operation
    if !ok then ({ req with result := db2.err }, (db2.end_transaction Option.none false).2)
    else
      let (okIndex, req3, db3) :=
        if !StringMap.empty req.toIndex then req.apply_index db2 f.apply_index
        else (true, req, db2)
      if !okIndex then
        ({ req3 with result := db3.err }, (db3.end_transaction Option.none false).2)
      else
        let (okRemove, req4, db4) :=
          if !req3.toRemove.isEmpty then req3.cleanup db3 f.cleanup
          else (true, req3, db3)
        if !okRemove then
          ({ req4 with result := db4.err }, (db4.end_transaction Option.none false).2)
        else
          let (committed, db5) := db4.end_transaction f.commit true
          if !committed then ({ req4 with result := db5.err }, db5)
          else (req4, db5)

/-- The method `IndexedRequest::exec()`. -/
def IndexedRequest.exec (req : IndexedRequest) (db : PolyDB) (f : Faults) :
    IndexedRequest × PolyDB :=
  if StringMap.empty req.toIndex && req.toRemove.isEmpty then
    let (ok, db1) := req.main_operation db f.main_operation
    if !ok then ({ req with result := db1.err }, db1)
    else (req, db1)
  else req.transaction db f

/-- The guarded call `if (!toIndex.empty()) apply_index()` inside `transaction()`: the pass
is skipped, and counts as successful, when there is nothing to index. -/
def IndexedRequest.indexStep (req : IndexedRequest) (db : PolyDB)
    (fault : Option (Nat × Fault)) : Bool × IndexedRequest × PolyDB :=
  if !StringMap.empty req.toIndex then req.apply_index db fault else (true, req, db)

/-- The guarded call `if (!toRemove.empty()) cleanup()` inside `transaction()`. -/
def IndexedRequest.removeStep (req : IndexedRequest) (db : PolyDB)
    (fault : Option (Nat × Fault)) : Bool × IndexedRequest × PolyDB :=
  if !req.toRemove.isEmpty then req.cleanup db fault else (true, req, db)

/-- The method `IndexedRequest::error()`, on the members `result` and `errors` it reads. -/
def IndexedRequest.errorOf (result : Code) (errors : StringMap) : Value :=
  let err := Request.error result
  if !StringMap.empty errors then
    let err1 := if err.IsNull then Value.error (Message.text "index-error") none none else err
    Value.setInvalid errors err1
  else err

/-- The method `IndexedRequest::error()` of a request. -/
def IndexedRequest.error (req : IndexedRequest) : Value :=
  IndexedRequest.errorOf req.result req.errors

/-- The property `code` of a delivered value (set on `Error` objects by `Request::error`). -/
def Value.code : Value → Option Code
  | Value.error _ code _ => code
  | _ => none

/-- The property `invalid` of a delivered value (set by `IndexedRequest::error`). -/
def Value.invalid : Value → Option StringMap
  | Value.error _ _ invalid => invalid
  | _ => none

/-- The calls issued between two states of the engine. -/
def issued (before after : PolyDB) : List Call := after.log.drop before.log.length

/-- An engine handle holding the given records, with no error recorded and no call issued. -/
def PolyDB.fresh (records : Records) : PolyDB :=
  { records := records, saved := none, err := Code.SUCCESS, log := [] }

/-- Whether a logged call is the primary operation, and its outcome. -/
def Call.primary : Call → Option Bool
  | Call.add _ _ ok => some ok
  | Call.replace _ _ ok => some ok
  | Call.remove _ ok => some ok
  | _ => none

/-- Whether a logged call is `begin_transaction`, and its outcome. -/
def Call.began : Call → Option Bool
  | Call.begin_transaction ok => some ok
  | _ => none

/-- Whether a logged call is `end_transaction`, and its `commit` argument. -/
def Call.ended : Call → Option Bool
  | Call.end_transaction commit _ => some commit
  | _ => none

/-- Whether a logged call is an `accept_bulk` that returned `-1`. -/
def Call.bulkFailed : Call → Bool
  | Call.accept_bulk _ written => decide (written = -1)
  | _ => false

/-- Whether a logged call is an `accept_bulk`. -/
def Call.isBulk : Call → Bool
  | Call.accept_bulk _ _ => true
  | _ => false

/-- The conflict the upsert pass meets at a key: the stored value, when the key is present, is
mapped by `index`, and the stored value is not the mapped one. -/
def upsertConflict (index : StringMap) (r : Records) (key : Bytes) : Option Bytes :=
  match Records.get r key, StringMap.find index key with
  | some actual, some expected => if actual = expected then none else some actual
  | _, _ => none

/-- The conflict the removal pass meets at a key: the stored value, when the key is present
and `EQ_UTF8_BUF` does not take the value for the owner key. -/
def removeConflict (owner : Bytes) (r : Records) (key : Bytes) : Option Bytes :=
  match Records.get r key with
  | some actual => if EQ_UTF8_BUF owner actual then none else some actual
  | none => none

/-! ## Request submission and delivery -/

/-- The methods declared with `DEFINE_METHOD`, of `PolyDBWrap` and of `CursorWrap`. -/
inductive Method
  | Open | Close | Clear | Set | Add | Replace | Append | Increment | IncrementDouble | CAS
  | Get | GetBulk | SetBulk | RemoveBulk | Remove | MatchPrefix | MatchRegex | Synchronize
  | AddIndexed | ReplaceIndexed | RemoveIndexed
  | CursorGet | CursorGetKey | CursorGetValue | CursorGetKeyBlock
  | CursorJump | CursorJumpTo | CursorJumpBack | CursorJumpBackTo | CursorStep | CursorStepBack
  deriving DecidableEq, Repr

/-- The expression `args[i]`: out of range, V8 yields `undefined`. -/
def arg (args : List Value) (i : Nat) : Value := args.getD i Value.undefined

/-- The test `value->IsString()`. -/
def Value.IsString : Value → Bool
  | Value.string _ => true
  | _ => false

/-- The test `value->IsNumber()`. -/
def Value.IsNumber : Value → Bool
  | Value.number _ => true
  | Value.double _ => true
  | _ => false

/-- The test `value->IsUint32()`. -/
def Value.IsUint32 : Value → Bool
  | Value.number n => decide (0 ≤ n ∧ n < 4294967296)
  | _ => false

/-- The test `value->IsBoolean()`. -/
def Value.IsBoolean : Value → Bool
  | Value.boolean _ => true
  | _ => false

/-- The test `value->IsFunction()`. -/
def Value.IsFunction : Value → Bool
  | Value.function _ => true
  | _ => false

/-- The test `value->IsArray()`. -/
def Value.IsArray : Value → Bool
  | Value.array _ => true
  | _ => false

/-- The test `value->IsObject()`: arrays, functions and errors are objects too. -/
def Value.IsObject : Value → Bool
  | Value.object _ => true
  | Value.array _ => true
  | Value.function _ => true
  | Value.error _ _ _ => true
  | Value.typeError _ => true
  | _ => false

/-- The static method `validate(args)` of the request class of each method. -/
def validate (m : Method) (args : List Value) : Bool :=
  match m with
  | Method.Open =>
    decide (args.length ≥ 3) && (arg args 0).IsString && (arg args 1).IsUint32
      && (arg args 2).IsFunction
  | Method.Close | Method.Clear =>
    decide (args.length ≥ 1) && (arg args 0).IsFunction
  | Method.Set | Method.Add | Method.Replace | Method.Append =>
    decide (args.length ≥ 3) && (arg args 0).IsString && (arg args 1).IsString
      && (arg args 2).IsFunction
  | Method.Increment | Method.IncrementDouble =>
    decide (args.length ≥ 3) && (arg args 0).IsString && (arg args 1).IsNumber
      && (arg args 2).IsNumber && (arg args 3).IsFunction
  | Method.CAS =>
    decide (args.length ≥ 3) && (arg args 0).IsString
      && ((arg args 1).IsString || (arg args 1).IsNull)
      && ((arg args 2).IsString || (arg args 2).IsNull)
      && (arg args 3).IsFunction
  | Method.Get =>
    decide (args.length ≥ 2) && (arg args 0).IsString && (arg args 1).IsFunction
  | Method.GetBulk | Method.RemoveBulk =>
    decide (args.length ≥ 3) && (arg args 0).IsArray && (arg args 1).IsBoolean
      && (arg args 2).IsFunction
  | Method.SetBulk =>
    decide (args.length ≥ 3) && (arg args 0).IsObject && (arg args 1).IsBoolean
      && (arg args 2).IsFunction
  | Method.Remove =>
    decide (args.length ≥ 1) && (arg args 0).IsString
  | Method.MatchPrefix | Method.MatchRegex =>
    decide (args.length ≥ 3) && (arg args 0).IsString && (arg args 1).IsNumber
      && (arg args 2).IsFunction
  | Method.Synchronize =>
    decide (args.length ≥ 1) && (arg args 0).IsBoolean
  | Method.AddIndexed =>
    decide (args.length ≥ 4) && (arg args 0).IsString && (arg args 1).IsString
      && ((arg args 2).IsObject || (arg args 2).IsNull)
      && (arg args 3).IsFunction
  | Method.ReplaceIndexed =>
    decide (args.length ≥ 5) && (arg args 0).IsString && (arg args 1).IsString
      && ((arg args 2).IsObject || (arg args 2).IsNull)
      && ((arg args 3).IsArray || (arg args 3).IsNull)
      && (arg args 4).IsFunction
  | Method.RemoveIndexed =>
    decide (args.length ≥ 3) && (arg args 0).IsString
      && ((arg args 1).IsArray || (arg args 1).IsNull)
      && (arg args 2).IsFunction
  | Method.CursorGet | Method.CursorGetKey | Method.CursorGetValue =>
    decide (args.length ≥ 2) && (arg args 0).IsBoolean && (arg args 1).IsFunction
  | Method.CursorGetKeyBlock =>
    decide (args.length ≥ 2) && (arg args 0).IsUint32 && (arg args 1).IsFunction
  | Method.CursorJump | Method.CursorJumpBack | Method.CursorStep | Method.CursorStepBack =>
    decide (args.length ≥ 1) && (arg args 0).IsFunction
  | Method.CursorJumpTo | Method.CursorJumpBackTo =>
    decide (args.length ≥ 2) && (arg args 0).IsString && (arg args 1).IsFunction

/-- The `nextIndex` each request constructor passes to `Request(args, nextIndex)`. -/
def nextIndex : Method → Nat
  | Method.Open => 2
  | Method.Close | Method.Clear => 0
  | Method.Set | Method.Add | Method.Replace | Method.Append => 2
  | Method.Increment | Method.IncrementDouble => 3
  | Method.CAS => 3
  | Method.Get => 1
  | Method.GetBulk | Method.RemoveBulk | Method.SetBulk => 2
  | Method.Remove => 1
  | Method.MatchPrefix | Method.MatchRegex => 2
  | Method.Synchronize => 1
  | Method.AddIndexed => 3
  | Method.ReplaceIndexed => 4
  | Method.RemoveIndexed => 2
  | Method.CursorGet | Method.CursorGetKey | Method.CursorGetValue => 1
  | Method.CursorGetKeyBlock => 1
  | Method.CursorJump | Method.CursorJumpBack | Method.CursorStep | Method.CursorStepBack => 0
  | Method.CursorJumpTo | Method.CursorJumpBackTo => 1

/-- A request object created by `new Request(args)`: its method, the captured arguments and
the completion target `next`. -/
structure Pending where
  method : Method
  args : List Value
  next : Value
  deriving DecidableEq, Repr

/-- What a submission observes and changes outside the request: the reference count of the
wrapper the method is called on (`wrap->Ref()` / `wrap->Unref()`), the reference count of the
event loop (`ev_ref` / `ev_unref`), and the requests handed to the worker pool by
`eio_custom`. -/
structure Runtime where
  wrapRefs : Nat
  loopRefs : Nat
  pool : List Pending
  deriving DecidableEq, Repr

/-- What a `DEFINE_FUNC` function hands back to V8: a raised exception, or `args.This()`. -/
inductive Returned
  | thrown (exception : Value)
  | this
  deriving DecidableEq, Repr

/-- The macro `THROW_BAD_ARGS`. -/
def THROW_BAD_ARGS : Returned := Returned.thrown (Value.typeError "Bad argument")

/-- The constructor `Request(args, nextIndex)`: captures `args[nextIndex]` and takes a
reference on the wrapper. -/
def Request.new (m : Method) (args : List Value) (rt : Runtime) : Pending × Runtime :=
  ({ method := m, args := args, next := arg args (nextIndex m) },
   { rt with wrapRefs := rt.wrapRefs + 1 })

/-- The function generated by `DEFINE_FUNC(Name, Request)`. -/
def DEFINE_FUNC (m : Method) (args : List Value) (rt : Runtime) : Returned × Runtime :=
  if !validate m args then (THROW_BAD_ARGS, rt)
  else
    let (req, rt1) := Request.new m args rt
    let rt2 := { rt1 with pool := rt1.pool ++ [req] }
    let rt3 := { rt2 with loopRefs := rt2.loopRefs + 1 }
    (Returned.this, rt3)

/-- The constant `INT64MIN`. -/
def INT64MIN : Int := -9223372036854775808

/-- The members of a request object that `after()` reads, as `exec()` left them. -/
structure Members where
  result : Code
  num : Int
  dnum : DoubleNum
  success : Bool
  vbuf : Option Bytes
  items : StringMap
  count : Int
  keys : StringList
  key : Bytes
  value : Bytes
  errors : StringMap
  deriving DecidableEq, Repr

/-- The host call `Integer::New(value)` of V8, declared `Integer::New(int32_t)`: an `int64_t`
argument is converted to `int32_t`, which keeps its low 32 bits. -/
def Integer.New (value : Int) : Value :=
  Value.number ((value + 2147483648) % 4294967296 - 2147483648)

/-- The method `Request::callback(argc, argv)`: the call
`next->Call(global, argc, argv)` of the completion target, recorded with its arguments.  The
member `next` is the unchecked cast of `args[nextIndex]` to a function; where that value is
not a function there is no completion target to run, and no call is recorded. -/
def callback (next : Value) (argv : List Value) (calls : List (List Value)) :
    List (List Value) :=
  if next.IsFunction then calls ++ [argv] else calls

/-- The method `after()` of the request class of each method, on the member `next` and the
members `exec()` has set. -/
def after (m : Method) (next : Value) (req : Members) (calls : List (List Value)) :
    List (List Value) :=
  match m with
  | Method.Open | Method.Close | Method.Clear | Method.Set | Method.Add | Method.Replace
  | Method.Append | Method.Remove | Method.Synchronize
  | Method.CursorJump | Method.CursorJumpTo | Method.CursorJumpBack | Method.CursorJumpBackTo
  | Method.CursorStep | Method.CursorStepBack =>
    callback next [Request.error req.result] calls
  | Method.Increment =>
    let argv := [Request.error req.result]
    let argv1 := if req.num ≠ INT64MIN then argv ++ [Integer.New req.num] else argv
    callback next argv1 calls
  | Method.IncrementDouble =>
    let argv := [Request.error req.result]
    let argv1 := if !req.dnum.isnan then argv ++ [Value.double req.dnum] else argv
    callback next argv1 calls
  | Method.CAS =>
    callback next [if req.result = Code.LOGIC then LNULL else Request.error req.result,
              Value.boolean req.success] calls
  | Method.Get =>
    let argv := [Request.error req.result]
    let argv1 := match req.vbuf with
      | some buf => argv ++ [Value.string buf]
      | none => argv
    callback next argv1 calls
  | Method.GetBulk =>
    callback next [Request.error req.result, MapToObj req.items] calls
  | Method.SetBulk | Method.RemoveBulk =>
    callback next [Request.error req.result, Integer.New req.count] calls
  | Method.MatchPrefix | Method.MatchRegex =>
    callback next [Request.error req.result, ListToArray req.keys] calls
  | Method.AddIndexed | Method.ReplaceIndexed | Method.RemoveIndexed =>
    callback next [IndexedRequest.errorOf req.result req.errors] calls
  | Method.CursorGet =>
    if req.result = Code.SUCCESS then
      callback next [LNULL, Value.string req.value, Value.string req.key] calls
    else
      callback next [if req.result = Code.NOREC then LNULL else Request.error req.result] calls
  | Method.CursorGetKey | Method.CursorGetValue =>
    if req.result = Code.SUCCESS then
      callback next [LNULL, Value.string req.value] calls
    else
      callback next [if req.result = Code.NOREC then LNULL else Request.error req.result] calls
  | Method.CursorGetKeyBlock =>
    if req.result = Code.SUCCESS then
      callback next [LNULL, ListToArray req.keys] calls
    else
      callback next [if req.result = Code.NOREC then LNULL else Request.error req.result] calls

/-! ## Plain requests of the store -/

/-- A request object right after its construction: `result` is `SUCCESS` and `exec()` has
filled in nothing yet. -/
def Members.init : Members :=
  { result := Code.SUCCESS, num := 0, dnum := { isnan := false, bits := 0 }, success := false,
    vbuf := none, items := [], count := 0, keys := [], key := [], value := [], errors := [] }

/-- The members `after()` reads of an indexed request. -/
def IndexedRequest.members (req : IndexedRequest) : Members :=
  { Members.init with result := req.result, errors := req.errors }

/-- The method `AddRequest::exec()`. -/
def AddRequest.exec (req : Members) (key value : Bytes) (db : PolyDB) (fault : Option Fault) :
    Members × PolyDB :=
  let (ok, db1) := db.add fault key value
  if !ok then ({ req with result := db1.err }, db1) else (req, db1)

/-- The method `ReplaceRequest::exec()`. -/
def ReplaceRequest.exec (req : Members) (key value : Bytes) (db : PolyDB)
    (fault : Option Fault) : Members × PolyDB :=
  let (ok, db1) := db.replace fault key value
  if !ok then ({ req with result := db1.err }, db1) else (req, db1)

/-- The method `RemoveRequest::exec()`. -/
def RemoveRequest.exec (req : Members) (key : Bytes) (db : PolyDB) (fault : Option Fault) :
    Members × PolyDB :=
  let (ok, db1) := db.remove fault key
  if !ok then ({ req with result := db1.err }, db1) else (req, db1)

/-- The plain method an indexed method falls back to: `add`, `replace`, `remove`. -/
def IndexedKind.plain : IndexedKind → Method
  | IndexedKind.AddIndexed => Method.Add
  | IndexedKind.ReplaceIndexed => Method.Replace
  | IndexedKind.RemoveIndexed => Method.Remove

/-- The indexed method of each kind of indexed request. -/
def IndexedKind.method : IndexedKind → Method
  | IndexedKind.AddIndexed => Method.AddIndexed
  | IndexedKind.ReplaceIndexed => Method.ReplaceIndexed
  | IndexedKind.RemoveIndexed => Method.RemoveIndexed

/-- The `exec()` of the plain request class an indexed kind corresponds to, on the same key
and value. -/
def IndexedKind.plainExec (kind : IndexedKind) (req : Members) (key value : Bytes)
    (db : PolyDB) (fault : Option Fault) : Members × PolyDB :=
  match kind with
  | IndexedKind.AddIndexed => AddRequest.exec req key value db fault
  | IndexedKind.ReplaceIndexed => ReplaceRequest.exec req key value db fault
  | IndexedKind.RemoveIndexed => RemoveRequest.exec req key db fault

/-- Modelled from the spec: the call `db->cas(key, ovalue, nvalue)`.  It succeeds exactly when
the value stored at the key equals `ovalue` (`none` for a null `ovalue`: the key must be
absent); the key is then bound to `nvalue`, or removed for a null `nvalue`.  A mismatch
fails with `LOGIC`. -/
def PolyDB.cas (db : PolyDB) (fault : Option Fault) (key : Bytes)
    (ovalue nvalue : Option Bytes) : Bool × PolyDB :=
  match fault with
  | some f => (false, db.fail f.val (Call.cas key false))
  | none =>
    if db.get key = ovalue then
      (true, { db with
        records := match nvalue with
          | some value => Records.set db.records key value
          | none => Records.remove db.records key,
        log := db.log ++ [Call.cas key true] })
    else (false, db.fail Code.LOGIC (Call.cas key false))

/-- The method `CASRequest::exec()`. -/
def CASRequest.exec (req : Members) (key : Bytes) (ovalue nvalue : Option Bytes)
    (db : PolyDB) (fault : Option Fault) : Members × PolyDB :=
  let (success, db1) := db.cas fault key ovalue nvalue
  let req1 := { req with success := success }
  if !success then ({ req1 with result := db1.err }, db1) else (req1, db1)

/-! ## Cursor requests -/

/-- Modelled from the spec: the engine cursor `DB::Cursor`: the records from the current
position onward in cursor order (none when there is no current record), and the last error
code of its database (`CURSOR_ERROR`). -/
structure Cursor where
  rest : Records
  err : Code
  deriving DecidableEq, Repr

/-- Modelled from the spec: the call `cursor->get(&key, &value, step)`, which fails with
`NOREC` when there is no current record, and moves past the record when `step` is set. -/
def Cursor.get (cur : Cursor) (fault : Option Fault) (step : Bool) :
    Option (Bytes × Bytes) × Cursor :=
  match fault with
  | some f => (none, { cur with err := f.val })
  | none =>
    match cur.rest with
    | [] => (none, { cur with err := Code.NOREC })
    | record :: tl => (some record, if step then { cur with rest := tl } else cur)

/-- Modelled from the spec: the call `cursor->get_key(&key, step)`. -/
def Cursor.get_key (cur : Cursor) (fault : Option Fault) (step : Bool) :
    Option Bytes × Cursor :=
  match cur.get fault step with
  | (some record, cur1) => (some record.1, cur1)
  | (none, cur1) => (none, cur1)

/-- Modelled from the spec: the call `cursor->get_value(&value, step)`. -/
def Cursor.get_value (cur : Cursor) (fault : Option Fault) (step : Bool) :
    Option Bytes × Cursor :=
  match cur.get fault step with
  | (some record, cur1) => (some record.2, cur1)
  | (none, cur1) => (none, cur1)

/-- The method `CursorWrap::GetRequest::exec()`. -/
def CursorWrap.GetRequest.exec (req : Members) (step : Bool) (cur : Cursor)
    (fault : Option Fault) : Members × Cursor :=
  match cur.get fault step with
  | (none, cur1) => ({ req with result := cur1.err }, cur1)
  | (some record, cur1) => ({ req with key := record.1, value := record.2 }, cur1)

/-- The method `CursorWrap::GetKeyRequest::exec()`; the key is stored in the member
`value`. -/
def CursorWrap.GetKeyRequest.exec (req : Members) (step : Bool) (cur : Cursor)
    (fault : Option Fault) : Members × Cursor :=
  match cur.get_key fault step with
  | (none, cur1) => ({ req with result := cur1.err }, cur1)
  | (some key, cur1) => ({ req with value := key }, cur1)

/-- The method `CursorWrap::GetValueRequest::exec()`. -/
def CursorWrap.GetValueRequest.exec (req : Members) (step : Bool) (cur : Cursor)
    (fault : Option Fault) : Members × Cursor :=
  match cur.get_value fault step with
  | (none, cur1) => ({ req with result := cur1.err }, cur1)
  | (some value, cur1) => ({ req with value := value }, cur1)

/-- The loop of `CursorWrap::GetKeyBlockRequest::exec()` with `n` iterations left and loop
counter `i`; a fault `(j, f)` makes the call of iteration `j` fail with `f`. -/
def CursorWrap.GetKeyBlockRequest.loop (fault : Option (Nat × Fault)) :
    Nat → Nat → Members → Cursor → Members × Cursor
  | 0, _, req, cur => (req, cur)
  | n + 1, i, req, cur =>
    let callFault : Option Fault :=
      match fault with
      | some (j, f) => if j = i then some f else none
      | none => none
    match cur.get_key callFault true with
    | (none, cur1) => ({ req with result := cur1.err }, cur1)
    | (some key, cur1) =>
      CursorWrap.GetKeyBlockRequest.loop fault n (i + 1) { req with keys := req.keys ++ [key] }
        cur1

/-- The method `CursorWrap::GetKeyBlockRequest::exec()` for a request of the given `size`. -/
def CursorWrap.GetKeyBlockRequest.exec (size : Nat) (req : Members) (cur : Cursor)
    (fault : Option (Nat × Fault)) : Members × Cursor :=
  CursorWrap.GetKeyBlockRequest.loop fault size 0 req cur

/-- The first argument of the first recorded call of a completion target: the error argument
of a delivery. -/
def errorArgument (calls : List (List Value)) : Option Value :=
  calls.head?.bind List.head?

/-! ## Cursor construction -/

/-- Modelled from the spec: the call `db->cursor()` behind `PolyDBWrap::cursor()`, a new engine
cursor, which has no current record. -/
def PolyDB.cursor (db : PolyDB) : Cursor := { rest := [], err := db.err }

/-- The condition of the `if` in `CursorWrap::New`:
`args.Length() < 1 && args[0]->IsObject()`. -/
def CursorWrap.New.guard (args : List Value) : Bool :=
  decide (args.length < 1) && (arg args 0).IsObject

/-- The function `CursorWrap::New`.  The host call
`ObjectWrap::Unwrap<PolyDBWrap>(args[0]->ToObject())` is the parameter `unwrap`; it yields the
engine handle behind a wrapper object, and `none` where the host does not return from it.
The result is what `New` returns (`none` when it does not return) together with the engine
cursor it created, if any. -/
def CursorWrap.New (unwrap : Value → Option PolyDB) (args : List Value) :
    Option (Returned × Option Cursor) :=
  if CursorWrap.New.guard args then some (THROW_BAD_ARGS, none)
  else
    match unwrap (arg args 0) with
    | none => none
    | some db => some (Returned.this, some db.cursor)

/-! ## The request lifecycle as a state machine -/

/-- A request in flight: the wrapper (by identity) it was created on, the request object, and
its members as `exec()` left them once it has run. -/
structure InFlight where
  wrap : Nat
  req : Pending
  members : Members
  deriving DecidableEq, Repr

/-- The process around the binding: the reference count of every wrapper, the reference count
of the event loop, the requests handed to the worker pool whose `exec()` has not run yet, the
requests whose `exec()` has run and whose `EIO_After` is pending, the calls of completion
targets made so far, the engine closes performed so far (each with the wrapper and the number
of other requests of that wrapper scheduled and not yet executed at that moment), and the
wrappers whose destructor has run. -/
structure Process where
  refs : Nat → Nat
  loopRefs : Nat
  scheduled : List InFlight
  executed : List InFlight
  delivered : List (List Value)
  closes : List (Nat × Nat)
  destroyed : List Nat

/-- The requests of a wrapper that are scheduled and whose `exec()` has not run yet. -/
def Process.busy (p : Process) (w : Nat) : Nat :=
  (p.scheduled.filter (fun x => decide (x.wrap = w))).length

/-- The requests of a wrapper that are submitted and not yet delivered. -/
def Process.inFlight (p : Process) (w : Nat) : Nat :=
  ((p.scheduled ++ p.executed).filter (fun x => decide (x.wrap = w))).length

/-- A call of a `DEFINE_FUNC` function on the wrapper `w` (`args.This()`). -/
def Process.submit (p : Process) (w : Nat) (m : Method) (args : List Value) :
    Returned × Process :=
  let (ret, rt) := DEFINE_FUNC m args { wrapRefs := p.refs w, loopRefs := p.loopRefs, pool := [] }
  (ret, { p with
    refs := Function.update p.refs w rt.wrapRefs,
    loopRefs := rt.loopRefs,
    scheduled := p.scheduled ++
      rt.pool.map (fun req => { wrap := w, req := req, members := Members.init }) })

/-- The function generated by `DEFINE_EXEC(Name, Request)`, run by a worker on the request at
position `i` of the pool; `outcome` is the state `exec()` leaves the members in.  The
`exec()` of `CloseRequest` performs the engine close. -/
def Process.DEFINE_EXEC (p : Process) (i : Nat) (outcome : Members) : Process :=
  match p.scheduled.get? i with
  | none => p
  | some x =>
    let p1 := { p with
      scheduled := p.scheduled.eraseIdx i,
      executed := p.executed ++ [{ x with members := outcome }] }
    if x.req.method = Method.Close then
      { p1 with closes := p1.closes ++ [(x.wrap, p1.busy x.wrap)] }
    else p1

/-- The function generated by `DEFINE_AFTER(Name, Request)`, run on the request at position
`i` of the executed ones: `ev_unref`, `req->after()`, and `delete req`, whose destructor
`~Request()` drops the reference on the wrapper. -/
def Process.DEFINE_AFTER (p : Process) (i : Nat) : Process :=
  match p.executed.get? i with
  | none => p
  | some x =>
    let p1 := { p with loopRefs := p.loopRefs - 1 }
    let p2 := { p1 with delivered := after x.req.method x.req.next x.members p1.delivered }
    { p2 with
      refs := Function.update p2.refs x.wrap (p2.refs x.wrap - 1),
      executed := p2.executed.eraseIdx i }

/-- The method `PolyDBWrap::CloseSync` on the wrapper `w`: the engine close is performed at
once. -/
def Process.CloseSync (p : Process) (w : Nat) : Process :=
  { p with closes := p.closes ++ [(w, p.busy w)] }

/-- Modelled from the spec: the destruction of a wrapper (`~PolyDBWrap()` deletes the engine
handle), which the host runs only for a wrapper nothing holds a reference on. -/
def Process.collect (p : Process) (w : Nat) : Process :=
  { p with destroyed := w :: p.destroyed }

/-- The steps of the process: submit, execute, deliver, `closeSync`, and the destruction of
an unreferenced wrapper. -/
inductive Step : Process → Process → Prop
  | submit (p : Process) (w : Nat) (m : Method) (args : List Value)
      (alive : w ∉ p.destroyed) : Step p (p.submit w m args).2
  | execute (p : Process) (i : Nat) (outcome : Members)
      (inRange : i < p.scheduled.length) : Step p (p.DEFINE_EXEC i outcome)
  | deliver (p : Process) (i : Nat)
      (inRange : i < p.executed.length) : Step p (p.DEFINE_AFTER i)
  | closeSync (p : Process) (w : Nat)
      (alive : w ∉ p.destroyed) : Step p (p.CloseSync w)
  | collect (p : Process) (w : Nat)
      (unreferenced : p.refs w = 0) : Step p (p.collect w)

/-- The states the process reaches from a given state. -/
inductive Reachable (p0 : Process) : Process → Prop
  | start : Reachable p0 p0
  | step (p q : Process) (sofar : Reachable p0 p) (next : Step p q) : Reachable p0 q

/-- A process with nothing in flight: every wrapper has the given reference count. -/
def Process.idle (refs : Nat → Nat) (loopRefs : Nat) : Process :=
  { refs := refs, loopRefs := loopRefs, scheduled := [], executed := [], delivered := [],
    closes := [], destroyed := [] }

/-! # Verification -/

/-! ## Records, maps and comparisons -/

theorem Records.get_remove (r : Records) (k x : Bytes) :
    Records.get (Records.remove r k) x = if x = k then none else Records.get r x := by
  induction r with
  | nil => simp [Records.remove, Records.get]
  | cons p rest ih =>
    obtain ⟨a, b⟩ := p
    simp only [Records.remove] at ih ⊢
    by_cases hak : a = k
    · subst hak
      simp only [List.filter, ne_eq, not_true_eq_false, decide_False]
      rw [ih]
      by_cases hx : x = a <;> simp [Records.get, hx]
    · simp only [List.filter, ne_eq, hak, not_false_eq_true, decide_True, Records.get]
      rw [ih]
      by_cases hx : x = a
      · subst hx; simp [hak]
      · simp [hx]

theorem Records.get_set (r : Records) (k v x : Bytes) :
    Records.get (Records.set r k v) x = if x = k then some v else Records.get r x := by
  simp only [Records.set, Records.get, Records.get_remove]
  by_cases hx : x = k <;> simp [hx]

theorem StringMap.find_insert (m : StringMap) (k v x : Bytes) :
    StringMap.find (StringMap.insert m (k, v)) x =
      match StringMap.find m x with
      | some y => some y
      | none => if x = k then some v else none := by
  have happ : ∀ (l : StringMap), StringMap.find (l ++ [(k, v)]) x =
      match StringMap.find l x with
      | some y => some y
      | none => if x = k then some v else none := by
    intro l
    induction l with
    | nil => simp [StringMap.find]
    | cons p rest ih =>
      obtain ⟨a, b⟩ := p
      by_cases hx : x = a
      · simp [StringMap.find, hx]
      · simp only [List.cons_append, StringMap.find, hx, if_false]
        exact ih
  unfold StringMap.insert
  cases hk : StringMap.find m k with
  | some y =>
    simp only
    cases hx : StringMap.find m x with
    | some z => rfl
    | none =>
      have : x ≠ k := by intro h; rw [h, hk] at hx; cases hx
      simp [this]
  | none => simp only; exact happ m

theorem StringMap.empty_iff (m : StringMap) : StringMap.empty m = true ↔ m = [] := by
  cases m <;> simp [StringMap.empty]

theorem StringMap.find_nil (x : Bytes) : StringMap.find [] x = none := rfl

theorem StringMap.mem_keys_of_find {m : StringMap} {x v : Bytes}
    (h : StringMap.find m x = some v) : x ∈ MapKeys m := by
  induction m with
  | nil => simp [StringMap.find] at h
  | cons p rest ih =>
    obtain ⟨a, b⟩ := p
    by_cases hx : x = a
    · simp [MapKeys, hx]
    · simp only [StringMap.find, hx, if_false] at h
      have := ih h
      simp only [MapKeys] at this ⊢
      simp [this]

theorem StringMap.find_of_mem_keys {m : StringMap} {x : Bytes}
    (h : x ∈ MapKeys m) : ∃ v, StringMap.find m x = some v := by
  induction m with
  | nil => simp [MapKeys] at h
  | cons p rest ih =>
    obtain ⟨a, b⟩ := p
    by_cases hx : x = a
    · exact ⟨b, by simp [StringMap.find, hx]⟩
    · simp only [MapKeys, List.map_cons, List.mem_cons, hx, false_or] at h
      obtain ⟨v, hv⟩ := ih h
      exact ⟨v, by simp [StringMap.find, hx, hv]⟩

theorem EQ_STRING_BUF_iff (s b : Bytes) : EQ_STRING_BUF s b = true ↔ s = b := by
  unfold EQ_STRING_BUF
  constructor
  · intro h
    simp only [Bool.and_eq_true, decide_eq_true_eq] at h
    obtain ⟨hl, ht⟩ := h
    rw [← hl, List.take_length] at ht
    exact ht
  · intro h; subst h; simp

theorem apply_accept_get (index : StringMap) (r : Records) (e : StringMap) (k x : Bytes) :
    Records.get (Records.accept r (ApplyIndexVisitor index) e k).1 x =
      match Records.get r x with
      | some a => some a
      | none => if x = k then StringMap.find index x else none := by
  unfold Records.accept
  cases hk : Records.get r k with
  | some val =>
    have h1 : ((ApplyIndexVisitor index).visit_full e k val).1 = Action.NOP := by
      simp only [ApplyIndexVisitor]
      split <;> [split; skip] <;> rfl
    simp only [h1, Records.apply]
    cases hx : Records.get r x with
    | some a => rfl
    | none =>
      have : x ≠ k := by intro h; rw [h, hk] at hx; cases hx
      simp [this]
  | none =>
    simp only [ApplyIndexVisitor]
    cases hi : StringMap.find index k with
    | none =>
      simp only [Records.apply]
      cases hx : Records.get r x with
      | some a => rfl
      | none =>
        by_cases hxk : x = k
        · subst hxk; simp [hi]
        · simp [hxk]
    | some ev =>
      simp only [Records.apply, Records.get_set]
      by_cases hxk : x = k
      · subst hxk; simp [hk, hi]
      · simp only [hxk, if_false]
        cases hx : Records.get r x <;> rfl

theorem apply_accept_find (index : StringMap) (r : Records) (e : StringMap) (k x : Bytes) :
    StringMap.find (Records.accept r (ApplyIndexVisitor index) e k).2 x =
      match StringMap.find e x with
      | some y => some y
      | none => if x = k then upsertConflict index r x else none := by
  unfold Records.accept
  cases hk : Records.get r k with
  | some val =>
    simp only [ApplyIndexVisitor]
    cases hi : StringMap.find index k with
    | none =>
      simp only
      cases hx : StringMap.find e x with
      | some y => rfl
      | none =>
        by_cases hxk : x = k
        · subst hxk; simp [upsertConflict, hk, hi]
        · simp [hxk]
    | some ev =>
      simp only
      by_cases heq : EQ_STRING_BUF ev val = true
      · have hev : ev = val := (EQ_STRING_BUF_iff ev val).1 heq
        simp only [heq, Bool.not_true, Bool.false_eq_true, if_false]
        cases hx : StringMap.find e x with
        | some y => rfl
        | none =>
          by_cases hxk : x = k
          · subst hxk; simp [upsertConflict, hk, hi, hev]
          · simp [hxk]
      · have hev : ¬ ev = val := fun h => heq ((EQ_STRING_BUF_iff ev val).2 h)
        have hev2 : ¬ val = ev := fun h => hev h.symm
        simp only [heq, Bool.not_false, if_true, StringMap.find_insert]
        cases hx : StringMap.find e x with
        | some y => rfl
        | none =>
          by_cases hxk : x = k
          · subst hxk; simp [upsertConflict, hk, hi, hev2]
          · simp [hxk]
  | none =>
    have h2 : ((ApplyIndexVisitor index).visit_empty e k).2 = e := by
      simp only [ApplyIndexVisitor]
      split <;> rfl
    simp only [h2]
    cases hx : StringMap.find e x with
    | some y => rfl
    | none =>
      by_cases hxk : x = k
      · subst hxk; simp [upsertConflict, hk]
      · simp [hxk]

theorem apply_accept_conflict (index : StringMap) (r : Records) (e : StringMap) (k x : Bytes) :
    upsertConflict index (Records.accept r (ApplyIndexVisitor index) e k).1 x =
      upsertConflict index r x := by
  unfold upsertConflict
  rw [apply_accept_get]
  cases hx : Records.get r x with
  | some a => rfl
  | none =>
    by_cases hxk : x = k
    · subst hxk
      cases hi : StringMap.find index x <;> simp [hi]
    · simp [hxk]

theorem apply_pass_get (index : StringMap) (ks : StringList) (r : Records) (e : StringMap)
    (x : Bytes) :
    Records.get (Records.acceptAll (ApplyIndexVisitor index) r e ks).1 x =
      match Records.get r x with
      | some a => some a
      | none => if x ∈ ks then StringMap.find index x else none := by
  induction ks generalizing r e with
  | nil => simp only [Records.acceptAll]; cases Records.get r x <;> simp
  | cons k rest ih =>
    simp only [Records.acceptAll]
    rw [ih, apply_accept_get]
    cases hx : Records.get r x with
    | some a => rfl
    | none =>
      by_cases hxk : x = k
      · subst hxk
        cases hi : StringMap.find index x <;> simp [hi]
      · simp [hxk]

theorem apply_pass_find (index : StringMap) (ks : StringList) (r : Records) (e : StringMap)
    (x : Bytes) :
    StringMap.find (Records.acceptAll (ApplyIndexVisitor index) r e ks).2 x =
      match StringMap.find e x with
      | some y => some y
      | none => if x ∈ ks then upsertConflict index r x else none := by
  induction ks generalizing r e with
  | nil => simp only [Records.acceptAll]; cases StringMap.find e x <;> simp
  | cons k rest ih =>
    simp only [Records.acceptAll]
    rw [ih, apply_accept_find, apply_accept_conflict]
    cases hx : StringMap.find e x with
    | some y => rfl
    | none =>
      by_cases hxk : x = k
      · subst hxk
        cases hc : upsertConflict index r x <;> simp [hc]
      · simp [hxk]

/-! ## The removal pass -/

theorem remove_accept_get (o : Bytes) (r : Records) (e : StringMap) (k x : Bytes) :
    Records.get (Records.accept r (RemoveIndexVisitor o) e k).1 x =
      if x = k then removeConflict o r x else Records.get r x := by
  unfold Records.accept
  cases hk : Records.get r k with
  | some val =>
    simp only [RemoveIndexVisitor]
    by_cases heq : EQ_UTF8_BUF o val = true
    · simp only [heq, Bool.not_true, Bool.false_eq_true, if_false, Records.apply,
        Records.get_remove]
      by_cases hxk : x = k
      · subst hxk; simp [removeConflict, hk, heq]
      · simp [hxk]
    · simp only [heq, Bool.not_false, if_true, Records.apply]
      by_cases hxk : x = k
      · subst hxk; simp [removeConflict, hk, heq]
      · simp [hxk]
  | none =>
    simp only [RemoveIndexVisitor, Visitor.default_visit_empty, Records.apply]
    by_cases hxk : x = k
    · subst hxk; simp [removeConflict, hk]
    · simp [hxk]

theorem remove_accept_find (o : Bytes) (r : Records) (e : StringMap) (k x : Bytes) :
    StringMap.find (Records.accept r (RemoveIndexVisitor o) e k).2 x =
      match StringMap.find e x with
      | some y => some y
      | none => if x = k then removeConflict o r x else none := by
  unfold Records.accept
  cases hk : Records.get r k with
  | some val =>
    simp only [RemoveIndexVisitor]
    by_cases heq : EQ_UTF8_BUF o val = true
    · simp only [heq, Bool.not_true, Bool.false_eq_true, if_false]
      cases hx : StringMap.find e x with
      | some y => rfl
      | none =>
        by_cases hxk : x = k
        · subst hxk; simp [removeConflict, hk, heq]
        · simp [hxk]
    · simp only [heq, Bool.not_false, if_true, StringMap.find_insert]
      cases hx : StringMap.find e x with
      | some y => rfl
      | none =>
        by_cases hxk : x = k
        · subst hxk; simp [removeConflict, hk, heq]
        · simp [hxk]
  | none =>
    simp only [RemoveIndexVisitor, Visitor.default_visit_empty]
    cases hx : StringMap.find e x with
    | some y => rfl
    | none =>
      by_cases hxk : x = k
      · subst hxk; simp [removeConflict, hk]
      · simp [hxk]

theorem remove_accept_conflict (o : Bytes) (r : Records) (e : StringMap) (k x : Bytes) :
    removeConflict o (Records.accept r (RemoveIndexVisitor o) e k).1 x =
      removeConflict o r x := by
  have hget := remove_accept_get o r e k x
  by_cases hxk : x = k
  · simp only [hxk, if_true] at hget
    subst hxk
    unfold removeConflict at hget ⊢
    rw [hget]
    cases hx : Records.get r x with
    | none => rfl
    | some a =>
      simp only
      by_cases heq : EQ_UTF8_BUF o a = true
      · simp [heq]
      · simp [heq]
  · simp only [hxk, if_false] at hget
    unfold removeConflict
    rw [hget]

theorem remove_pass_get (o : Bytes) (ks : StringList) (r : Records) (e : StringMap)
    (x : Bytes) :
    Records.get (Records.acceptAll (RemoveIndexVisitor o) r e ks).1 x =
      if x ∈ ks then removeConflict o r x else Records.get r x := by
  induction ks generalizing r e with
  | nil => simp [Records.acceptAll]
  | cons k rest ih =>
    simp only [Records.acceptAll]
    rw [ih, remove_accept_get, remove_accept_conflict]
    by_cases hxk : x = k
    · subst hxk
      by_cases hm : x ∈ rest
      · simp [hm]
      · simp only [hm, if_false, if_true, List.mem_cons, true_or]
    · simp [hxk]

theorem remove_pass_find (o : Bytes) (ks : StringList) (r : Records) (e : StringMap)
    (x : Bytes) :
    StringMap.find (Records.acceptAll (RemoveIndexVisitor o) r e ks).2 x =
      match StringMap.find e x with
      | some y => some y
      | none => if x ∈ ks then removeConflict o r x else none := by
  induction ks generalizing r e with
  | nil => simp only [Records.acceptAll]; cases StringMap.find e x <;> simp
  | cons k rest ih =>
    simp only [Records.acceptAll]
    rw [ih, remove_accept_find, remove_accept_conflict]
    cases hx : StringMap.find e x with
    | some y => rfl
    | none =>
      by_cases hxk : x = k
      · subst hxk
        cases hc : removeConflict o r x <;> simp [hc]
      · simp [hxk]

/-! ## Runs of an indexed request -/

theorem issued_of_log {before after : PolyDB} {l : List Call}
    (h : after.log = before.log ++ l) : issued before after = l := by
  unfold issued
  rw [h, List.drop_left]

theorem written_ne (n : Nat) : decide ((n : Int) ≠ -1) = true := by
  simp only [decide_eq_true_eq]
  omega

theorem apply_index_ok (req : IndexedRequest) (db : PolyDB) :
    req.apply_index db none =
      (StringMap.empty
          (Records.acceptAll (ApplyIndexVisitor req.toIndex) db.records req.errors
            (MapKeys req.toIndex)).2,
        { req with errors := (Records.acceptAll (ApplyIndexVisitor req.toIndex) db.records
            req.errors (MapKeys req.toIndex)).2 },
        { db with
          records := (Records.acceptAll (ApplyIndexVisitor req.toIndex) db.records req.errors
            (MapKeys req.toIndex)).1,
          log := db.log ++
            [Call.accept_bulk (MapKeys req.toIndex) (MapKeys req.toIndex).length] }) := by
  simp only [IndexedRequest.apply_index, PolyDB.accept_bulk, written_ne, Bool.true_and]

theorem apply_index_fault (req : IndexedRequest) (db : PolyDB) (n : Nat) (c : Fault) :
    req.apply_index db (some (n, c)) =
      (false,
        { req with errors := (Records.acceptAll (ApplyIndexVisitor req.toIndex) db.records
            req.errors ((MapKeys req.toIndex).take n)).2 },
        { db with
          records := (Records.acceptAll (ApplyIndexVisitor req.toIndex) db.records req.errors
            ((MapKeys req.toIndex).take n)).1,
          err := c.val,
          log := db.log ++ [Call.accept_bulk (MapKeys req.toIndex) (-1)] }) := by
  simp [IndexedRequest.apply_index, PolyDB.accept_bulk]

theorem cleanup_ok (req : IndexedRequest) (db : PolyDB) :
    req.cleanup db none =
      (StringMap.empty
          (Records.acceptAll (RemoveIndexVisitor req.key) db.records req.errors req.toRemove).2,
        { req with errors := (Records.acceptAll (RemoveIndexVisitor req.key) db.records
            req.errors req.toRemove).2 },
        { db with
          records := (Records.acceptAll (RemoveIndexVisitor req.key) db.records req.errors
            req.toRemove).1,
          log := db.log ++ [Call.accept_bulk req.toRemove req.toRemove.length] }) := by
  simp only [IndexedRequest.cleanup, PolyDB.accept_bulk, written_ne, Bool.true_and]

theorem cleanup_fault (req : IndexedRequest) (db : PolyDB) (n : Nat) (c : Fault) :
    req.cleanup db (some (n, c)) =
      (false,
        { req with errors := (Records.acceptAll (RemoveIndexVisitor req.key) db.records
            req.errors (req.toRemove.take n)).2 },
        { db with
          records := (Records.acceptAll (RemoveIndexVisitor req.key) db.records req.errors
            (req.toRemove.take n)).1,
          err := c.val,
          log := db.log ++ [Call.accept_bulk req.toRemove (-1)] }) := by
  simp [IndexedRequest.cleanup, PolyDB.accept_bulk]

theorem StringMap.empty_eq_false_of_find {m : StringMap} {x v : Bytes}
    (h : StringMap.find m x = some v) : StringMap.empty m = false := by
  cases m with
  | nil => simp [StringMap.find] at h
  | cons p rest => rfl

theorem main_operation_fail (req : IndexedRequest) (db : PolyDB) (fault : Option Fault)
    (h : (req.main_operation db fault).1 = false) :
    (req.main_operation db fault).2.err ≠ Code.SUCCESS ∧
    (req.main_operation db fault).2.records = db.records := by
  obtain ⟨kind, key, value, toIndex, toRemove, errors, result⟩ := req
  simp only [IndexedRequest.main_operation] at h ⊢
  cases kind <;> cases fault with
    | some c =>
      first
        | exact ⟨c.property, rfl⟩
    | none =>
      simp only [PolyDB.add, PolyDB.replace, PolyDB.remove] at h ⊢
      cases hg : db.get key <;> simp [hg, PolyDB.fail] at h ⊢

theorem main_operation_saved (req : IndexedRequest) (db : PolyDB) (fault : Option Fault) :
    (req.main_operation db fault).2.saved = db.saved := by
  obtain ⟨kind, key, value, toIndex, toRemove, errors, result⟩ := req
  simp only [IndexedRequest.main_operation]
  cases kind <;> cases fault with
    | some c => rfl
    | none =>
      simp only [PolyDB.add, PolyDB.replace, PolyDB.remove]
      cases hg : db.get key <;> simp [PolyDB.fail]

theorem main_operation_err (req : IndexedRequest) (db : PolyDB) (fault : Option Fault)
    (h : (req.main_operation db fault).1 = true) :
    (req.main_operation db fault).2.err = db.err := by
  obtain ⟨kind, key, value, toIndex, toRemove, errors, result⟩ := req
  simp only [IndexedRequest.main_operation] at h ⊢
  cases kind <;> cases fault with
    | some c => simp [PolyDB.add, PolyDB.replace, PolyDB.remove] at h
    | none =>
      simp only [PolyDB.add, PolyDB.replace, PolyDB.remove] at h ⊢
      cases hg : db.get key <;> simp [hg, PolyDB.fail] at h ⊢

theorem main_operation_log (req : IndexedRequest) (db : PolyDB) (fault : Option Fault) :
    ∃ call, (req.main_operation db fault).2.log = db.log ++ [call] ∧
      call.primary = some (req.main_operation db fault).1 := by
  obtain ⟨kind, key, value, toIndex, toRemove, errors, result⟩ := req
  simp only [IndexedRequest.main_operation]
  cases kind <;> cases fault with
    | some c =>
      first
        | exact ⟨Call.add key value false, rfl, rfl⟩
        | exact ⟨Call.replace key value false, rfl, rfl⟩
        | exact ⟨Call.remove key false, rfl, rfl⟩
    | none =>
      simp only [PolyDB.add, PolyDB.replace, PolyDB.remove]
      cases hg : db.get key <;> simp [PolyDB.fail, Call.primary]

theorem main_operation_congr (req : IndexedRequest) (db db1 : PolyDB) (fault : Option Fault)
    (h : db1.records = db.records) :
    (req.main_operation db1 fault).1 = (req.main_operation db fault).1 ∧
    (req.main_operation db1 fault).2.records = (req.main_operation db fault).2.records := by
  have hg : db1.get req.key = db.get req.key := by simp [PolyDB.get, h]
  obtain ⟨kind, key, value, toIndex, toRemove, errors, result⟩ := req
  simp only [IndexedRequest.main_operation]
  cases kind <;> cases fault with
    | some c => simp [PolyDB.add, PolyDB.replace, PolyDB.remove, PolyDB.fail, h]
    | none =>
      simp only [PolyDB.add, PolyDB.replace, PolyDB.remove, hg]
      cases db.get key <;> simp [PolyDB.fail, h]

theorem Request.error_eq_null (result : Code) :
    Request.error result = Value.null ↔ result = Code.SUCCESS := by
  unfold Request.error
  by_cases h : result = Code.SUCCESS <;> simp [h, LNULL]

theorem IndexedRequest.errorOf_eq_null (result : Code) (errors : StringMap) :
    IndexedRequest.errorOf result errors = Value.null ↔
      result = Code.SUCCESS ∧ errors = [] := by
  unfold IndexedRequest.errorOf Request.error
  cases errors with
  | nil => by_cases h : result = Code.SUCCESS <;> simp [h, LNULL, StringMap.empty]
  | cons p rest =>
    by_cases h : result = Code.SUCCESS <;>
      simp [h, LNULL, StringMap.empty, Value.IsNull, Value.setInvalid]

theorem transaction_steps (req : IndexedRequest) (db : PolyDB) (f : Faults) :
    req.transaction db f =
      match db.begin_transaction f.begin_transaction with
      | (false, db1) => ({ req with result := db1.err }, db1)
      | (true, db1) =>
        match req.main_operation db1 f.main_operation with
        | (false, db2) =>
          ({ req with result := db2.err }, (db2.end_transaction none false).2)
        | (true, db2) =>
          match req.indexStep db2 f.apply_index with
          | (false, req3, db3) =>
            ({ req3 with result := db3.err }, (db3.end_transaction none false).2)
          | (true, req3, db3) =>
            match req3.removeStep db3 f.cleanup with
            | (false, req4, db4) =>
              ({ req4 with result := db4.err }, (db4.end_transaction none false).2)
            | (true, req4, db4) =>
              match db4.end_transaction f.commit true with
              | (false, db5) => ({ req4 with result := db5.err }, db5)
              | (true, db5) => (req4, db5) := by
  unfold IndexedRequest.transaction IndexedRequest.indexStep IndexedRequest.removeStep
  rcases db.begin_transaction f.begin_transaction with ⟨began, db1⟩
  cases began
  · rfl
  · simp only [Bool.not_true, Bool.false_eq_true, if_false]
    rcases req.main_operation db1 f.main_operation with ⟨ok, db2⟩
    cases ok
    · rfl
    · simp only [Bool.not_true, Bool.false_eq_true, if_false]
      rcases (if (!StringMap.empty req.toIndex) = true then req.apply_index db2 f.apply_index
        else (true, req, db2)) with ⟨okIndex, req3, db3⟩
      cases okIndex
      · rfl
      · simp only [Bool.not_true, Bool.false_eq_true, if_false]
        rcases (if (!req3.toRemove.isEmpty) = true then req3.cleanup db3 f.cleanup
          else (true, req3, db3)) with ⟨okRemove, req4, db4⟩
        cases okRemove
        · rfl
        · simp only [Bool.not_true, Bool.false_eq_true, if_false]
          rcases db4.end_transaction f.commit true with ⟨committed, db5⟩
          cases committed <;> rfl

theorem acceptAll_nil {σ : Type} (vis : Visitor σ) (r : Records) (st : σ) :
    Records.acceptAll vis r st [] = (r, st) := rfl

theorem MapKeys_eq_nil_of_empty {m : StringMap} (h : StringMap.empty m = true) :
    MapKeys m = [] := by
  rw [(StringMap.empty_iff m).1 h]; rfl

/-- The index step changes nothing of the request but `errors`, and keeps the snapshot. -/
theorem indexStep_frame (req : IndexedRequest) (db : PolyDB) (fa : Option (Nat × Fault)) :
    (req.indexStep db fa).2.1 = { req with errors := (req.indexStep db fa).2.1.errors } ∧
    (req.indexStep db fa).2.2.saved = db.saved := by
  unfold IndexedRequest.indexStep
  by_cases hI : StringMap.empty req.toIndex = true
  · simp [hI]
  · simp only [Bool.not_eq_true] at hI
    simp only [hI, Bool.not_false, if_true]
    cases fa with
    | none => rw [apply_index_ok]; exact ⟨rfl, rfl⟩
    | some p => obtain ⟨n, c⟩ := p; rw [apply_index_fault]; exact ⟨rfl, rfl⟩

/-- The index step without engine failure: the outcome of the full pass. -/
theorem indexStep_none (req : IndexedRequest) (db : PolyDB) (he : req.errors = []) :
    (req.indexStep db none).1 = StringMap.empty (Records.acceptAll
        (ApplyIndexVisitor req.toIndex) db.records [] (MapKeys req.toIndex)).2 ∧
    (req.indexStep db none).2.1.errors = (Records.acceptAll
        (ApplyIndexVisitor req.toIndex) db.records [] (MapKeys req.toIndex)).2 ∧
    (req.indexStep db none).2.2.records = (Records.acceptAll
        (ApplyIndexVisitor req.toIndex) db.records [] (MapKeys req.toIndex)).1 ∧
    (req.indexStep db none).2.2.err = db.err := by
  unfold IndexedRequest.indexStep
  by_cases hI : StringMap.empty req.toIndex = true
  · have hnil : req.toIndex = [] := (StringMap.empty_iff _).1 hI
    simp only [hnil, StringMap.empty, List.isEmpty_nil, Bool.not_true, Bool.false_eq_true,
      if_false, MapKeys, List.map_nil, acceptAll_nil, he]
    exact ⟨trivial, trivial, trivial, trivial⟩
  · simp only [Bool.not_eq_true] at hI
    simp only [hI, Bool.not_false, if_true, apply_index_ok, he]
    refine ⟨?_, ?_, ?_, ?_⟩ <;> first | rfl | trivial

/-- A successful index step met no engine failure and no conflict. -/
theorem indexStep_ok (req : IndexedRequest) (db : PolyDB) (fa : Option (Nat × Fault))
    (he : req.errors = []) (h : (req.indexStep db fa).1 = true) :
    (req.indexStep db fa).2.1.errors = [] ∧
    (Records.acceptAll (ApplyIndexVisitor req.toIndex) db.records []
      (MapKeys req.toIndex)).2 = [] ∧
    (req.indexStep db fa).2.2.records = (Records.acceptAll
        (ApplyIndexVisitor req.toIndex) db.records [] (MapKeys req.toIndex)).1 ∧
    (req.indexStep db fa).2.2.err = db.err := by
  cases fa with
  | some p =>
    obtain ⟨n, c⟩ := p
    unfold IndexedRequest.indexStep at h ⊢
    by_cases hI : StringMap.empty req.toIndex = true
    · simp [hI, MapKeys_eq_nil_of_empty hI, acceptAll_nil, he]
    · simp only [Bool.not_eq_true] at hI
      simp [hI, apply_index_fault] at h
  | none =>
    obtain ⟨h1, h2, h3, h4⟩ := indexStep_none req db he
    rw [h1, StringMap.empty_iff] at h
    exact ⟨h2.trans h, h, h3, h4⟩

/-- A failed index step leaves a conflict or an engine error on record. -/
theorem indexStep_fail (req : IndexedRequest) (db : PolyDB) (fa : Option (Nat × Fault))
    (h : (req.indexStep db fa).1 = false) :
    (req.indexStep db fa).2.1.errors ≠ [] ∨ (req.indexStep db fa).2.2.err ≠ Code.SUCCESS := by
  unfold IndexedRequest.indexStep at h ⊢
  by_cases hI : StringMap.empty req.toIndex = true
  · simp [hI] at h
  · simp only [Bool.not_eq_true] at hI
    simp only [hI, Bool.not_false, if_true] at h ⊢
    cases fa with
    | some p =>
      obtain ⟨n, c⟩ := p
      rw [apply_index_fault]
      exact Or.inr c.property
    | none =>
      rw [apply_index_ok] at h ⊢
      left
      simp only at h ⊢
      intro hnil
      rw [hnil] at h
      simp [StringMap.empty] at h

/-- The calls of the index step: at most one `accept_bulk`; the step succeeds exactly when no
call failed and no conflict was recorded. -/
theorem indexStep_log (req : IndexedRequest) (db : PolyDB) (fa : Option (Nat × Fault))
    (he : req.errors = []) :
    ∃ l, (req.indexStep db fa).2.2.log = db.log ++ l ∧
      (∀ c ∈ l, c.primary = none ∧ c.ended = none ∧ c.isBulk = true) ∧
      ((req.indexStep db fa).1 = true ↔
        (∀ c ∈ l, c.bulkFailed = false) ∧ (req.indexStep db fa).2.1.errors = []) := by
  unfold IndexedRequest.indexStep
  by_cases hI : StringMap.empty req.toIndex = true
  · exact ⟨[], by simp [hI, he]⟩
  · simp only [Bool.not_eq_true] at hI
    simp only [hI, Bool.not_false, if_true]
    cases fa with
    | some p =>
      obtain ⟨n, c⟩ := p
      rw [apply_index_fault]
      exact ⟨[Call.accept_bulk (MapKeys req.toIndex) (-1)], rfl,
        by simp [Call.primary, Call.ended, Call.isBulk], by simp [Call.bulkFailed]⟩
    | none =>
      rw [apply_index_ok]
      refine ⟨[Call.accept_bulk (MapKeys req.toIndex) (MapKeys req.toIndex).length], rfl,
        by simp [Call.primary, Call.ended, Call.isBulk], ?_⟩
      have hw : ¬ ((MapKeys req.toIndex).length : Int) = -1 := by omega
      simp [Call.bulkFailed, hw, StringMap.empty_iff]

theorem removeStep_frame (req : IndexedRequest) (db : PolyDB) (fc : Option (Nat × Fault)) :
    (req.removeStep db fc).2.1 = { req with errors := (req.removeStep db fc).2.1.errors } ∧
    (req.removeStep db fc).2.2.saved = db.saved := by
  unfold IndexedRequest.removeStep
  by_cases hI : req.toRemove.isEmpty = true
  · simp [hI]
  · simp only [Bool.not_eq_true] at hI
    simp only [hI, Bool.not_false, if_true]
    cases fc with
    | none => rw [cleanup_ok]; exact ⟨rfl, rfl⟩
    | some p => obtain ⟨n, c⟩ := p; rw [cleanup_fault]; exact ⟨rfl, rfl⟩

theorem removeStep_none (req : IndexedRequest) (db : PolyDB) (he : req.errors = []) :
    (req.removeStep db none).1 = StringMap.empty (Records.acceptAll
        (RemoveIndexVisitor req.key) db.records [] req.toRemove).2 ∧
    (req.removeStep db none).2.1.errors = (Records.acceptAll
        (RemoveIndexVisitor req.key) db.records [] req.toRemove).2 ∧
    (req.removeStep db none).2.2.records = (Records.acceptAll
        (RemoveIndexVisitor req.key) db.records [] req.toRemove).1 ∧
    (req.removeStep db none).2.2.err = db.err := by
  unfold IndexedRequest.removeStep
  by_cases hI : req.toRemove.isEmpty = true
  · have hnil : req.toRemove = [] := List.isEmpty_iff.1 hI
    simp [hnil, acceptAll_nil, he, StringMap.empty]
  · simp only [Bool.not_eq_true] at hI
    simp only [hI, Bool.not_false, if_true, cleanup_ok, he]
    refine ⟨?_, ?_, ?_, ?_⟩ <;> first | rfl | trivial

theorem removeStep_ok (req : IndexedRequest) (db : PolyDB) (fc : Option (Nat × Fault))
    (he : req.errors = []) (h : (req.removeStep db fc).1 = true) :
    (req.removeStep db fc).2.1.errors = [] ∧
    (Records.acceptAll (RemoveIndexVisitor req.key) db.records [] req.toRemove).2 = [] ∧
    (req.removeStep db fc).2.2.records = (Records.acceptAll
        (RemoveIndexVisitor req.key) db.records [] req.toRemove).1 ∧
    (req.removeStep db fc).2.2.err = db.err := by
  cases fc with
  | some p =>
    obtain ⟨n, c⟩ := p
    unfold IndexedRequest.removeStep at h ⊢
    by_cases hI : req.toRemove.isEmpty = true
    · have hnil : req.toRemove = [] := List.isEmpty_iff.1 hI
      simp [hnil, acceptAll_nil, he]
    · simp only [Bool.not_eq_true] at hI
      simp [hI, cleanup_fault] at h
  | none =>
    obtain ⟨h1, h2, h3, h4⟩ := removeStep_none req db he
    rw [h1, StringMap.empty_iff] at h
    exact ⟨h2.trans h, h, h3, h4⟩

theorem removeStep_fail (req : IndexedRequest) (db : PolyDB) (fc : Option (Nat × Fault))
    (h : (req.removeStep db fc).1 = false) :
    (req.removeStep db fc).2.1.errors ≠ [] ∨
      (req.removeStep db fc).2.2.err ≠ Code.SUCCESS := by
  unfold IndexedRequest.removeStep at h ⊢
  by_cases hI : req.toRemove.isEmpty = true
  · simp [hI] at h
  · simp only [Bool.not_eq_true] at hI
    simp only [hI, Bool.not_false, if_true] at h ⊢
    cases fc with
    | some p =>
      obtain ⟨n, c⟩ := p
      rw [cleanup_fault]
      exact Or.inr c.property
    | none =>
      rw [cleanup_ok] at h ⊢
      left
      simp only at h ⊢
      intro hnil
      rw [hnil] at h
      simp [StringMap.empty] at h

theorem removeStep_log (req : IndexedRequest) (db : PolyDB) (fc : Option (Nat × Fault))
    (he : req.errors = []) :
    ∃ l, (req.removeStep db fc).2.2.log = db.log ++ l ∧
      (∀ c ∈ l, c.primary = none ∧ c.ended = none ∧ c.isBulk = true) ∧
      ((req.removeStep db fc).1 = true ↔
        (∀ c ∈ l, c.bulkFailed = false) ∧ (req.removeStep db fc).2.1.errors = []) := by
  unfold IndexedRequest.removeStep
  by_cases hI : req.toRemove.isEmpty = true
  · exact ⟨[], by simp [hI, he]⟩
  · simp only [Bool.not_eq_true] at hI
    simp only [hI, Bool.not_false, if_true]
    cases fc with
    | some p =>
      obtain ⟨n, c⟩ := p
      rw [cleanup_fault]
      exact ⟨[Call.accept_bulk req.toRemove (-1)], rfl,
        by simp [Call.primary, Call.ended, Call.isBulk], by simp [Call.bulkFailed]⟩
    | none =>
      rw [cleanup_ok]
      refine ⟨[Call.accept_bulk req.toRemove req.toRemove.length], rfl,
        by simp [Call.primary, Call.ended, Call.isBulk], ?_⟩
      have hw : ¬ (req.toRemove.length : Int) = -1 := by omega
      simp [Call.bulkFailed, hw, StringMap.empty_iff]

theorem begin_transaction_ok (db : PolyDB) :
    (db.begin_transaction none).1 = true ∧
    (db.begin_transaction none).2.records = db.records ∧
    (db.begin_transaction none).2.saved = some db.records ∧
    (db.begin_transaction none).2.err = db.err ∧
    (db.begin_transaction none).2.log = db.log ++ [Call.begin_transaction true] :=
  ⟨rfl, rfl, rfl, rfl, rfl⟩

theorem end_transaction_commit (db : PolyDB) (fc : Option Fault) :
    ((db.end_transaction fc true).1 = false → (db.end_transaction fc true).2.err ≠ Code.SUCCESS) ∧
    ((db.end_transaction fc true).1 = true → (db.end_transaction fc true).2.records = db.records ∧
      (db.end_transaction fc true).2.err = db.err) ∧
    (∃ ok, (db.end_transaction fc true).2.log = db.log ++ [Call.end_transaction true ok]) := by
  cases fc with
  | some c =>
    refine ⟨fun _ => c.property, fun h => ?_, ⟨false, rfl⟩⟩
    simp [PolyDB.end_transaction] at h
  | none =>
    refine ⟨fun h => ?_, fun _ => ⟨rfl, rfl⟩, ⟨true, rfl⟩⟩
    simp [PolyDB.end_transaction] at h

theorem end_transaction_abort (db : PolyDB) :
    (db.end_transaction none false).2.records = db.saved.getD db.records ∧
    (db.end_transaction none false).2.err = db.err ∧
    (db.end_transaction none false).2.log = db.log ++ [Call.end_transaction false true] :=
  ⟨rfl, rfl, rfl⟩

/-- A run that delivers no error went through every step without failure or conflict; its
final records are those left by the primary operation and the two passes. -/
theorem exec_success (req : IndexedRequest) (db : PolyDB) (f : Faults)
    (he : req.errors = []) (h : (req.exec db f).1.error = Value.null) :
    (req.main_operation db f.main_operation).1 = true ∧
    (Records.acceptAll (ApplyIndexVisitor req.toIndex)
      (req.main_operation db f.main_operation).2.records [] (MapKeys req.toIndex)).2 = [] ∧
    (Records.acceptAll (RemoveIndexVisitor req.key)
      (Records.acceptAll (ApplyIndexVisitor req.toIndex)
        (req.main_operation db f.main_operation).2.records [] (MapKeys req.toIndex)).1
      [] req.toRemove).2 = [] ∧
    (req.exec db f).2.records =
      (Records.acceptAll (RemoveIndexVisitor req.key)
        (Records.acceptAll (ApplyIndexVisitor req.toIndex)
          (req.main_operation db f.main_operation).2.records [] (MapKeys req.toIndex)).1
        [] req.toRemove).1 := by
  rw [IndexedRequest.error, IndexedRequest.errorOf_eq_null] at h
  unfold IndexedRequest.exec at h ⊢
  by_cases hfast : (StringMap.empty req.toIndex && req.toRemove.isEmpty) = true
  · simp only [hfast, if_true] at h ⊢
    have hI : req.toIndex = [] := by
      simp only [Bool.and_eq_true] at hfast
      exact (StringMap.empty_iff _).1 hfast.1
    have hR : req.toRemove = [] := by
      simp only [Bool.and_eq_true] at hfast
      exact List.isEmpty_iff.1 hfast.2
    have hfail := main_operation_fail req db f.main_operation
    rcases hM : req.main_operation db f.main_operation with ⟨ok, db2⟩
    rw [hM] at h hfail
    cases ok
    · simp only [Bool.not_false, if_true] at h
      exact absurd h.1 (hfail rfl).1
    · simp [hI, hR, MapKeys, acceptAll_nil]
  · simp only [hfast, Bool.false_eq_true, if_false] at h ⊢
    rw [transaction_steps] at h ⊢
    cases hb : f.begin_transaction with
    | some c =>
      rw [hb] at h
      simp only [PolyDB.begin_transaction, PolyDB.fail] at h
      exact absurd h.1 c.property
    | none =>
      rw [hb] at h
      obtain ⟨hb1, hb2, -, -, -⟩ := begin_transaction_ok db
      rcases hB : db.begin_transaction none with ⟨began, db1⟩
      rw [hB] at hb1 hb2 h
      simp only at hb1 hb2
      subst hb1
      simp only at h ⊢
      have hfail := main_operation_fail req db1 f.main_operation
      obtain ⟨hc1, hc2⟩ := main_operation_congr req db db1 f.main_operation hb2
      rcases hM : req.main_operation db1 f.main_operation with ⟨ok, db2⟩
      rw [hM] at h hfail hc1 hc2
      simp only at hc1 hc2
      rw [← hc1, ← hc2]
      cases ok
      · simp only at h
        exact absurd h.1 (hfail rfl).1
      · simp only at h ⊢
        have hSfail := indexStep_fail req db2 f.apply_index
        have hSok := indexStep_ok req db2 f.apply_index he
        have hSframe := (indexStep_frame req db2 f.apply_index).1
        rcases hS : req.indexStep db2 f.apply_index with ⟨okI, req3, db3⟩
        rw [hS] at h hSfail hSok hSframe
        cases okI
        · simp only at h
          rcases hSfail rfl with h1 | h1
          · exact absurd h.2 h1
          · exact absurd h.1 h1
        · simp only at h hSok hSframe ⊢
          obtain ⟨he3, hP, hr3, -⟩ := hSok trivial
          have hkey : req3.key = req.key := by rw [hSframe]
          have hrem : req3.toRemove = req.toRemove := by rw [hSframe]
          have hCfail := removeStep_fail req3 db3 f.cleanup
          have hCok := removeStep_ok req3 db3 f.cleanup he3
          rcases hC : req3.removeStep db3 f.cleanup with ⟨okR, req4, db4⟩
          rw [hC] at h hCfail hCok
          cases okR
          · simp only at h
            rcases hCfail rfl with h1 | h1
            · exact absurd h.2 h1
            · exact absurd h.1 h1
          · simp only at h hCok ⊢
            obtain ⟨-, hQ, hr4, -⟩ := hCok trivial
            rw [hkey, hrem, hr3] at hQ hr4
            obtain ⟨hEfail, hEok, -⟩ := end_transaction_commit db4 f.commit
            rcases hE : db4.end_transaction f.commit true with ⟨okE, db5⟩
            rw [hE] at h hEfail hEok
            cases okE
            · simp only at h
              exact absurd h.1 (hEfail rfl)
            · simp only at hEok ⊢
              exact ⟨trivial, hP, hQ, (hEok trivial).1.trans hr4⟩

/-- After an upsert pass that recorded no conflict, every entry of the index is stored. -/
theorem upsert_pass_clean (index : StringMap) (r : Records) (ik ev : Bytes)
    (hclean : (Records.acceptAll (ApplyIndexVisitor index) r [] (MapKeys index)).2 = [])
    (hentry : StringMap.find index ik = some ev) :
    Records.get (Records.acceptAll (ApplyIndexVisitor index) r [] (MapKeys index)).1 ik =
      some ev := by
  have hmem : ik ∈ MapKeys index := StringMap.mem_keys_of_find hentry
  have hfind := apply_pass_find index (MapKeys index) r [] ik
  rw [hclean] at hfind
  simp only [StringMap.find_nil, hmem, if_true, upsertConflict, hentry] at hfind
  rw [apply_pass_get]
  cases hg : Records.get r ik with
  | none => simp [hmem, hentry]
  | some a =>
    rw [hg] at hfind
    simp only at hfind ⊢
    by_cases hae : a = ev
    · rw [hae]
    · simp [hae] at hfind

theorem IndexedRequest.errorOf_invalid (result : Code) (errors : StringMap)
    (h : errors ≠ []) :
    IndexedRequest.errorOf result errors ≠ Value.null ∧
    (IndexedRequest.errorOf result errors).invalid = some errors ∧
    (result = Code.SUCCESS → IndexedRequest.errorOf result errors =
      Value.error (Message.text "index-error") none (some errors)) := by
  unfold IndexedRequest.errorOf Request.error
  cases errors with
  | nil => exact absurd rfl h
  | cons p rest =>
    by_cases hs : result = Code.SUCCESS <;>
      simp [hs, LNULL, StringMap.empty, Value.IsNull, Value.setInvalid, Value.invalid]

theorem Call.primary_some {c : Call} {b : Bool} (h : c.primary = some b) :
    c.ended = none ∧ c.bulkFailed = false ∧ c.isBulk = false := by
  cases c <;> simp [Call.primary] at h <;> exact ⟨rfl, rfl, rfl⟩

/-- The calls of a begun transaction, path by path.  Either the primary operation fails and
the calls are `begin`, the primary call, `end_transaction(false)`; or it succeeds and they are
`begin`, the primary call, the calls of the passes, and one `end_transaction`, which commits
exactly when both passes succeeded. -/
theorem transaction_calls (req : IndexedRequest) (db : PolyDB) (f : Faults)
    (he : req.errors = []) (hb : f.begin_transaction = none) :
    ∃ (call : Call) (passes : List Call) (commit ok : Bool),
      issued db (req.transaction db f).2 =
        [Call.begin_transaction true, call] ++ passes ++ [Call.end_transaction commit ok] ∧
      call.primary = some (req.main_operation db f.main_operation).1 ∧
      (∀ c ∈ passes, c.primary = none ∧ c.ended = none ∧ c.isBulk = true) ∧
      ((req.main_operation db f.main_operation).1 = false → passes = [] ∧ commit = false) ∧
      (commit = true ↔ (req.main_operation db f.main_operation).1 = true ∧
        (∀ c ∈ passes, c.bulkFailed = false) ∧ (req.transaction db f).1.errors = []) := by
  rw [transaction_steps, hb]
  obtain ⟨hb1, hb2, -, -, hb5⟩ := begin_transaction_ok db
  rcases hB : db.begin_transaction none with ⟨began, db1⟩
  rw [hB] at hb1 hb2 hb5
  simp only at hb1 hb2 hb5
  subst hb1
  simp only
  obtain ⟨hc1, -⟩ := main_operation_congr req db db1 f.main_operation hb2
  obtain ⟨call, hlog2, hprim⟩ := main_operation_log req db1 f.main_operation
  rw [← hc1]
  rcases hM : req.main_operation db1 f.main_operation with ⟨okM, db2⟩
  rw [hM] at hlog2 hprim
  simp only at hlog2 hprim
  cases okM
  · refine ⟨call, [], false, true, ?_, hprim, by simp, by simp, by simp⟩
    apply issued_of_log
    rw [(end_transaction_abort db2).2.2, hlog2, hb5]
    simp
  · simp only
    obtain ⟨l1, hlog3, hl1, hiff1⟩ := indexStep_log req db2 f.apply_index he
    have hSok := indexStep_ok req db2 f.apply_index he
    rcases hS : req.indexStep db2 f.apply_index with ⟨okI, req3, db3⟩
    rw [hS] at hlog3 hiff1 hSok
    simp only at hlog3 hiff1 hSok
    cases okI
    · refine ⟨call, l1, false, true, ?_, hprim, hl1, by simp, ?_⟩
      · apply issued_of_log
        rw [(end_transaction_abort db3).2.2, hlog3, hlog2, hb5]
        simp
      · simp only [Bool.false_eq_true, true_and, false_iff]
        intro hcon
        exact Bool.false_ne_true (hiff1.2 hcon)
    · simp only
      have he3 : req3.errors = [] := (hSok rfl).1
      have hf1 : ∀ c ∈ l1, c.bulkFailed = false := (hiff1.1 rfl).1
      obtain ⟨l2, hlog4, hl2, hiff2⟩ := removeStep_log req3 db3 f.cleanup he3
      rcases hC : req3.removeStep db3 f.cleanup with ⟨okR, req4, db4⟩
      rw [hC] at hlog4 hiff2
      simp only at hlog4 hiff2
      cases okR
      · refine ⟨call, l1 ++ l2, false, true, ?_, hprim, ?_, by simp, ?_⟩
        · apply issued_of_log
          rw [(end_transaction_abort db4).2.2, hlog4, hlog3, hlog2, hb5]
          simp
        · intro c hc
          rcases List.mem_append.1 hc with h | h
          · exact hl1 c h
          · exact hl2 c h
        · simp only [Bool.false_eq_true, true_and, false_iff]
          rintro ⟨hall, herr⟩
          exact Bool.false_ne_true
            (hiff2.2 ⟨fun c hc => hall c (List.mem_append.2 (Or.inr hc)), herr⟩)
      · simp only
        have hf2 : ∀ c ∈ l2, c.bulkFailed = false := (hiff2.1 rfl).1
        have he4 : req4.errors = [] := (hiff2.1 rfl).2
        obtain ⟨-, -, okE, hlog5⟩ := end_transaction_commit db4 f.commit
        have hfin : ∀ c ∈ l1 ++ l2, c.bulkFailed = false := by
          intro c hc
          rcases List.mem_append.1 hc with h | h
          · exact hf1 c h
          · exact hf2 c h
        have hpass : ∀ c ∈ l1 ++ l2, c.primary = none ∧ c.ended = none ∧ c.isBulk = true := by
          intro c hc
          rcases List.mem_append.1 hc with h | h
          · exact hl1 c h
          · exact hl2 c h
        rcases hE : db4.end_transaction f.commit true with ⟨committed, db5⟩
        rw [hE] at hlog5
        simp only at hlog5
        have hiss : issued db db5 =
            [Call.begin_transaction true, call] ++ (l1 ++ l2) ++
              [Call.end_transaction true okE] := by
          apply issued_of_log
          rw [hlog5, hlog4, hlog3, hlog2, hb5]
          simp
        cases committed
        · exact ⟨call, l1 ++ l2, true, okE, hiss, hprim, hpass, by simp,
            ⟨fun _ => ⟨trivial, hfin, he4⟩, fun _ => rfl⟩⟩
        · exact ⟨call, l1 ++ l2, true, okE, hiss, hprim, hpass, by simp,
            ⟨fun _ => ⟨trivial, hfin, he4⟩, fun _ => rfl⟩⟩

theorem main_operation_congr_err (req : IndexedRequest) (db db1 : PolyDB)
    (fault : Option Fault) (h : db1.records = db.records)
    (hf : (req.main_operation db fault).1 = false) :
    (req.main_operation db1 fault).2.err = (req.main_operation db fault).2.err := by
  have hg : db1.get req.key = db.get req.key := by simp [PolyDB.get, h]
  obtain ⟨kind, key, value, toIndex, toRemove, errors, result⟩ := req
  simp only [IndexedRequest.main_operation] at hf hg ⊢
  cases kind <;> cases fault with
    | some c => simp [PolyDB.add, PolyDB.replace, PolyDB.remove, PolyDB.fail]
    | none =>
      simp only [PolyDB.add, PolyDB.replace, PolyDB.remove, hg] at hf ⊢
      cases hd : db.get key <;> simp [hd, PolyDB.fail] at hf ⊢

/-- A run that ends with recorded conflicts passed the primary operation, and its result code
is the engine's last error code. -/
theorem exec_conflict_path (req : IndexedRequest) (db : PolyDB) (f : Faults)
    (he : req.errors = []) (hconf : (req.exec db f).1.errors ≠ []) :
    (req.main_operation db f.main_operation).1 = true ∧
    (req.exec db f).1.result = (req.exec db f).2.err := by
  unfold IndexedRequest.exec at hconf ⊢
  by_cases hfast : (StringMap.empty req.toIndex && req.toRemove.isEmpty) = true
  · simp only [hfast, if_true] at hconf ⊢
    rcases hM : req.main_operation db f.main_operation with ⟨ok, db2⟩
    rw [hM] at hconf
    cases ok <;> simp [he] at hconf
  · simp only [hfast, Bool.false_eq_true, if_false] at hconf ⊢
    rw [transaction_steps] at hconf ⊢
    cases hb : f.begin_transaction with
    | some c =>
      rw [hb] at hconf
      simp [PolyDB.begin_transaction, he] at hconf
    | none =>
      rw [hb] at hconf
      obtain ⟨hb1, hb2, -, -, -⟩ := begin_transaction_ok db
      rcases hB : db.begin_transaction none with ⟨began, db1⟩
      rw [hB] at hb1 hb2 hconf
      simp only at hb1 hb2
      subst hb1
      simp only at hconf ⊢
      obtain ⟨hc1, -⟩ := main_operation_congr req db db1 f.main_operation hb2
      rw [← hc1]
      rcases hM : req.main_operation db1 f.main_operation with ⟨ok, db2⟩
      rw [hM] at hconf
      cases ok
      · simp [he] at hconf
      · simp only at hconf ⊢
        have hSok := indexStep_ok req db2 f.apply_index he
        rcases hS : req.indexStep db2 f.apply_index with ⟨okI, req3, db3⟩
        rw [hS] at hconf hSok
        cases okI
        · exact ⟨trivial, (end_transaction_abort db3).2.1.symm⟩
        · simp only at hconf hSok ⊢
          have he3 : req3.errors = [] := (hSok trivial).1
          have hCok := removeStep_ok req3 db3 f.cleanup he3
          rcases hC : req3.removeStep db3 f.cleanup with ⟨okR, req4, db4⟩
          rw [hC] at hconf hCok
          cases okR
          · exact ⟨trivial, (end_transaction_abort db4).2.1.symm⟩
          · simp only at hconf hCok
            have he4 : req4.errors = [] := (hCok trivial).1
            rcases hE : db4.end_transaction f.commit true with ⟨okE, db5⟩
            rw [hE] at hconf
            cases okE <;> exact absurd he4 hconf

theorem Cursor.get_cases (cur : Cursor) (fault : Option Fault) (step : Bool) :
    (∃ record cur1, cur.get fault step = (some record, cur1)) ∨
    (∃ cur1, cur.get fault step = (none, cur1) ∧ cur1.err ≠ Code.SUCCESS) := by
  unfold Cursor.get
  cases fault with
  | some f => exact Or.inr ⟨_, rfl, f.property⟩
  | none =>
    cases cur.rest with
    | nil => exact Or.inr ⟨_, rfl, by decide⟩
    | cons record tl => exact Or.inl ⟨_, _, rfl⟩

theorem Request.error_of_ne (c : Code) (h : c ≠ Code.SUCCESS) :
    Request.error c = Value.error (Message.codename c) (some c) none := by
  simp [Request.error, h]

theorem PolyDB.cas_cases (db : PolyDB) (fault : Option Fault) (key : Bytes)
    (ovalue nvalue : Option Bytes) :
    (∃ db1, db.cas fault key ovalue nvalue = (true, db1) ∧ db1.get key = nvalue ∧
      db1.err = db.err) ∨
    (∃ db1, db.cas fault key ovalue nvalue = (false, db1) ∧ db1.err ≠ Code.SUCCESS ∧
      db1.records = db.records) := by
  unfold PolyDB.cas
  cases fault with
  | some f => exact Or.inr ⟨_, rfl, f.property, rfl⟩
  | none =>
    by_cases h : db.get key = ovalue
    · left
      simp only [h, if_true]
      refine ⟨_, rfl, ?_, rfl⟩
      cases nvalue with
      | none => simp [PolyDB.get, Records.get_remove]
      | some value => simp [PolyDB.get, Records.get_set]
    · right
      simp only [h, if_false]
      exact ⟨_, rfl, by simp [PolyDB.fail], rfl⟩

theorem getKeyBlock_loop (n i : Nat) (req : Members) (cur : Cursor) :
    CursorWrap.GetKeyBlockRequest.loop none n i req cur =
      if n ≤ cur.rest.length then
        ({ req with keys := req.keys ++ (cur.rest.take n).map Prod.fst },
         { cur with rest := cur.rest.drop n })
      else
        ({ req with keys := req.keys ++ cur.rest.map Prod.fst, result := Code.NOREC },
         { rest := [], err := Code.NOREC }) := by
  induction n generalizing i req cur with
  | zero => simp [CursorWrap.GetKeyBlockRequest.loop]
  | succ n ih =>
    obtain ⟨rest, err⟩ := cur
    cases rest with
    | nil => simp [CursorWrap.GetKeyBlockRequest.loop, Cursor.get_key, Cursor.get]
    | cons record tl =>
      simp only [CursorWrap.GetKeyBlockRequest.loop, Cursor.get_key, Cursor.get, if_true]
      rw [ih]
      by_cases h : n ≤ tl.length
      · simp [h, List.append_assoc]
      · simp [h, List.append_assoc]

/-- The delivery of `getKeyBlock(n)` when the engine calls fail only for lack of a record:
the first `n` keys when at least `n` records remain, and otherwise the single argument
`null`, although `exec()` has collected the remaining keys. -/
theorem getKeyBlock_delivery (n target : Nat) (cur : Cursor) :
    (n ≤ cur.rest.length →
      after Method.CursorGetKeyBlock (Value.function target)
        (CursorWrap.GetKeyBlockRequest.exec n Members.init cur none).1 [] =
        [[Value.null, Value.array ((cur.rest.take n).map Prod.fst)]]) ∧
    (cur.rest.length < n →
      (CursorWrap.GetKeyBlockRequest.exec n Members.init cur none).1.keys =
        cur.rest.map Prod.fst ∧
      after Method.CursorGetKeyBlock (Value.function target)
        (CursorWrap.GetKeyBlockRequest.exec n Members.init cur none).1 [] =
        [[Value.null]]) := by
  unfold CursorWrap.GetKeyBlockRequest.exec
  rw [getKeyBlock_loop]
  constructor
  · intro h
    simp [h, after, callback, Value.IsFunction, Members.init, LNULL, ListToArray]
  · intro h
    have h1 : ¬ n ≤ cur.rest.length := by omega
    simp [h1, after, callback, Value.IsFunction, Members.init, LNULL]

theorem plainExec_eq (req : IndexedRequest) (m : Members) (db : PolyDB)
    (fault : Option Fault) :
    req.kind.plainExec m req.key req.value db fault =
      (if (req.main_operation db fault).1 then m
        else { m with result := (req.main_operation db fault).2.err },
       (req.main_operation db fault).2) := by
  obtain ⟨kind, key, value, toIndex, toRemove, errors, result⟩ := req
  cases kind
  · simp only [IndexedKind.plainExec, AddRequest.exec, IndexedRequest.main_operation]
    rcases db.add fault key value with ⟨ok, db1⟩
    cases ok <;> rfl
  · simp only [IndexedKind.plainExec, ReplaceRequest.exec, IndexedRequest.main_operation]
    rcases db.replace fault key value with ⟨ok, db1⟩
    cases ok <;> rfl
  · simp only [IndexedKind.plainExec, RemoveRequest.exec, IndexedRequest.main_operation]
    rcases db.remove fault key with ⟨ok, db1⟩
    cases ok <;> rfl

theorem exec_fast (req : IndexedRequest) (db : PolyDB) (f : Faults)
    (hI : req.toIndex = []) (hR : req.toRemove = []) :
    req.exec db f =
      (if (req.main_operation db f.main_operation).1 then req
        else { req with result := (req.main_operation db f.main_operation).2.err },
       (req.main_operation db f.main_operation).2) := by
  unfold IndexedRequest.exec
  simp only [hI, hR, StringMap.empty, List.isEmpty_nil, Bool.and_self, if_true]
  rcases req.main_operation db f.main_operation with ⟨ok, db1⟩
  cases ok <;> rfl

theorem after_plain_eq (kind : IndexedKind) (target : Nat) (m : Members)
    (calls : List (List Value)) :
    after kind.plain (Value.function target) m calls =
      calls ++ [[Request.error m.result]] := by
  cases kind <;> rfl

theorem after_indexed_eq (kind : IndexedKind) (target : Nat) (m : Members)
    (calls : List (List Value)) :
    after kind.method (Value.function target) m calls =
      calls ++ [[IndexedRequest.errorOf m.result m.errors]] := by
  cases kind <;> rfl

theorem IndexedRequest.errorOf_nil (result : Code) :
    IndexedRequest.errorOf result [] = Request.error result := by
  simp [IndexedRequest.errorOf, StringMap.empty]

theorem apply_accept_nop (index : StringMap) (r : Records) (e : StringMap) (k : Bytes)
    (h : Records.get r k ≠ none) :
    (Records.accept r (ApplyIndexVisitor index) e k).1 = r := by
  unfold Records.accept
  cases hk : Records.get r k with
  | none => exact absurd hk h
  | some val =>
    have h1 : ((ApplyIndexVisitor index).visit_full e k val).1 = Action.NOP := by
      simp only [ApplyIndexVisitor]
      split <;> [split; skip] <;> rfl
    simp only [h1, Records.apply]

/-- A pass over keys that are all present writes nothing. -/
theorem apply_pass_nop (index : StringMap) (ks : StringList) (r : Records) (e : StringMap)
    (h : ∀ k ∈ ks, Records.get r k ≠ none) :
    (Records.acceptAll (ApplyIndexVisitor index) r e ks).1 = r := by
  induction ks generalizing e with
  | nil => rfl
  | cons k rest ih =>
    simp only [Records.acceptAll]
    have hk := apply_accept_nop index r e k (h k (List.mem_cons_self _ _))
    have hrest : ∀ x ∈ rest, Records.get r x ≠ none :=
      fun x hx => h x (List.mem_cons_of_mem _ hx)
    have := ih (Records.accept r (ApplyIndexVisitor index) e k).2 hrest
    rw [hk]
    exact this

/-- One visit records the same on two stores that differ only where the second already holds
the expected value of a key absent from the first. -/
theorem apply_accept_sim (index : StringMap) (r r1 : Records) (e : StringMap) (k : Bytes)
    (h : Records.get r1 k = Records.get r k ∨
      (Records.get r k = none ∧ ∃ ev, StringMap.find index k = some ev ∧
        Records.get r1 k = some ev)) :
    (Records.accept r1 (ApplyIndexVisitor index) e k).2 =
      (Records.accept r (ApplyIndexVisitor index) e k).2 := by
  rcases h with h | ⟨hnone, ev, hev, hr1⟩
  · unfold Records.accept
    rw [h]
    cases Records.get r k <;> rfl
  · unfold Records.accept
    rw [hnone, hr1]
    have heq : EQ_STRING_BUF ev ev = true := (EQ_STRING_BUF_iff ev ev).2 rfl
    simp [ApplyIndexVisitor, hev, heq]

theorem apply_pass_sim (index : StringMap) (ks : StringList) (r r1 : Records) (e : StringMap)
    (h : ∀ x, Records.get r1 x = Records.get r x ∨
      (Records.get r x = none ∧ ∃ ev, StringMap.find index x = some ev ∧
        Records.get r1 x = some ev)) :
    (Records.acceptAll (ApplyIndexVisitor index) r1 e ks).2 =
      (Records.acceptAll (ApplyIndexVisitor index) r e ks).2 := by
  induction ks generalizing r r1 e with
  | nil => rfl
  | cons k rest ih =>
    simp only [Records.acceptAll]
    rw [apply_accept_sim index r r1 e k (h k)]
    apply ih
    intro x
    rw [apply_accept_get, apply_accept_get]
    rcases h x with hx | ⟨hnone, ev, hev, hr1⟩
    · left; rw [hx]
    · rw [hnone, hr1]
      by_cases hxk : x = k
      · left; simp [hxk, ← hev]
      · right; simp [hxk, hev]

theorem apply_pass_conflict (index : StringMap) (ks : StringList) (r : Records)
    (e : StringMap) (x : Bytes) :
    upsertConflict index (Records.acceptAll (ApplyIndexVisitor index) r e ks).1 x =
      upsertConflict index r x := by
  induction ks generalizing r e with
  | nil => rfl
  | cons k rest ih =>
    simp only [Records.acceptAll]
    rw [ih, apply_accept_conflict]

theorem StringMap.insert_of_find {m : StringMap} {k v w : Bytes}
    (h : StringMap.find m k = some w) : StringMap.insert m (k, v) = m := by
  simp [StringMap.insert, h]

theorem apply_accept_recorded (index : StringMap) (r : Records) (e : StringMap) (k : Bytes)
    (h : upsertConflict index r k ≠ none → StringMap.find e k ≠ none) :
    (Records.accept r (ApplyIndexVisitor index) e k).2 = e := by
  unfold Records.accept
  cases hk : Records.get r k with
  | none =>
    simp only [ApplyIndexVisitor]
    cases StringMap.find index k <;> rfl
  | some val =>
    simp only [ApplyIndexVisitor]
    cases hi : StringMap.find index k with
    | none => rfl
    | some ev =>
      simp only
      by_cases heq : EQ_STRING_BUF ev val = true
      · simp [heq]
      · have hev : ¬ val = ev := fun hh => heq ((EQ_STRING_BUF_iff ev val).2 hh.symm)
        have hc : upsertConflict index r k ≠ none := by
          simp [upsertConflict, hk, hi, hev]
        cases hf : StringMap.find e k with
        | none => exact absurd hf (h hc)
        | some w => simp [heq, StringMap.insert_of_find hf]

/-- A pass over present keys whose conflicts are all recorded already records nothing new. -/
theorem apply_pass_recorded (index : StringMap) (ks : StringList) (r : Records)
    (e : StringMap) (hpresent : ∀ k ∈ ks, Records.get r k ≠ none)
    (h : ∀ k ∈ ks, upsertConflict index r k ≠ none → StringMap.find e k ≠ none) :
    (Records.acceptAll (ApplyIndexVisitor index) r e ks).2 = e := by
  induction ks with
  | nil => rfl
  | cons k rest ih =>
    simp only [Records.acceptAll]
    rw [apply_accept_nop index r e k (hpresent k (List.mem_cons_self _ _)),
      apply_accept_recorded index r e k (h k (List.mem_cons_self _ _))]
    exact ih (fun x hx => hpresent x (List.mem_cons_of_mem _ hx))
      (fun x hx => h x (List.mem_cons_of_mem _ hx))

/-- The upsert pass run twice: the second run, with a fresh or with the carried error set,
leaves the records of the first run and ends with the error set of the first run. -/
theorem upsert_pass_twice (index : StringMap) (r : Records) :
    (Records.acceptAll (ApplyIndexVisitor index)
      (Records.acceptAll (ApplyIndexVisitor index) r [] (MapKeys index)).1 []
      (MapKeys index)) =
      Records.acceptAll (ApplyIndexVisitor index) r [] (MapKeys index) ∧
    (Records.acceptAll (ApplyIndexVisitor index)
      (Records.acceptAll (ApplyIndexVisitor index) r [] (MapKeys index)).1
      (Records.acceptAll (ApplyIndexVisitor index) r [] (MapKeys index)).2
      (MapKeys index)) =
      Records.acceptAll (ApplyIndexVisitor index) r [] (MapKeys index) := by
  have hpresent : ∀ k ∈ MapKeys index,
      Records.get (Records.acceptAll (ApplyIndexVisitor index) r [] (MapKeys index)).1 k
        ≠ none := by
    intro k hk
    obtain ⟨v, hv⟩ := StringMap.find_of_mem_keys hk
    rw [apply_pass_get]
    cases hg : Records.get r k <;> simp [hk, hv]
  have hrel : ∀ x,
      Records.get (Records.acceptAll (ApplyIndexVisitor index) r [] (MapKeys index)).1 x =
        Records.get r x ∨
      (Records.get r x = none ∧ ∃ ev, StringMap.find index x = some ev ∧
        Records.get (Records.acceptAll (ApplyIndexVisitor index) r [] (MapKeys index)).1 x =
          some ev) := by
    intro x
    rw [apply_pass_get]
    cases hg : Records.get r x with
    | some a => left; rfl
    | none =>
      by_cases hx : x ∈ MapKeys index
      · obtain ⟨v, hv⟩ := StringMap.find_of_mem_keys hx
        right; simp [hx, hv]
      · left; simp [hx]
  constructor
  · apply Prod.ext
    · exact apply_pass_nop index _ _ _ hpresent
    · exact apply_pass_sim index (MapKeys index) r _ [] hrel
  · apply Prod.ext
    · exact apply_pass_nop index _ _ _ hpresent
    · apply apply_pass_recorded index _ _ _ hpresent
      intro k hk hc
      rw [apply_pass_conflict] at hc
      rw [apply_pass_find]
      simp only [StringMap.find_nil, hk, if_true]
      exact hc

theorem Call.began_of_primary {c : Call} {b : Bool} (h : c.primary = some b) :
    c.began = none := by
  cases c <;> first | rfl | simp [Call.primary] at h

theorem Call.began_of_isBulk {c : Call} (h : c.isBulk = true) : c.began = none := by
  cases c <;> first | rfl | simp [Call.isBulk] at h

theorem exec_slow (req : IndexedRequest) (db : PolyDB) (f : Faults)
    (h : (StringMap.empty req.toIndex && req.toRemove.isEmpty) = false) :
    req.exec db f = req.transaction db f := by
  simp [IndexedRequest.exec, h]

theorem transaction_begin_fault (req : IndexedRequest) (db : PolyDB) (f : Faults) (c : Fault)
    (h : f.begin_transaction = some c) :
    req.transaction db f =
      ({ req with result := c.val }, db.fail c.val (Call.begin_transaction false)) := by
  rw [transaction_steps, h]
  rfl

/-- The records two clean passes leave: the entries of the index that are not removed, and
none of the keys to remove. -/
theorem clean_passes_records (index : StringMap) (remove : StringList) (k : Bytes)
    (r final : Records)
    (hP : (Records.acceptAll (ApplyIndexVisitor index) r [] (MapKeys index)).2 = [])
    (hQ : (Records.acceptAll (RemoveIndexVisitor k)
      (Records.acceptAll (ApplyIndexVisitor index) r [] (MapKeys index)).1 [] remove).2 = [])
    (hfinal : final = (Records.acceptAll (RemoveIndexVisitor k)
      (Records.acceptAll (ApplyIndexVisitor index) r [] (MapKeys index)).1 [] remove).1) :
    (∀ ik ev, StringMap.find index ik = some ev → ik ∉ remove →
      Records.get final ik = some ev) ∧
    (∀ rk, rk ∈ remove → Records.get final rk = none) := by
  subst hfinal
  constructor
  · intro ik ev hentry hnot
    rw [remove_pass_get]
    simp only [hnot, if_false]
    exact upsert_pass_clean index _ ik ev hP hentry
  · intro rk hrk
    have hfind := remove_pass_find k remove
      (Records.acceptAll (ApplyIndexVisitor index) r [] (MapKeys index)).1 [] rk
    rw [hQ] at hfind
    simp only [StringMap.find_nil, hrk, if_true] at hfind
    rw [remove_pass_get]
    simp only [hrk, if_true]
    exact hfind.symm

/-! ## The request lifecycle -/

theorem length_filter_eraseIdx {α : Type} (P : α → Bool) (l : List α) (i : Nat) (x : α)
    (h : l.get? i = some x) :
    (l.filter P).length = ((l.eraseIdx i).filter P).length + (if P x then 1 else 0) := by
  induction l generalizing i with
  | nil => simp at h
  | cons a rest ih =>
    cases i with
    | zero =>
      simp only [List.get?_cons_zero, Option.some.injEq] at h
      subst h
      cases hP : P a <;> simp [List.filter, hP]
    | succ j =>
      simp only [List.get?_cons_succ] at h
      have := ih j h
      cases hP : P a <;> simp [List.filter, hP, List.eraseIdx] <;> omega

theorem length_eraseIdx_add_one {α : Type} (l : List α) (i : Nat) (x : α)
    (h : l.get? i = some x) : (l.eraseIdx i).length + 1 = l.length := by
  induction l generalizing i with
  | nil => simp at h
  | cons a rest ih =>
    cases i with
    | zero => simp
    | succ j =>
      simp only [List.get?_cons_succ] at h
      simp [List.eraseIdx, ih j h]

theorem mem_of_mem_eraseIdx {α : Type} (l : List α) (i : Nat) (y : α)
    (h : y ∈ l.eraseIdx i) : y ∈ l := by
  induction l generalizing i with
  | nil => simp at h
  | cons a rest ih =>
    cases i with
    | zero => simp only [List.eraseIdx] at h; exact List.mem_cons_of_mem _ h
    | succ j =>
      simp only [List.eraseIdx, List.mem_cons] at h
      rcases h with h | h
      · rw [h]; exact List.mem_cons_self _ _
      · exact List.mem_cons_of_mem _ (ih j h)

theorem mem_of_get? {α : Type} (l : List α) (i : Nat) (x : α) (h : l.get? i = some x) :
    x ∈ l := by
  induction l generalizing i with
  | nil => simp at h
  | cons a rest ih =>
    cases i with
    | zero =>
      simp only [List.get?_cons_zero, Option.some.injEq] at h
      rw [h]; exact List.mem_cons_self _ _
    | succ j =>
      simp only [List.get?_cons_succ] at h
      exact List.mem_cons_of_mem _ (ih j h)

theorem get?_of_lt {α : Type} (l : List α) (i : Nat) (h : i < l.length) :
    ∃ x, l.get? i = some x := by
  induction l generalizing i with
  | nil => simp at h
  | cons a rest ih =>
    cases i with
    | zero => exact ⟨a, rfl⟩
    | succ j =>
      simp only [List.length_cons] at h
      exact ih j (by omega)

/-- An accepted submission: one more reference on the wrapper and on the event loop, and one
more scheduled request. -/
theorem submit_accept (p : Process) (w : Nat) (m : Method) (args : List Value)
    (hv : validate m args = true) :
    (p.submit w m args).2.refs = Function.update p.refs w (p.refs w + 1) ∧
    (p.submit w m args).2.loopRefs = p.loopRefs + 1 ∧
    (p.submit w m args).2.scheduled = p.scheduled ++
      [{ wrap := w, req := { method := m, args := args, next := arg args (nextIndex m) },
         members := Members.init }] ∧
    (p.submit w m args).2.executed = p.executed ∧
    (p.submit w m args).2.destroyed = p.destroyed := by
  simp [Process.submit, DEFINE_FUNC, hv, Request.new]

/-- A rejected submission changes nothing. -/
theorem submit_reject (p : Process) (w : Nat) (m : Method) (args : List Value)
    (hv : validate m args = false) :
    (p.submit w m args).2.refs = p.refs ∧
    (p.submit w m args).2.loopRefs = p.loopRefs ∧
    (p.submit w m args).2.scheduled = p.scheduled ∧
    (p.submit w m args).2.executed = p.executed ∧
    (p.submit w m args).2.destroyed = p.destroyed := by
  simp [Process.submit, DEFINE_FUNC, hv]

theorem exec_fields (p : Process) (i : Nat) (outcome : Members) (x : InFlight)
    (h : p.scheduled.get? i = some x) :
    (p.DEFINE_EXEC i outcome).refs = p.refs ∧
    (p.DEFINE_EXEC i outcome).loopRefs = p.loopRefs ∧
    (p.DEFINE_EXEC i outcome).scheduled = p.scheduled.eraseIdx i ∧
    (p.DEFINE_EXEC i outcome).executed = p.executed ++ [{ x with members := outcome }] ∧
    (p.DEFINE_EXEC i outcome).destroyed = p.destroyed := by
  unfold Process.DEFINE_EXEC
  rw [h]
  by_cases hm : x.req.method = Method.Close <;> simp [hm]

theorem after_fields (p : Process) (i : Nat) (x : InFlight)
    (h : p.executed.get? i = some x) :
    (p.DEFINE_AFTER i).refs = Function.update p.refs x.wrap (p.refs x.wrap - 1) ∧
    (p.DEFINE_AFTER i).loopRefs = p.loopRefs - 1 ∧
    (p.DEFINE_AFTER i).scheduled = p.scheduled ∧
    (p.DEFINE_AFTER i).executed = p.executed.eraseIdx i ∧
    (p.DEFINE_AFTER i).destroyed = p.destroyed ∧
    (p.DEFINE_AFTER i).delivered = after x.req.method x.req.next x.members p.delivered := by
  unfold Process.DEFINE_AFTER
  rw [h]
  exact ⟨rfl, rfl, rfl, rfl, rfl, rfl⟩

theorem inFlight_eq (p : Process) (w : Nat) :
    p.inFlight w = (p.scheduled.filter (fun x => decide (x.wrap = w))).length +
      (p.executed.filter (fun x => decide (x.wrap = w))).length := by
  simp [Process.inFlight, List.filter_append]

/-- The balance of reference counts: in every state reached from one with nothing in flight,
each wrapper holds its initial count plus one reference per request of it in flight, and the
event loop its initial count plus one per request in flight. -/
theorem reachable_refs (p0 p : Process) (hs : p0.scheduled = []) (he : p0.executed = [])
    (hr : Reachable p0 p) :
    (∀ w, p.refs w = p0.refs w + p.inFlight w) ∧
    p.loopRefs = p0.loopRefs + (p.scheduled.length + p.executed.length) := by
  induction hr with
  | start => simp [inFlight_eq, hs, he]
  | step p q _ next ih =>
    obtain ⟨ihr, ihl⟩ := ih
    cases next with
    | submit w m args alive =>
      cases hv : validate m args with
      | false =>
        obtain ⟨h1, h2, h3, h4, -⟩ := submit_reject p w m args hv
        refine ⟨fun w1 => ?_, ?_⟩
        · rw [inFlight_eq, h1, h3, h4, ← inFlight_eq]; exact ihr w1
        · rw [h2, h3, h4]; exact ihl
      | true =>
        obtain ⟨h1, h2, h3, h4, -⟩ := submit_accept p w m args hv
        refine ⟨fun w1 => ?_, ?_⟩
        · rw [inFlight_eq, h1, h3, h4]
          have := ihr w1
          rw [inFlight_eq] at this
          by_cases hw : w1 = w
          · subst hw
            simp [List.filter_append, this]
            omega
          · have hw2 : ¬ w = w1 := fun hh => hw hh.symm
            simp [List.filter_append, Function.update, hw, hw2, this]
        · rw [h2, h3, h4, ihl]
          simp
          omega
    | execute i outcome inRange =>
      obtain ⟨x, hx⟩ := get?_of_lt p.scheduled i inRange
      obtain ⟨h1, h2, h3, h4, -⟩ := exec_fields p i outcome x hx
      refine ⟨fun w1 => ?_, ?_⟩
      · rw [inFlight_eq, h1, h3, h4]
        have := ihr w1
        rw [inFlight_eq] at this
        have hcount := length_filter_eraseIdx (fun y : InFlight => decide (y.wrap = w1))
          p.scheduled i x hx
        by_cases hw : x.wrap = w1
        · simp [hw] at hcount
          simp [List.filter_append, hw]
          omega
        · simp [hw] at hcount
          simp [List.filter_append, hw]
          omega
      · rw [h2, h3, h4, ihl]
        have := length_eraseIdx_add_one p.scheduled i x hx
        simp
        omega
    | deliver i inRange =>
      obtain ⟨x, hx⟩ := get?_of_lt p.executed i inRange
      obtain ⟨h1, h2, h3, h4, -, -⟩ := after_fields p i x hx
      refine ⟨fun w1 => ?_, ?_⟩
      · rw [inFlight_eq, h1, h3, h4]
        have := ihr w1
        rw [inFlight_eq] at this
        have hcount := length_filter_eraseIdx (fun y : InFlight => decide (y.wrap = w1))
          p.executed i x hx
        by_cases hw : x.wrap = w1
        · subst hw
          simp at hcount
          simp [Function.update]
          omega
        · have hw2 : ¬ w1 = x.wrap := fun hh => hw hh.symm
          simp [hw] at hcount
          simp [Function.update, hw2]
          omega
      · rw [h2, h3, h4, ihl]
        have := length_eraseIdx_add_one p.executed i x hx
        omega
    | closeSync w alive => exact ⟨fun w1 => by simpa [inFlight_eq, Process.CloseSync] using
        (inFlight_eq p w1 ▸ ihr w1), ihl⟩
    | collect w unreferenced => exact ⟨fun w1 => by simpa [inFlight_eq, Process.collect] using
        (inFlight_eq p w1 ▸ ihr w1), ihl⟩

theorem inFlight_pos_of_mem (p : Process) (x : InFlight)
    (hx : x ∈ p.scheduled ++ p.executed) : 0 < p.inFlight x.wrap := by
  unfold Process.inFlight
  apply List.length_pos_of_mem (a := x)
  exact List.mem_filter.2 ⟨hx, by simp⟩

theorem no_inFlight_of_zero (p : Process) (w : Nat) (h : p.inFlight w = 0) (x : InFlight)
    (hx : x ∈ p.scheduled ++ p.executed) : x.wrap ≠ w := by
  intro hw
  have := inFlight_pos_of_mem p x hx
  rw [hw] at this
  omega

/-- No request in flight belongs to a destroyed wrapper. -/
theorem reachable_alive (p0 p : Process) (hs : p0.scheduled = []) (he : p0.executed = [])
    (hr : Reachable p0 p) :
    ∀ x ∈ p.scheduled ++ p.executed, x.wrap ∉ p.destroyed := by
  induction hr with
  | start => simp [hs, he]
  | step p q sofar next ih =>
    have hrefs := (reachable_refs p0 p hs he sofar).1
    cases next with
    | submit w m args alive =>
      cases hv : validate m args with
      | false =>
        obtain ⟨-, -, h3, h4, h5⟩ := submit_reject p w m args hv
        rw [h3, h4, h5]; exact ih
      | true =>
        obtain ⟨-, -, h3, h4, h5⟩ := submit_accept p w m args hv
        rw [h3, h4, h5]
        intro x hx
        simp only [List.mem_append, List.mem_singleton] at hx
        rcases hx with (hx | hx) | hx
        · exact ih x (List.mem_append.2 (Or.inl hx))
        · rw [hx]; exact alive
        · exact ih x (List.mem_append.2 (Or.inr hx))
    | execute i outcome inRange =>
      obtain ⟨y, hy⟩ := get?_of_lt p.scheduled i inRange
      obtain ⟨-, -, h3, h4, h5⟩ := exec_fields p i outcome y hy
      rw [h3, h4, h5]
      intro x hx
      simp only [List.mem_append, List.mem_singleton] at hx
      rcases hx with hx | hx | hx
      · exact ih x (List.mem_append.2 (Or.inl (mem_of_mem_eraseIdx _ _ _ hx)))
      · exact ih x (List.mem_append.2 (Or.inr hx))
      · rw [hx]
        exact ih y (List.mem_append.2 (Or.inl (mem_of_get? _ _ _ hy)))
    | deliver i inRange =>
      obtain ⟨y, hy⟩ := get?_of_lt p.executed i inRange
      obtain ⟨-, -, h3, h4, h5, -⟩ := after_fields p i y hy
      rw [h3, h4, h5]
      intro x hx
      simp only [List.mem_append] at hx
      rcases hx with hx | hx
      · exact ih x (List.mem_append.2 (Or.inl hx))
      · exact ih x (List.mem_append.2 (Or.inr (mem_of_mem_eraseIdx _ _ _ hx)))
    | closeSync w alive => exact ih
    | collect w unreferenced =>
      intro x hx
      have hx1 : x ∈ p.scheduled ++ p.executed := hx
      have hzero : p.inFlight w = 0 := by
        have := hrefs w
        omega
      have hne := no_inFlight_of_zero p w hzero x hx1
      have hold := ih x hx1
      simp only [Process.collect, List.mem_cons, not_or]
      exact ⟨hne, hold⟩

theorem CursorWrap.New.guard_false (args : List Value) :
    CursorWrap.New.guard args = false := by
  unfold CursorWrap.New.guard
  cases args with
  | nil => rfl
  | cons a rest => simp

/-- The ways a run of `addIndexed` over a conflicting index entry ends, none of which reaches
the commit: the records are restored, and a result code or a conflict is on record. -/
theorem addIndexed_conflict_run (db : PolyDB) (k v : Bytes) (index : StringMap)
    (ik other : Bytes) (f : Faults)
    (hentry : StringMap.find index ik = some k)
    (hstored : db.get ik = some other)
    (hne : other ≠ k) :
    ((AddIndexedRequest k v index).exec db f).2.records = db.records ∧
    (((AddIndexedRequest k v index).exec db f).1.result ≠ Code.SUCCESS ∨
      ((AddIndexedRequest k v index).exec db f).1.errors ≠ []) ∧
    ((db.get k ≠ none ∨ f.begin_transaction ≠ none ∨ f.main_operation ≠ none) →
      ((AddIndexedRequest k v index).exec db f).1.errors = []) ∧
    (db.get k = none → f.begin_transaction = none → f.main_operation = none →
      (∀ n c, f.apply_index = some (n, c) → ik ∈ (MapKeys index).take n) →
      StringMap.find ((AddIndexedRequest k v index).exec db f).1.errors ik = some other) := by
  have hidx : StringMap.empty index = false := StringMap.empty_eq_false_of_find hentry
  have hmem : ik ∈ MapKeys index := StringMap.mem_keys_of_find hentry
  have hstored1 : Records.get db.records ik = some other := hstored
  rw [exec_slow _ db f (by simp [AddIndexedRequest, hidx])]
  cases hb : f.begin_transaction with
  | some c =>
    rw [transaction_begin_fault _ db f c hb]
    refine ⟨rfl, Or.inl c.property, fun _ => rfl, fun _ h => by cases h⟩
  | none =>
    cases hm : f.main_operation with
    | some c =>
      simp only [IndexedRequest.transaction, AddIndexedRequest, hb, hm,
        PolyDB.begin_transaction, IndexedRequest.main_operation, PolyDB.add, PolyDB.fail,
        PolyDB.end_transaction, Bool.not_true, Bool.not_false, Bool.false_eq_true, if_false,
        if_true, Option.getD_some]
      refine ⟨trivial, Or.inl c.property, fun _ => trivial, fun _ _ h => by cases h⟩
    | none =>
      cases hk : db.get k with
      | some old =>
        have hk1 : Records.get db.records k = some old := hk
        simp only [IndexedRequest.transaction, AddIndexedRequest, hb, hm,
          PolyDB.begin_transaction, IndexedRequest.main_operation, PolyDB.add, PolyDB.fail,
          PolyDB.get, hk1,
          PolyDB.end_transaction, Bool.not_true, Bool.not_false, Bool.false_eq_true, if_false,
          if_true, Option.getD_some]
        refine ⟨trivial, Or.inl (by decide), fun _ => trivial, fun h => by cases h⟩
      | none =>
        have hk1 : Records.get db.records k = none := hk
        have hik : ik ≠ k := by
          intro h; rw [h, hk1] at hstored1; cases hstored1
        have hconf : upsertConflict index (Records.set db.records k v) ik = some other := by
          simp [upsertConflict, Records.get_set, hik, hentry, hstored1, hne]
        cases ha : f.apply_index with
        | none =>
          have herr : StringMap.find (Records.acceptAll (ApplyIndexVisitor index)
              (Records.set db.records k v) [] (MapKeys index)).2 ik = some other := by
            rw [apply_pass_find]
            simp [StringMap.find_nil, hmem, hconf]
          have hne2 := StringMap.empty_eq_false_of_find herr
          simp only [IndexedRequest.transaction, AddIndexedRequest, hb, hm, ha, hidx,
            PolyDB.begin_transaction, IndexedRequest.main_operation, PolyDB.add,
            PolyDB.get, hk1, apply_index_ok, hne2,
            PolyDB.end_transaction, Bool.not_true, Bool.not_false, Bool.false_eq_true, if_false,
            if_true, Option.getD_some]
          refine ⟨trivial, Or.inr ?_, ?_, fun _ _ _ _ => herr⟩
          · intro hnil
            rw [hnil] at herr
            cases herr
          · intro h
            rcases h with h | h | h <;> exact absurd rfl h
        | some p =>
          obtain ⟨n, c⟩ := p
          simp only [IndexedRequest.transaction, AddIndexedRequest, hb, hm, ha, hidx,
            PolyDB.begin_transaction, IndexedRequest.main_operation, PolyDB.add,
            PolyDB.get, hk1, apply_index_fault,
            PolyDB.end_transaction, Bool.not_true, Bool.not_false, Bool.false_eq_true, if_false,
            if_true, Option.getD_some]
          refine ⟨trivial, Or.inl c.property, ?_, ?_⟩
          · intro h
            rcases h with h | h | h <;> exact absurd rfl h
          · intro _ _ _ hvisited
            have hin := hvisited n c rfl
            rw [apply_pass_find]
            simp [StringMap.find_nil, hin, hconf]

/-- The error argument `Request::error()` builds: null exactly on `SUCCESS`, otherwise the
`Error` named after the code and carrying it. -/
theorem Request.error_cases (result : Code) :
    (result = Code.SUCCESS ∧ Request.error result = Value.null) ∨
    (result ≠ Code.SUCCESS ∧
      Request.error result = Value.error (Message.codename result) (some result) none) := by
  by_cases h : result = Code.SUCCESS
  · exact Or.inl ⟨h, by simp [Request.error, h, LNULL]⟩
  · exact Or.inr ⟨h, Request.error_of_ne result h⟩

/-- The error argument `IndexedRequest::error()` builds, case by case. -/
theorem IndexedRequest.errorOf_cases (result : Code) (errors : StringMap) :
    (result = Code.SUCCESS ∧ errors = [] ∧
      IndexedRequest.errorOf result errors = Value.null) ∨
    (result = Code.SUCCESS ∧ errors ≠ [] ∧
      IndexedRequest.errorOf result errors =
        Value.error (Message.text "index-error") none (some errors)) ∨
    (result ≠ Code.SUCCESS ∧ errors = [] ∧
      IndexedRequest.errorOf result errors =
        Value.error (Message.codename result) (some result) none) ∨
    (result ≠ Code.SUCCESS ∧ errors ≠ [] ∧
      IndexedRequest.errorOf result errors =
        Value.error (Message.codename result) (some result) (some errors)) := by
  unfold IndexedRequest.errorOf Request.error
  cases errors with
  | nil => by_cases h : result = Code.SUCCESS <;> simp [h, LNULL, StringMap.empty]
  | cons p rest =>
    by_cases h : result = Code.SUCCESS <;>
      simp [h, LNULL, StringMap.empty, Value.IsNull, Value.setInvalid]

/-- The delivery `after()` makes to a completion target that is a function. -/
theorem after_function (m : Method) (target : Nat) (req : Members)
    (calls : List (List Value)) :
    ∃ first rest,
      after m (Value.function target) req calls = calls ++ [first :: rest] ∧
      (first = Value.null ∨
        ∃ message code invalid, first = Value.error message code invalid) ∧
      (first = Value.null ↔
        (req.result = Code.SUCCESS ∧
          ((m = Method.AddIndexed ∨ m = Method.ReplaceIndexed ∨ m = Method.RemoveIndexed) →
            req.errors = [])) ∨
        (req.result = Code.NOREC ∧
          (m = Method.CursorGet ∨ m = Method.CursorGetKey ∨ m = Method.CursorGetValue ∨
            m = Method.CursorGetKeyBlock)) ∨
        (req.result = Code.LOGIC ∧ m = Method.CAS)) ∧
      (first ≠ Value.null →
        (req.result ≠ Code.SUCCESS →
          ∃ invalid, first = Value.error (Message.codename req.result) (some req.result)
            invalid) ∧
        (req.result = Code.SUCCESS →
          first = Value.error (Message.text "index-error") none (some req.errors)) ∧
        (first.invalid = none ∨
          ((m = Method.AddIndexed ∨ m = Method.ReplaceIndexed ∨ m = Method.RemoveIndexed) ∧
            req.errors ≠ [] ∧ first.invalid = some req.errors))) ∧
      rest =
        (match m with
          | Method.Increment => if req.num = INT64MIN then [] else [Integer.New req.num]
          | Method.IncrementDouble =>
            if req.dnum.isnan then [] else [Value.double req.dnum]
          | Method.CAS => [Value.boolean req.success]
          | Method.Get => (req.vbuf.map Value.string).toList
          | Method.GetBulk => [Value.object req.items]
          | Method.SetBulk | Method.RemoveBulk => [Integer.New req.count]
          | Method.MatchPrefix | Method.MatchRegex => [Value.array req.keys]
          | Method.CursorGet =>
            if req.result = Code.SUCCESS then [Value.string req.value, Value.string req.key]
            else []
          | Method.CursorGetKey | Method.CursorGetValue =>
            if req.result = Code.SUCCESS then [Value.string req.value] else []
          | Method.CursorGetKeyBlock =>
            if req.result = Code.SUCCESS then [Value.array req.keys] else []
          | _ => []) := by
  have hplain := Request.error_cases req.result
  have hindexed := IndexedRequest.errorOf_cases req.result req.errors
  cases m
  case Increment =>
    simp only [after, callback, Value.IsFunction, if_true]
    by_cases h : req.num = INT64MIN
    · rw [if_neg (not_not.2 h)]
      refine ⟨_, _, rfl, ?_⟩
      rcases hplain with ⟨hs, he⟩ | ⟨hs, he⟩ <;> rw [he] <;> simp [hs, h, Value.invalid]
    · rw [if_pos h]
      refine ⟨_, _, rfl, ?_⟩
      rcases hplain with ⟨hs, he⟩ | ⟨hs, he⟩ <;> rw [he] <;> simp [hs, h, Value.invalid]
  case IncrementDouble =>
    simp only [after, callback, Value.IsFunction, if_true]
    cases h : req.dnum.isnan
    · rw [if_pos (by simp)]
      refine ⟨_, _, rfl, ?_⟩
      rcases hplain with ⟨hs, he⟩ | ⟨hs, he⟩ <;> rw [he] <;> simp [hs, Value.invalid]
    · rw [if_neg (by simp)]
      refine ⟨_, _, rfl, ?_⟩
      rcases hplain with ⟨hs, he⟩ | ⟨hs, he⟩ <;> rw [he] <;> simp [hs, Value.invalid]
  case Get =>
    simp only [after, callback, Value.IsFunction, if_true]
    cases h : req.vbuf
    · refine ⟨_, _, rfl, ?_⟩
      rcases hplain with ⟨hs, he⟩ | ⟨hs, he⟩ <;> rw [he] <;> simp [hs, Value.invalid]
    · refine ⟨_, _, rfl, ?_⟩
      rcases hplain with ⟨hs, he⟩ | ⟨hs, he⟩ <;> rw [he] <;> simp [hs, Value.invalid]
  case CAS =>
    simp only [after, callback, Value.IsFunction, if_true]
    by_cases h : req.result = Code.LOGIC
    · rw [if_pos h]
      refine ⟨_, _, rfl, ?_⟩
      simp [h, LNULL]
    · rw [if_neg h]
      refine ⟨_, _, rfl, ?_⟩
      rcases hplain with ⟨hs, he⟩ | ⟨hs, he⟩ <;> rw [he] <;> simp [hs, h, Value.invalid]
  case AddIndexed =>
    refine ⟨_, _, rfl, ?_⟩
    rcases hindexed with
      ⟨hs, hn, he⟩ | ⟨hs, hn, he⟩ | ⟨hs, hn, he⟩ | ⟨hs, hn, he⟩ <;>
      rw [he] <;> simp [hs, hn, Value.invalid]
  case ReplaceIndexed =>
    refine ⟨_, _, rfl, ?_⟩
    rcases hindexed with
      ⟨hs, hn, he⟩ | ⟨hs, hn, he⟩ | ⟨hs, hn, he⟩ | ⟨hs, hn, he⟩ <;>
      rw [he] <;> simp [hs, hn, Value.invalid]
  case RemoveIndexed =>
    refine ⟨_, _, rfl, ?_⟩
    rcases hindexed with
      ⟨hs, hn, he⟩ | ⟨hs, hn, he⟩ | ⟨hs, hn, he⟩ | ⟨hs, hn, he⟩ <;>
      rw [he] <;> simp [hs, hn, Value.invalid]
  case CursorGet =>
    simp only [after, callback, Value.IsFunction, if_true]
    by_cases h : req.result = Code.SUCCESS
    · rw [if_pos h]
      refine ⟨_, _, rfl, ?_⟩
      simp [h, LNULL]
    · rw [if_neg h]
      by_cases h1 : req.result = Code.NOREC
      · rw [if_pos h1]
        refine ⟨_, _, rfl, ?_⟩
        simp [h1, LNULL]
      · rw [if_neg h1]
        refine ⟨_, _, rfl, ?_⟩
        rw [Request.error_of_ne _ h]
        simp [h, h1, Value.invalid]
  case CursorGetKey =>
    simp only [after, callback, Value.IsFunction, if_true]
    by_cases h : req.result = Code.SUCCESS
    · rw [if_pos h]
      refine ⟨_, _, rfl, ?_⟩
      simp [h, LNULL]
    · rw [if_neg h]
      by_cases h1 : req.result = Code.NOREC
      · rw [if_pos h1]
        refine ⟨_, _, rfl, ?_⟩
        simp [h1, LNULL]
      · rw [if_neg h1]
        refine ⟨_, _, rfl, ?_⟩
        rw [Request.error_of_ne _ h]
        simp [h, h1, Value.invalid]
  case CursorGetValue =>
    simp only [after, callback, Value.IsFunction, if_true]
    by_cases h : req.result = Code.SUCCESS
    · rw [if_pos h]
      refine ⟨_, _, rfl, ?_⟩
      simp [h, LNULL]
    · rw [if_neg h]
      by_cases h1 : req.result = Code.NOREC
      · rw [if_pos h1]
        refine ⟨_, _, rfl, ?_⟩
        simp [h1, LNULL]
      · rw [if_neg h1]
        refine ⟨_, _, rfl, ?_⟩
        rw [Request.error_of_ne _ h]
        simp [h, h1, Value.invalid]
  case CursorGetKeyBlock =>
    simp only [after, callback, Value.IsFunction, if_true]
    by_cases h : req.result = Code.SUCCESS
    · rw [if_pos h]
      refine ⟨_, _, rfl, ?_⟩
      simp [h, LNULL, ListToArray]
    · rw [if_neg h]
      by_cases h1 : req.result = Code.NOREC
      · rw [if_pos h1]
        refine ⟨_, _, rfl, ?_⟩
        simp [h1, LNULL]
      · rw [if_neg h1]
        refine ⟨_, _, rfl, ?_⟩
        rw [Request.error_of_ne _ h]
        simp [h, h1, Value.invalid]
  all_goals
    refine ⟨_, _, rfl, ?_⟩
    rcases hplain with ⟨hs, he⟩ | ⟨hs, he⟩ <;> rw [he] <;>
      simp [hs, Value.invalid, MapToObj, ListToArray]

/-- Without a function as completion target `after()` calls nothing. -/
theorem after_no_function (m : Method) (next : Value) (req : Members)
    (calls : List (List Value)) (h : next.IsFunction = false) :
    after m next req calls = calls := by
  cases m <;> simp [after, callback, h]

/-! ## The claims -/

/-- C1 (amended): `addIndexed(k, v, index)` with an entry `(ik, k)` whose key the store maps to
another value.  Whatever the store holds and whichever engine calls fail, a non-null error is
delivered and the records are left as they were: the primary key is as before and no index
entry is written.  When the primary key `k` is absent, and `begin_transaction` and `add` do
not fail and `accept_bulk` does not fail before visiting `ik`, the `invalid` map of the error
holds `(ik, other)`; when `k` is present, or `begin_transaction` or `add` fails, the error has
no `invalid` map. -/
theorem C1_addIndexed_conflict_rolls_back (db : PolyDB) (k v : Bytes) (index : StringMap)
    (ik other : Bytes) (f : Faults)
    (hentry : StringMap.find index ik = some k)
    (hstored : db.get ik = some other)
    (hne : other ≠ k) :
    ((AddIndexedRequest k v index).exec db f).1.error ≠ Value.null ∧
    ((AddIndexedRequest k v index).exec db f).2.records = db.records ∧
    (∀ key, ((AddIndexedRequest k v index).exec db f).2.get key = db.get key) ∧
    (db.get k = none → f.begin_transaction = none → f.main_operation = none →
      (∀ n c, f.apply_index = some (n, c) → ik ∈ (MapKeys index).take n) →
      ∃ invalid, ((AddIndexedRequest k v index).exec db f).1.error.invalid = some invalid ∧
        StringMap.find invalid ik = some other) ∧
    ((db.get k ≠ none ∨ f.begin_transaction ≠ none ∨ f.main_operation ≠ none) →
      ((AddIndexedRequest k v index).exec db f).1.error.invalid = none) := by
  obtain ⟨hrec, hfail, hplain, hconf⟩ :=
    addIndexed_conflict_run db k v index ik other f hentry hstored hne
  refine ⟨?_, hrec, fun key => by simp only [PolyDB.get, hrec], ?_, ?_⟩
  · intro hnull
    have := (IndexedRequest.errorOf_eq_null _ _).1 hnull
    rcases hfail with h | h
    · exact h this.1
    · exact h this.2
  · intro h1 h2 h3 h4
    have hfind := hconf h1 h2 h3 h4
    have hne2 : ((AddIndexedRequest k v index).exec db f).1.errors ≠ [] := by
      intro hnil
      rw [hnil] at hfind
      cases hfind
    exact ⟨_, (IndexedRequest.errorOf_invalid _ _ hne2).2.1, hfind⟩
  · intro h
    have he := hplain h
    simp only [IndexedRequest.error, he, IndexedRequest.errorOf_nil]
    unfold Request.error
    by_cases hs : ((AddIndexedRequest k v index).exec db f).1.result = Code.SUCCESS <;>
      simp [hs, LNULL, Value.invalid]

/-- C1 (witness): the amended claim at `k = "k"`, `index = {"i": "k"}` and a store mapping
`"i"` to `"o"`, in a run without engine failure. -/
theorem C1_addIndexed_conflict_rolls_back_witness :
    ((AddIndexedRequest [107] [1] [([105], [107])]).exec
        (PolyDB.fresh [([105], [111])]) Faults.none).1.error ≠ Value.null ∧
    ((AddIndexedRequest [107] [1] [([105], [107])]).exec
        (PolyDB.fresh [([105], [111])]) Faults.none).2.records = [([105], [111])] ∧
    (∃ invalid, ((AddIndexedRequest [107] [1] [([105], [107])]).exec
        (PolyDB.fresh [([105], [111])]) Faults.none).1.error.invalid = some invalid ∧
      StringMap.find invalid [105] = some [111]) :=
  ⟨(C1_addIndexed_conflict_rolls_back (PolyDB.fresh [([105], [111])]) [107] [1]
      [([105], [107])] [105] [111] Faults.none (by decide) (by decide) (by decide)).1,
   (C1_addIndexed_conflict_rolls_back (PolyDB.fresh [([105], [111])]) [107] [1]
      [([105], [107])] [105] [111] Faults.none (by decide) (by decide) (by decide)).2.1,
   (C1_addIndexed_conflict_rolls_back (PolyDB.fresh [([105], [111])]) [107] [1]
      [([105], [107])] [105] [111] Faults.none (by decide) (by decide) (by decide)).2.2.2.1
      (by decide) rfl rfl (fun _ _ h => by cases h)⟩

/-- C1 (counterexample): with the primary key already present, the store maps the index key
`"i"` to `"o"`, different from `"k"`, and yet `addIndexed("k", ..., {"i": "k"})` delivers the
`DUPREC` error of the primary add, without any `invalid` map. -/
theorem C1_counterexample :
    StringMap.find [([105], [107])] [105] = some [107] ∧
    (PolyDB.fresh [([107], [0]), ([105], [111])]).get [105] = some [111] ∧
    ([111] : Bytes) ≠ [107] ∧
    ((AddIndexedRequest [107] [1] [([105], [107])]).exec
        (PolyDB.fresh [([107], [0]), ([105], [111])]) Faults.none).1.error
      = Value.error (Message.codename Code.DUPREC) (some Code.DUPREC) none ∧
    ((AddIndexedRequest [107] [1] [([105], [107])]).exec
        (PolyDB.fresh [([107], [0]), ([105], [111])]) Faults.none).1.error.invalid = none := by
  decide

/-- C2: when `addIndexed(k, v, index)` delivers no error, the store maps `k` to `v` and every
index key of `index` to its expected value. -/
theorem C2_addIndexed_success (db : PolyDB) (k v : Bytes) (index : StringMap) (f : Faults)
    (h : ((AddIndexedRequest k v index).exec db f).1.error = Value.null) :
    ((AddIndexedRequest k v index).exec db f).2.get k = some v ∧
    ∀ ik ev, StringMap.find index ik = some ev →
      ((AddIndexedRequest k v index).exec db f).2.get ik = some ev := by
  obtain ⟨hmain, hP, -, hfinal⟩ := exec_success (AddIndexedRequest k v index) db f rfl h
  have hr1 : ((AddIndexedRequest k v index).main_operation db f.main_operation).2.records =
      Records.set db.records k v := by
    simp only [AddIndexedRequest, IndexedRequest.main_operation] at hmain ⊢
    cases hf : f.main_operation with
    | some c => rw [hf] at hmain; simp [PolyDB.add] at hmain
    | none =>
      rw [hf] at hmain
      simp only [PolyDB.add] at hmain ⊢
      cases hg : db.get k with
      | some a => rw [hg] at hmain; simp at hmain
      | none => rfl
  rw [hr1] at hfinal hP
  have hfinal1 : ((AddIndexedRequest k v index).exec db f).2.records =
      (Records.acceptAll (ApplyIndexVisitor index) (Records.set db.records k v) []
        (MapKeys index)).1 := by
    rw [hfinal]; rfl
  simp only [PolyDB.get, hfinal1]
  refine ⟨?_, fun ik ev hentry => upsert_pass_clean index _ ik ev hP hentry⟩
  rw [apply_pass_get, Records.get_set]
  simp

/-- C2 (witness): `addIndexed("k", v, {"i": "k"})` on an empty store delivers no error. -/
theorem C2_addIndexed_success_witness :
    ((AddIndexedRequest [107] [1] [([105], [107])]).exec (PolyDB.fresh []) Faults.none).2.get
        [107] = some [1] ∧
    ∀ ik ev, StringMap.find [([105], [107])] ik = some ev →
      ((AddIndexedRequest [107] [1] [([105], [107])]).exec (PolyDB.fresh []) Faults.none).2.get
        ik = some ev :=
  C2_addIndexed_success (PolyDB.fresh []) [107] [1] [([105], [107])] Faults.none (by decide)

/-- C4 (failing input): with the owner key `"a\0b"` and an index entry `"i"` stored with the
different value `"a\0c"`, `EQ_UTF8_BUF` takes the two for equal, so the removal pass removes
the entry and records no error. -/
theorem C4_removal_compares_up_to_zero_byte :
    ([97, 0, 99] : Bytes) ≠ [97, 0, 98] ∧
    EQ_UTF8_BUF [97, 0, 98] [97, 0, 99] = true ∧
    (RemoveIndexVisitor [97, 0, 98]).visit_full [] [105] [97, 0, 99] = (Action.REMOVE, []) ∧
    ((PolyDB.fresh [([105], [97, 0, 99])]).accept_bulk none [[105]]
        (RemoveIndexVisitor [97, 0, 98]) []).2.1.get [105] = none ∧
    ((PolyDB.fresh [([105], [97, 0, 99])]).accept_bulk none [[105]]
        (RemoveIndexVisitor [97, 0, 98]) []).2.2 = [] := by
  decide

/-- C6: in a run of `transaction()` whose `begin_transaction` succeeds, `end_transaction(true)`
is issued exactly when the primary operation succeeded, no `accept_bulk` returned `-1`, and
the error set is empty after the passes; otherwise `end_transaction(false)` is issued. -/
theorem C6_commit_condition (req : IndexedRequest) (db : PolyDB) (f : Faults)
    (he : req.errors = []) (hb : f.begin_transaction = none) :
    ((∃ c ∈ issued db (req.transaction db f).2, c.ended = some true) ↔
      ((∃ c ∈ issued db (req.transaction db f).2, c.primary = some true) ∧
        (∀ c ∈ issued db (req.transaction db f).2, c.bulkFailed = false) ∧
        (req.transaction db f).1.errors = [])) ∧
    ((¬ ∃ c ∈ issued db (req.transaction db f).2, c.ended = some true) →
      ∃ c ∈ issued db (req.transaction db f).2, c.ended = some false) := by
  obtain ⟨call, passes, commit, ok, hcalls, hprim, hpasses, -, hcommit⟩ :=
    transaction_calls req db f he hb
  obtain ⟨hcall1, hcall2, -⟩ := Call.primary_some hprim
  rw [hcalls]
  have hended : (∃ c ∈ [Call.begin_transaction true, call] ++ passes ++
      [Call.end_transaction commit ok], c.ended = some true) ↔ commit = true := by
    constructor
    · rintro ⟨c, hc, hce⟩
      simp only [List.mem_append, List.mem_cons, List.mem_singleton, List.not_mem_nil,
        or_false] at hc
      rcases hc with ((h | h) | h) | h
      · subst h; simp [Call.ended] at hce
      · subst h; rw [hcall1] at hce; cases hce
      · rw [(hpasses c h).2.1] at hce; cases hce
      · subst h; simpa [Call.ended] using hce
    · intro h
      exact ⟨Call.end_transaction commit ok, by simp, by simp [Call.ended, h]⟩
  have hprimary : (∃ c ∈ [Call.begin_transaction true, call] ++ passes ++
      [Call.end_transaction commit ok], c.primary = some true) ↔
      (req.main_operation db f.main_operation).1 = true := by
    constructor
    · rintro ⟨c, hc, hcp⟩
      simp only [List.mem_append, List.mem_cons, List.mem_singleton, List.not_mem_nil,
        or_false] at hc
      rcases hc with ((h | h) | h) | h
      · subst h; simp [Call.primary] at hcp
      · subst h; rw [hprim] at hcp; exact (Option.some.inj hcp)
      · rw [(hpasses c h).1] at hcp; cases hcp
      · subst h; simp [Call.primary] at hcp
    · intro h
      exact ⟨call, by simp, by rw [hprim, h]⟩
  have hbulk : (∀ c ∈ [Call.begin_transaction true, call] ++ passes ++
      [Call.end_transaction commit ok], c.bulkFailed = false) ↔
      ∀ c ∈ passes, c.bulkFailed = false := by
    constructor
    · intro h c hc
      exact h c (by simp [hc])
    · intro h c hc
      simp only [List.mem_append, List.mem_cons, List.mem_singleton, List.not_mem_nil,
        or_false] at hc
      rcases hc with ((h1 | h1) | h1) | h1
      · subst h1; rfl
      · subst h1; exact hcall2
      · exact h c h1
      · subst h1; rfl
  rw [hended, hprimary, hbulk]
  refine ⟨hcommit, fun hno => ?_⟩
  refine ⟨Call.end_transaction commit ok, by simp, ?_⟩
  cases commit
  · rfl
  · exact absurd rfl hno

/-- C6 (witness): the commit condition on a run of `addIndexed("k", v, {"i": "k"})` over an
empty store. -/
theorem C6_commit_condition_witness :
    ((∃ c ∈ issued (PolyDB.fresh [])
        ((AddIndexedRequest [107] [1] [([105], [107])]).transaction (PolyDB.fresh [])
          Faults.none).2, c.ended = some true) ↔
      ((∃ c ∈ issued (PolyDB.fresh [])
          ((AddIndexedRequest [107] [1] [([105], [107])]).transaction (PolyDB.fresh [])
            Faults.none).2, c.primary = some true) ∧
        (∀ c ∈ issued (PolyDB.fresh [])
          ((AddIndexedRequest [107] [1] [([105], [107])]).transaction (PolyDB.fresh [])
            Faults.none).2, c.bulkFailed = false) ∧
        ((AddIndexedRequest [107] [1] [([105], [107])]).transaction (PolyDB.fresh [])
          Faults.none).1.errors = [])) ∧
    ((¬ ∃ c ∈ issued (PolyDB.fresh [])
        ((AddIndexedRequest [107] [1] [([105], [107])]).transaction (PolyDB.fresh [])
          Faults.none).2, c.ended = some true) →
      ∃ c ∈ issued (PolyDB.fresh [])
        ((AddIndexedRequest [107] [1] [([105], [107])]).transaction (PolyDB.fresh [])
          Faults.none).2, c.ended = some false) :=
  C6_commit_condition (AddIndexedRequest [107] [1] [([105], [107])]) (PolyDB.fresh [])
    Faults.none rfl rfl

/-- C7: when the primary operation of an indexed write fails on the slow path, the calls
issued are `begin_transaction`, the primary call and `end_transaction(false)`, with no
`accept_bulk`; the error set stays empty, the records are those before the call, and the
delivered error carries the engine's error code of the primary operation and no `invalid`
map. -/
theorem C7_primary_failure_short_circuits (req : IndexedRequest) (db : PolyDB) (f : Faults)
    (he : req.errors = []) (hb : f.begin_transaction = none)
    (hslow : (StringMap.empty req.toIndex && req.toRemove.isEmpty) = false)
    (hfail : (req.main_operation db f.main_operation).1 = false) :
    (∃ call, call.primary = some false ∧
      issued db (req.exec db f).2 =
        [Call.begin_transaction true, call, Call.end_transaction false true]) ∧
    (∀ c ∈ issued db (req.exec db f).2, c.isBulk = false) ∧
    (req.exec db f).1.errors = [] ∧
    (req.exec db f).2.records = db.records ∧
    (req.main_operation db f.main_operation).2.err ≠ Code.SUCCESS ∧
    (req.exec db f).1.error =
      Value.error (Message.codename (req.main_operation db f.main_operation).2.err)
        (some (req.main_operation db f.main_operation).2.err) none ∧
    (req.exec db f).1.error.invalid = none := by
  have hne := (main_operation_fail req db f.main_operation hfail).1
  unfold IndexedRequest.exec
  simp only [hslow, Bool.false_eq_true, if_false]
  rw [transaction_steps, hb]
  obtain ⟨hb1, hb2, hb3, -, hb5⟩ := begin_transaction_ok db
  rcases hB : db.begin_transaction none with ⟨began, db1⟩
  rw [hB] at hb1 hb2 hb3 hb5
  simp only at hb1 hb2 hb3 hb5
  subst hb1
  simp only
  obtain ⟨hc1, -⟩ := main_operation_congr req db db1 f.main_operation hb2
  have herr := main_operation_congr_err req db db1 f.main_operation hb2 hfail
  have hsaved := main_operation_saved req db1 f.main_operation
  obtain ⟨call, hlog2, hprim⟩ := main_operation_log req db1 f.main_operation
  rw [hfail] at hc1
  rcases hM : req.main_operation db1 f.main_operation with ⟨ok, db2⟩
  rw [hM] at hc1 herr hsaved hlog2 hprim
  simp only at hc1 herr hsaved hlog2 hprim
  subst hc1
  simp only
  have hiss : issued db (db2.end_transaction none false).2 =
      [Call.begin_transaction true, call, Call.end_transaction false true] := by
    apply issued_of_log
    rw [(end_transaction_abort db2).2.2, hlog2, hb5]
    simp
  have hbulk := (Call.primary_some hprim).2.2
  rw [← herr] at hne ⊢
  refine ⟨⟨call, hprim, hiss⟩, ?_, he, ?_, hne, ?_, ?_⟩
  · rw [hiss]
    intro c hc
    simp only [List.mem_cons, List.mem_singleton, List.not_mem_nil, or_false] at hc
    rcases hc with h | h | h
    · subst h; rfl
    · subst h; exact hbulk
    · subst h; rfl
  · rw [(end_transaction_abort db2).1, hsaved, hb3]
    rfl
  · simp [IndexedRequest.error, IndexedRequest.errorOf, he, StringMap.empty, Request.error, hne]
  · simp [IndexedRequest.error, IndexedRequest.errorOf, he, StringMap.empty, Request.error, hne,
      Value.invalid]

/-- C7 (witness): `addIndexed("k", v, {"i": "k"})` on a store that already holds `"k"`. -/
theorem C7_primary_failure_short_circuits_witness :
    (∃ call, call.primary = some false ∧
      issued (PolyDB.fresh [([107], [0])])
        ((AddIndexedRequest [107] [1] [([105], [107])]).exec (PolyDB.fresh [([107], [0])])
          Faults.none).2 =
        [Call.begin_transaction true, call, Call.end_transaction false true]) ∧
    (∀ c ∈ issued (PolyDB.fresh [([107], [0])])
        ((AddIndexedRequest [107] [1] [([105], [107])]).exec (PolyDB.fresh [([107], [0])])
          Faults.none).2, c.isBulk = false) ∧
    ((AddIndexedRequest [107] [1] [([105], [107])]).exec (PolyDB.fresh [([107], [0])])
        Faults.none).1.errors = [] ∧
    ((AddIndexedRequest [107] [1] [([105], [107])]).exec (PolyDB.fresh [([107], [0])])
        Faults.none).2.records = (PolyDB.fresh [([107], [0])]).records ∧
    ((AddIndexedRequest [107] [1] [([105], [107])]).main_operation (PolyDB.fresh [([107], [0])])
        Faults.none.main_operation).2.err ≠ Code.SUCCESS ∧
    ((AddIndexedRequest [107] [1] [([105], [107])]).exec (PolyDB.fresh [([107], [0])])
        Faults.none).1.error =
      Value.error (Message.codename ((AddIndexedRequest [107] [1] [([105], [107])]).main_operation
          (PolyDB.fresh [([107], [0])]) Faults.none.main_operation).2.err)
        (some ((AddIndexedRequest [107] [1] [([105], [107])]).main_operation
          (PolyDB.fresh [([107], [0])]) Faults.none.main_operation).2.err) none ∧
    ((AddIndexedRequest [107] [1] [([105], [107])]).exec (PolyDB.fresh [([107], [0])])
        Faults.none).1.error.invalid = none :=
  C7_primary_failure_short_circuits (AddIndexedRequest [107] [1] [([105], [107])])
    (PolyDB.fresh [([107], [0])]) Faults.none rfl rfl (by decide) (by decide)

/-- C8 (amended): when an indexed write ends with a non-empty error set, the primary operation
has succeeded, the delivered error is not null and carries the error set as its `invalid`
map; when the engine has no error on record, it is the binding's own `index-error` error,
which has no `code`. -/
theorem C8_index_conflict_error (req : IndexedRequest) (db : PolyDB) (f : Faults)
    (he : req.errors = []) (hconf : (req.exec db f).1.errors ≠ []) :
    (req.main_operation db f.main_operation).1 = true ∧
    (req.exec db f).1.error ≠ Value.null ∧
    (req.exec db f).1.error.invalid = some (req.exec db f).1.errors ∧
    ((req.exec db f).2.err = Code.SUCCESS →
      (req.exec db f).1.error =
        Value.error (Message.text "index-error") none (some (req.exec db f).1.errors)) := by
  obtain ⟨hprimary, hresult⟩ := exec_conflict_path req db f he hconf
  obtain ⟨h1, h2, h3⟩ := IndexedRequest.errorOf_invalid (req.exec db f).1.result
    (req.exec db f).1.errors hconf
  exact ⟨hprimary, h1, h2, fun hs => h3 (hresult.trans hs)⟩

/-- C8 (witness): `addIndexed("k", v, {"i": "k"})` on a store where `"i"` belongs to `"o"`. -/
theorem C8_index_conflict_error_witness :
    ((AddIndexedRequest [107] [1] [([105], [107])]).main_operation
        (PolyDB.fresh [([105], [111])]) Faults.none.main_operation).1 = true ∧
    ((AddIndexedRequest [107] [1] [([105], [107])]).exec (PolyDB.fresh [([105], [111])])
        Faults.none).1.error ≠ Value.null ∧
    ((AddIndexedRequest [107] [1] [([105], [107])]).exec (PolyDB.fresh [([105], [111])])
        Faults.none).1.error.invalid =
      some ((AddIndexedRequest [107] [1] [([105], [107])]).exec (PolyDB.fresh [([105], [111])])
        Faults.none).1.errors ∧
    (((AddIndexedRequest [107] [1] [([105], [107])]).exec (PolyDB.fresh [([105], [111])])
        Faults.none).2.err = Code.SUCCESS →
      ((AddIndexedRequest [107] [1] [([105], [107])]).exec (PolyDB.fresh [([105], [111])])
        Faults.none).1.error =
        Value.error (Message.text "index-error") none
          (some ((AddIndexedRequest [107] [1] [([105], [107])]).exec
            (PolyDB.fresh [([105], [111])]) Faults.none).1.errors)) :=
  C8_index_conflict_error (AddIndexedRequest [107] [1] [([105], [107])])
    (PolyDB.fresh [([105], [111])]) Faults.none rfl (by decide)

/-- C8 (counterexample): `addIndexed("k", v, {"i": "k"})` on a store where `"i"` belongs to
`"o"`: the primary add succeeds, the error set is not empty, and the delivered error is the
`index-error` error, whose `code` is not `LOGIC`. -/
theorem C8_counterexample :
    Call.add [107] [1] true ∈
      ((AddIndexedRequest [107] [1] [([105], [107])]).exec (PolyDB.fresh [([105], [111])])
        Faults.none).2.log ∧
    ((AddIndexedRequest [107] [1] [([105], [107])]).exec (PolyDB.fresh [([105], [111])])
        Faults.none).1.errors = [([105], [111])] ∧
    ((AddIndexedRequest [107] [1] [([105], [107])]).exec (PolyDB.fresh [([105], [111])])
        Faults.none).1.error =
      Value.error (Message.text "index-error") none (some [([105], [111])]) ∧
    ((AddIndexedRequest [107] [1] [([105], [107])]).exec (PolyDB.fresh [([105], [111])])
        Faults.none).1.error.code ≠ some Code.LOGIC := by
  decide

/-- C9: a call whose arguments fail `validate` returns the `Bad argument` type error and
leaves the worker pool, the wrapper's reference count and the event-loop reference count as
they were: no request is created or scheduled. -/
theorem C9_validation_rejection (m : Method) (args : List Value) (rt : Runtime)
    (h : validate m args = false) :
    (DEFINE_FUNC m args rt).1 = Returned.thrown (Value.typeError "Bad argument") ∧
    (DEFINE_FUNC m args rt).2 = rt ∧
    (DEFINE_FUNC m args rt).2.pool = rt.pool ∧
    (DEFINE_FUNC m args rt).2.wrapRefs = rt.wrapRefs ∧
    (DEFINE_FUNC m args rt).2.loopRefs = rt.loopRefs := by
  simp [DEFINE_FUNC, h, THROW_BAD_ARGS]

/-- C9 (witness): `set()` called without arguments. -/
theorem C9_validation_rejection_witness :
    (DEFINE_FUNC Method.Set [] { wrapRefs := 1, loopRefs := 0, pool := [] }).1 =
      Returned.thrown (Value.typeError "Bad argument") ∧
    (DEFINE_FUNC Method.Set [] { wrapRefs := 1, loopRefs := 0, pool := [] }).2 =
      { wrapRefs := 1, loopRefs := 0, pool := [] } ∧
    (DEFINE_FUNC Method.Set [] { wrapRefs := 1, loopRefs := 0, pool := [] }).2.pool = [] ∧
    (DEFINE_FUNC Method.Set [] { wrapRefs := 1, loopRefs := 0, pool := [] }).2.wrapRefs = 1 ∧
    (DEFINE_FUNC Method.Set [] { wrapRefs := 1, loopRefs := 0, pool := [] }).2.loopRefs = 0 :=
  C9_validation_rejection Method.Set [] { wrapRefs := 1, loopRefs := 0, pool := [] }
    (by decide)

/-- C10 (failing inputs): `remove("a")` and `synchronize(false)`, called without a callback,
are accepted and scheduled with `undefined` as completion target; `after()` then calls
nothing, so the request is executed and deleted without any delivery.  Only `remove` and
`synchronize` accept a request whose completion target is not a function.  For a request
whose completion target is a function, `after()` calls it exactly once, for every method and
every state `exec()` can leave the request in: the first argument is null or an `Error`; it
is null exactly when the result code is `SUCCESS` and, for an indexed write, no conflict is
recorded, or the code is `NOREC` for a cursor read, or `LOGIC` for `cas`; an `Error` carries
the result code as `code`, or is the `index-error`, and holds the recorded conflicts as
`invalid`; the remaining arguments are the payload of the method.  `DEFINE_AFTER` makes that
one call and removes the request. -/
theorem C10_exactly_one_delivery :
    DEFINE_FUNC Method.Remove [Value.string [97]] { wrapRefs := 0, loopRefs := 0, pool := [] } =
      (Returned.this,
        { wrapRefs := 1, loopRefs := 1,
          pool := [{ method := Method.Remove, args := [Value.string [97]],
                     next := Value.undefined }] }) ∧
    DEFINE_FUNC Method.Synchronize [Value.boolean false]
        { wrapRefs := 0, loopRefs := 0, pool := [] } =
      (Returned.this,
        { wrapRefs := 1, loopRefs := 1,
          pool := [{ method := Method.Synchronize, args := [Value.boolean false],
                     next := Value.undefined }] }) ∧
    after Method.Remove Value.undefined Members.init [] = [] ∧
    after Method.Synchronize Value.undefined
        { Members.init with result := Code.SYSTEM } [] = [] ∧
    ((((Process.idle (fun _ => 0) 0).submit 0 Method.Remove [Value.string [97]]).2.DEFINE_EXEC
        0 Members.init).DEFINE_AFTER 0).delivered = [] ∧
    ((((Process.idle (fun _ => 0) 0).submit 0 Method.Remove [Value.string [97]]).2.DEFINE_EXEC
        0 Members.init).DEFINE_AFTER 0).scheduled = [] ∧
    ((((Process.idle (fun _ => 0) 0).submit 0 Method.Remove [Value.string [97]]).2.DEFINE_EXEC
        0 Members.init).DEFINE_AFTER 0).executed = [] ∧
    (∀ (m : Method) (next : Value) (req : Members) (calls : List (List Value)),
      next.IsFunction = false → after m next req calls = calls) ∧
    (∀ (m : Method) (args : List Value), validate m args = true →
      (arg args (nextIndex m)).IsFunction = false →
      m = Method.Remove ∨ m = Method.Synchronize) ∧
    (∀ (m : Method) (next : Value) (req : Members) (calls : List (List Value)),
      next.IsFunction = true →
      ∃ first rest,
        after m next req calls = calls ++ [first :: rest] ∧
        (first = Value.null ∨
          ∃ message code invalid, first = Value.error message code invalid) ∧
        (first = Value.null ↔
          (req.result = Code.SUCCESS ∧
            ((m = Method.AddIndexed ∨ m = Method.ReplaceIndexed ∨ m = Method.RemoveIndexed) →
              req.errors = [])) ∨
          (req.result = Code.NOREC ∧
            (m = Method.CursorGet ∨ m = Method.CursorGetKey ∨ m = Method.CursorGetValue ∨
              m = Method.CursorGetKeyBlock)) ∨
          (req.result = Code.LOGIC ∧ m = Method.CAS)) ∧
        (first ≠ Value.null →
          (req.result ≠ Code.SUCCESS →
            ∃ invalid, first = Value.error (Message.codename req.result) (some req.result)
              invalid) ∧
          (req.result = Code.SUCCESS →
            first = Value.error (Message.text "index-error") none (some req.errors)) ∧
          (first.invalid = none ∨
            ((m = Method.AddIndexed ∨ m = Method.ReplaceIndexed ∨ m = Method.RemoveIndexed) ∧
              req.errors ≠ [] ∧ first.invalid = some req.errors))) ∧
        rest =
          (match m with
            | Method.Increment => if req.num = INT64MIN then [] else [Integer.New req.num]
            | Method.IncrementDouble =>
              if req.dnum.isnan then [] else [Value.double req.dnum]
            | Method.CAS => [Value.boolean req.success]
            | Method.Get => (req.vbuf.map Value.string).toList
            | Method.GetBulk => [Value.object req.items]
            | Method.SetBulk | Method.RemoveBulk => [Integer.New req.count]
            | Method.MatchPrefix | Method.MatchRegex => [Value.array req.keys]
            | Method.CursorGet =>
              if req.result = Code.SUCCESS then
                [Value.string req.value, Value.string req.key]
              else []
            | Method.CursorGetKey | Method.CursorGetValue =>
              if req.result = Code.SUCCESS then [Value.string req.value] else []
            | Method.CursorGetKeyBlock =>
              if req.result = Code.SUCCESS then [Value.array req.keys] else []
            | _ => [])) ∧
    (∀ (p : Process) (i : Nat) (x : InFlight), p.executed.get? i = some x →
      x.req.next.IsFunction = true →
      (∃ argv, (p.DEFINE_AFTER i).delivered = p.delivered ++ [argv]) ∧
      (p.DEFINE_AFTER i).executed = p.executed.eraseIdx i ∧
      (p.DEFINE_AFTER i).scheduled = p.scheduled) := by
  refine ⟨by decide, by decide, by decide, by decide, by decide, by decide, by decide,
    after_no_function, ?_, ?_, ?_⟩
  · intro m args hv hnot
    cases m <;> simp only [validate, nextIndex, Bool.and_eq_true] at hv hnot <;>
      first
        | exact Or.inl rfl
        | exact Or.inr rfl
        | (rw [hv.2] at hnot; cases hnot)
  · intro m next req calls hnext
    cases next <;> first | exact after_function m _ req calls | cases hnext
  · intro p i x hx hnext
    obtain ⟨-, -, h3, h4, -, h6⟩ := after_fields p i x hx
    refine ⟨?_, h4, h3⟩
    rw [h6]
    cases hn : x.req.next <;> rw [hn] at hnext <;>
      first
        | (obtain ⟨first, rest, heq, -⟩ := after_function x.req.method _ x.members p.delivered
           exact ⟨_, heq⟩)
        | cases hnext

/-- C11: for the cursor methods `get`, `getKey` and `getValue` and every outcome of the engine
call, the delivery to the completion target (a function, as `validate` demands of these
methods) is `(null, value, key)` resp. `(null, key)` resp. `(null, value)` on success, the single argument `null` when the call fails with `NOREC`, and the single argument
`Error` with `code = c` when it fails with another code `c`; so the error argument is null
exactly when the call succeeded or failed with `NOREC`. -/
theorem C11_cursor_no_record_is_not_an_error (cur : Cursor) (fault : Option Fault)
    (step : Bool) (target : Nat) :
    (∀ record, (cur.get fault step).1 = some record →
      after Method.CursorGet (Value.function target)
        (CursorWrap.GetRequest.exec Members.init step cur fault).1 [] =
        [[Value.null, Value.string record.2, Value.string record.1]] ∧
      after Method.CursorGetKey (Value.function target)
        (CursorWrap.GetKeyRequest.exec Members.init step cur fault).1 []
        = [[Value.null, Value.string record.1]] ∧
      after Method.CursorGetValue (Value.function target)
        (CursorWrap.GetValueRequest.exec Members.init step cur fault).1 []
        = [[Value.null, Value.string record.2]]) ∧
    ((cur.get fault step).1 = none → (cur.get fault step).2.err = Code.NOREC →
      after Method.CursorGet (Value.function target)
        (CursorWrap.GetRequest.exec Members.init step cur fault).1 [] =
        [[Value.null]] ∧
      after Method.CursorGetKey (Value.function target)
        (CursorWrap.GetKeyRequest.exec Members.init step cur fault).1 []
        = [[Value.null]] ∧
      after Method.CursorGetValue (Value.function target)
        (CursorWrap.GetValueRequest.exec Members.init step cur fault).1 []
        = [[Value.null]]) ∧
    ((cur.get fault step).1 = none → (cur.get fault step).2.err ≠ Code.NOREC →
      after Method.CursorGet (Value.function target)
        (CursorWrap.GetRequest.exec Members.init step cur fault).1 [] =
        [[Value.error (Message.codename (cur.get fault step).2.err)
          (some (cur.get fault step).2.err) none]] ∧
      after Method.CursorGetKey (Value.function target)
        (CursorWrap.GetKeyRequest.exec Members.init step cur fault).1 []
        = [[Value.error (Message.codename (cur.get fault step).2.err)
          (some (cur.get fault step).2.err) none]] ∧
      after Method.CursorGetValue (Value.function target)
        (CursorWrap.GetValueRequest.exec Members.init step cur fault).1 []
        = [[Value.error (Message.codename (cur.get fault step).2.err)
          (some (cur.get fault step).2.err) none]]) ∧
    ((errorArgument (after Method.CursorGet (Value.function target)
        (CursorWrap.GetRequest.exec Members.init step cur fault).1 []) = some Value.null ↔
      ((cur.get fault step).1 ≠ none ∨ (cur.get fault step).2.err = Code.NOREC)) ∧
     (errorArgument (after Method.CursorGetKey (Value.function target)
        (CursorWrap.GetKeyRequest.exec Members.init step cur fault).1 []) = some Value.null ↔
      ((cur.get fault step).1 ≠ none ∨ (cur.get fault step).2.err = Code.NOREC)) ∧
     (errorArgument (after Method.CursorGetValue (Value.function target)
        (CursorWrap.GetValueRequest.exec Members.init step cur fault).1 []) = some Value.null ↔
      ((cur.get fault step).1 ≠ none ∨ (cur.get fault step).2.err = Code.NOREC))) := by
  rcases Cursor.get_cases cur fault step with ⟨record, cur1, h⟩ | ⟨cur1, h, herr⟩
  · simp [h, CursorWrap.GetRequest.exec, CursorWrap.GetKeyRequest.exec,
      CursorWrap.GetValueRequest.exec, Cursor.get_key, Cursor.get_value, after, callback,
      Value.IsFunction, Members.init, LNULL, errorArgument]
  · by_cases hn : cur1.err = Code.NOREC
    · simp [h, hn, CursorWrap.GetRequest.exec, CursorWrap.GetKeyRequest.exec,
        CursorWrap.GetValueRequest.exec, Cursor.get_key, Cursor.get_value, after, callback,
        Value.IsFunction, Members.init, LNULL, errorArgument]
    · simp [h, hn, herr, CursorWrap.GetRequest.exec, CursorWrap.GetKeyRequest.exec,
        CursorWrap.GetValueRequest.exec, Cursor.get_key, Cursor.get_value, after, callback,
        Value.IsFunction, Members.init, LNULL, errorArgument, Request.error_of_ne]

/-- C11 (witness): `get` on a cursor without a current record delivers the single argument
`null`. -/
theorem C11_cursor_no_record_is_not_an_error_witness :
    after Method.CursorGet (Value.function 1)
      (CursorWrap.GetRequest.exec Members.init true { rest := [], err := Code.SUCCESS } none).1
      [] = [[Value.null]] :=
  ((C11_cursor_no_record_is_not_an_error { rest := [], err := Code.SUCCESS } none true 1).2.1
    (by decide) (by decide)).1

/-- C12: for every `cas` call, the delivery to the completion target (a function, as
`validate` demands) is `(null, true)` when the engine call succeeds
(the key is then bound as requested), `(null, false)` when it fails with `LOGIC`, and
`(Error with code c, false)` when it fails with another code `c`; the delivered boolean is
true exactly when the delivered error is null and the swap was applied. -/
theorem C12_cas_mismatch_is_normal (db : PolyDB) (fault : Option Fault) (key : Bytes)
    (ovalue nvalue : Option Bytes) (target : Nat) :
    ((db.cas fault key ovalue nvalue).1 = true →
      after Method.CAS (Value.function target)
          (CASRequest.exec Members.init key ovalue nvalue db fault).1 [] =
        [[Value.null, Value.boolean true]] ∧
      (db.cas fault key ovalue nvalue).2.get key = nvalue) ∧
    ((db.cas fault key ovalue nvalue).1 = false →
      (db.cas fault key ovalue nvalue).2.err = Code.LOGIC →
      after Method.CAS (Value.function target)
          (CASRequest.exec Members.init key ovalue nvalue db fault).1 [] =
        [[Value.null, Value.boolean false]]) ∧
    ((db.cas fault key ovalue nvalue).1 = false →
      (db.cas fault key ovalue nvalue).2.err ≠ Code.LOGIC →
      after Method.CAS (Value.function target)
          (CASRequest.exec Members.init key ovalue nvalue db fault).1 [] =
        [[Value.error (Message.codename (db.cas fault key ovalue nvalue).2.err)
            (some (db.cas fault key ovalue nvalue).2.err) none,
          Value.boolean false]]) ∧
    (∃ err flag,
      after Method.CAS (Value.function target)
          (CASRequest.exec Members.init key ovalue nvalue db fault).1 [] =
        [[err, Value.boolean flag]] ∧
      (flag = true ↔ err = Value.null ∧ (db.cas fault key ovalue nvalue).1 = true)) := by
  rcases PolyDB.cas_cases db fault key ovalue nvalue with ⟨db1, h, hget, -⟩ | ⟨db1, h, herr, -⟩
  · simp [h, hget, CASRequest.exec, after, callback, Value.IsFunction, Members.init, LNULL,
      Request.error]
  · by_cases hl : db1.err = Code.LOGIC
    · simp [h, hl, CASRequest.exec, after, callback, Value.IsFunction, Members.init, LNULL]
    · simp [h, hl, herr, CASRequest.exec, after, callback, Value.IsFunction, Members.init, LNULL,
        Request.error_of_ne]

/-- C12 (witness): a `cas` that expects `"o"` at a key holding `"x"` delivers `(null, false)`. -/
theorem C12_cas_mismatch_is_normal_witness :
    after Method.CAS (Value.function 1)
      (CASRequest.exec Members.init [107] (some [111]) (some [110])
        (PolyDB.fresh [([107], [120])]) none).1 [] =
      [[Value.null, Value.boolean false]] :=
  (C12_cas_mismatch_is_normal (PolyDB.fresh [([107], [120])]) none [107] (some [111])
    (some [110]) 1).2.1 (by decide) (by decide)

/-- C13 (failing input): `getKeyBlock(3)` on a cursor with the two records `"a"` and `"b"`
left.  `exec()` collects both keys and stops with `NOREC`; `after()` then delivers the single
argument `null`, without the keys.  With three records left the three keys are delivered. -/
theorem C13_getKeyBlock_drops_partial_block :
    (CursorWrap.GetKeyBlockRequest.exec 3 Members.init
        { rest := [([97], [1]), ([98], [2])], err := Code.SUCCESS } none).1.keys
      = [[97], [98]] ∧
    (CursorWrap.GetKeyBlockRequest.exec 3 Members.init
        { rest := [([97], [1]), ([98], [2])], err := Code.SUCCESS } none).1.result
      = Code.NOREC ∧
    after Method.CursorGetKeyBlock (Value.function 1)
      (CursorWrap.GetKeyBlockRequest.exec 3 Members.init
        { rest := [([97], [1]), ([98], [2])], err := Code.SUCCESS } none).1 []
      = [[Value.null]] ∧
    after Method.CursorGetKeyBlock (Value.function 1)
      (CursorWrap.GetKeyBlockRequest.exec 3 Members.init
        { rest := [([97], [1]), ([98], [2]), ([99], [3])], err := Code.SUCCESS } none).1 []
      = [[Value.null, Value.array [[97], [98], [99]]]] := by
  decide

/-- C16: an indexed write with nothing to index and nothing to remove issues exactly one
engine call, the primary one (no `begin_transaction`, `accept_bulk` or `end_transaction`);
it leaves the engine as the plain `add` / `replace` / `remove` request does and delivers the
same result to its completion target (a function): null when the primary call succeeds,
otherwise an error carrying the engine's error code. -/
theorem C16_fast_path (req : IndexedRequest) (db : PolyDB) (f : Faults)
    (target : Nat)
    (hI : req.toIndex = []) (hR : req.toRemove = [])
    (he : req.errors = []) (hr : req.result = Code.SUCCESS) :
    (∃ call, call.primary = some (req.main_operation db f.main_operation).1 ∧
      issued db (req.exec db f).2 = [call]) ∧
    (req.exec db f).2 =
      (req.kind.plainExec Members.init req.key req.value db f.main_operation).2 ∧
    after req.kind.method (Value.function target) (req.exec db f).1.members [] =
      after req.kind.plain (Value.function target)
        (req.kind.plainExec Members.init req.key req.value db f.main_operation).1 [] ∧
    ((req.main_operation db f.main_operation).1 = true →
      after req.kind.method (Value.function target) (req.exec db f).1.members [] =
        [[Value.null]]) ∧
    ((req.main_operation db f.main_operation).1 = false →
      after req.kind.method (Value.function target) (req.exec db f).1.members [] =
        [[Value.error (Message.codename (req.main_operation db f.main_operation).2.err)
          (some (req.main_operation db f.main_operation).2.err) none]]) := by
  rw [exec_fast req db f hI hR, plainExec_eq, after_plain_eq, after_indexed_eq]
  obtain ⟨call, hlog, hprim⟩ := main_operation_log req db f.main_operation
  have hfail := main_operation_fail req db f.main_operation
  refine ⟨⟨call, hprim, issued_of_log hlog⟩, rfl, ?_, ?_, ?_⟩
  · cases hok : (req.main_operation db f.main_operation).1 <;>
      simp [IndexedRequest.members, he, hr, Members.init, IndexedRequest.errorOf_nil]
  · intro hok
    simp [hok, IndexedRequest.members, he, hr, Members.init, IndexedRequest.errorOf_nil,
      Request.error, LNULL]
  · intro hok
    have hne := (hfail hok).1
    simp [hok, IndexedRequest.members, he, Members.init, IndexedRequest.errorOf_nil,
      Request.error_of_ne _ hne]

/-- C16 (witness): `addIndexed("k", v, null)` on a store that already holds `"k"`. -/
theorem C16_fast_path_witness :
    after IndexedKind.AddIndexed.method (Value.function 1)
      ((AddIndexedRequest [107] [1] []).exec (PolyDB.fresh [([107], [0])])
        Faults.none).1.members [] =
    after IndexedKind.AddIndexed.plain (Value.function 1)
      (IndexedKind.AddIndexed.plainExec Members.init [107] [1] (PolyDB.fresh [([107], [0])])
        Faults.none.main_operation).1 [] :=
  (C16_fast_path (AddIndexedRequest [107] [1] []) (PolyDB.fresh [([107], [0])]) Faults.none 1
    rfl rfl rfl rfl).2.2.1

/-- C17: the upsert pass is idempotent.  Running `apply_index()` a second time on the state
the first run left, whether the error set is carried over or starts empty again, leaves the
records unchanged and yields the same error set and the same verdict; when the first run
recorded no conflict, the second records none. -/
theorem C17_upsert_pass_idempotent (req : IndexedRequest) (db : PolyDB)
    (he : req.errors = []) :
    ((req.apply_index db none).2.1.apply_index (req.apply_index db none).2.2 none).2.2.records
      = (req.apply_index db none).2.2.records ∧
    ((req.apply_index db none).2.1.apply_index (req.apply_index db none).2.2 none).2.1.errors
      = (req.apply_index db none).2.1.errors ∧
    ((req.apply_index db none).2.1.apply_index (req.apply_index db none).2.2 none).1
      = (req.apply_index db none).1 ∧
    (req.apply_index (req.apply_index db none).2.2 none).2.2.records
      = (req.apply_index db none).2.2.records ∧
    (req.apply_index (req.apply_index db none).2.2 none).2.1.errors
      = (req.apply_index db none).2.1.errors ∧
    (req.apply_index (req.apply_index db none).2.2 none).1 = (req.apply_index db none).1 ∧
    ((req.apply_index db none).2.1.errors = [] →
      (req.apply_index (req.apply_index db none).2.2 none).2.1.errors = [] ∧
      (req.apply_index (req.apply_index db none).2.2 none).2.2.records
        = (req.apply_index db none).2.2.records) := by
  obtain ⟨hfresh, hcarry⟩ := upsert_pass_twice req.toIndex db.records
  simp only [apply_index_ok, he]
  rw [hfresh, hcarry]
  simp

/-- C17 (witness): the pass for `{"i": "k", "j": "k"}` on a store where `"i"` belongs to
`"o"` and `"j"` is absent. -/
theorem C17_upsert_pass_idempotent_witness :
    ((AddIndexedRequest [107] [1] [([105], [107]), ([106], [107])]).apply_index
      ((AddIndexedRequest [107] [1] [([105], [107]), ([106], [107])]).apply_index
        (PolyDB.fresh [([105], [111])]) none).2.2 none).2.1.errors
      = ((AddIndexedRequest [107] [1] [([105], [107]), ([106], [107])]).apply_index
        (PolyDB.fresh [([105], [111])]) none).2.1.errors :=
  (C17_upsert_pass_idempotent (AddIndexedRequest [107] [1] [([105], [107]), ([106], [107])])
    (PolyDB.fresh [([105], [111])]) rfl).2.2.2.2.1

/-- C18 (failing inputs): `remove("k")` and `synchronize(true)`, called without a callback,
pass `validate`, and the argument at `nextIndex`, which the request constructor casts to the
completion target, is `undefined` and not a function.  For every other method an accepted
argument list has a function at `nextIndex`. -/
theorem C18_remove_and_synchronize_accept_missing_callback :
    (validate Method.Remove [Value.string [107]] = true ∧
      arg [Value.string [107]] (nextIndex Method.Remove) = Value.undefined ∧
      (arg [Value.string [107]] (nextIndex Method.Remove)).IsFunction = false) ∧
    (validate Method.Synchronize [Value.boolean true] = true ∧
      arg [Value.boolean true] (nextIndex Method.Synchronize) = Value.undefined ∧
      (arg [Value.boolean true] (nextIndex Method.Synchronize)).IsFunction = false) ∧
    (∀ (m : Method) (args : List Value), m ≠ Method.Remove → m ≠ Method.Synchronize →
      validate m args = true → (arg args (nextIndex m)).IsFunction = true) := by
  refine ⟨by decide, by decide, ?_⟩
  intro m args h1 h2 hv
  cases m <;> simp only [validate, nextIndex, Bool.and_eq_true] at hv ⊢ <;>
    first
      | exact hv.2
      | exact absurd rfl h1
      | exact absurd rfl h2

/-- C19: in every run of `IndexedRequest::exec()` the number of `end_transaction` calls
equals the number of successful `begin_transaction` calls, which is at most one; and when
`begin_transaction` fails it is the only engine call of the run, and the delivered error
carries its error code. -/
theorem C19_transactions_are_closed (req : IndexedRequest) (db : PolyDB) (f : Faults)
    (he : req.errors = []) :
    (issued db (req.exec db f).2).countP (fun c => c.ended.isSome) =
      (issued db (req.exec db f).2).countP (fun c => decide (c.began = some true)) ∧
    (issued db (req.exec db f).2).countP (fun c => decide (c.began = some true)) ≤ 1 ∧
    (∀ c : Fault, (StringMap.empty req.toIndex && req.toRemove.isEmpty) = false →
      f.begin_transaction = some c →
      issued db (req.exec db f).2 = [Call.begin_transaction false] ∧
      (req.exec db f).2.records = db.records ∧
      (req.exec db f).1.error = Value.error (Message.codename c.val) (some c.val) none) := by
  by_cases hfast : (StringMap.empty req.toIndex && req.toRemove.isEmpty) = true
  · have hI : req.toIndex = [] := by
      simp only [Bool.and_eq_true] at hfast
      exact (StringMap.empty_iff _).1 hfast.1
    have hR : req.toRemove = [] := by
      simp only [Bool.and_eq_true] at hfast
      exact List.isEmpty_iff.1 hfast.2
    obtain ⟨call, hlog, hprim⟩ := main_operation_log req db f.main_operation
    have hiss : issued db (req.exec db f).2 = [call] := by
      rw [exec_fast req db f hI hR]
      exact issued_of_log hlog
    have h1 := (Call.primary_some hprim).1
    have h2 := Call.began_of_primary hprim
    rw [hiss]
    refine ⟨by simp [List.countP_cons, h1, h2], by simp [List.countP_cons, h2], ?_⟩
    intro c hslow
    rw [hfast] at hslow
    cases hslow
  · simp only [Bool.not_eq_true] at hfast
    rw [exec_slow req db f hfast]
    cases hb : f.begin_transaction with
    | some c =>
      rw [transaction_begin_fault req db f c hb]
      have hiss : issued db (db.fail c.val (Call.begin_transaction false)) =
          [Call.begin_transaction false] := issued_of_log rfl
      rw [hiss]
      refine ⟨by decide, by decide, ?_⟩
      intro c1 _ hc1
      cases hc1
      refine ⟨rfl, rfl, ?_⟩
      simp [IndexedRequest.error, IndexedRequest.errorOf, he, StringMap.empty,
        Request.error_of_ne _ c.property]
    | none =>
      obtain ⟨call, passes, commit, ok, hcalls, hprim, hpasses, -, -⟩ :=
        transaction_calls req db f he hb
      rw [hcalls]
      have h1 := (Call.primary_some hprim).1
      have h2 := Call.began_of_primary hprim
      have hp1 : passes.countP (fun c => c.ended.isSome) = 0 := by
        rw [List.countP_eq_zero]
        intro c hc
        simp [(hpasses c hc).2.1]
      have hp2 : passes.countP (fun c => decide (c.began = some true)) = 0 := by
        rw [List.countP_eq_zero]
        intro c hc
        simp [Call.began_of_isBulk (hpasses c hc).2.2]
      have e1 : (Call.begin_transaction true).ended = none := rfl
      have e2 : (Call.end_transaction commit ok).ended = some commit := rfl
      have b1 : (Call.begin_transaction true).began = some true := rfl
      have b2 : (Call.end_transaction commit ok).began = none := rfl
      refine ⟨?_, ?_, ?_⟩
      · simp [List.countP_append, List.countP_cons, hp1, hp2, h1, h2, e1, e2, b1, b2]
      · simp [List.countP_append, List.countP_cons, hp2, h2, b1, b2]
      · intro c _ hc
        cases hc

/-- C19 (witness): `addIndexed("k", v, {"i": "k"})` when `begin_transaction` fails with
`SYSTEM`. -/
theorem C19_transactions_are_closed_witness :
    issued (PolyDB.fresh [])
      ((AddIndexedRequest [107] [1] [([105], [107])]).exec (PolyDB.fresh [])
        { Faults.none with begin_transaction := some ⟨Code.SYSTEM, by decide⟩ }).2
      = [Call.begin_transaction false] ∧
    ((AddIndexedRequest [107] [1] [([105], [107])]).exec (PolyDB.fresh [])
        { Faults.none with begin_transaction := some ⟨Code.SYSTEM, by decide⟩ }).2.records
      = (PolyDB.fresh []).records ∧
    ((AddIndexedRequest [107] [1] [([105], [107])]).exec (PolyDB.fresh [])
        { Faults.none with begin_transaction := some ⟨Code.SYSTEM, by decide⟩ }).1.error
      = Value.error (Message.codename Code.SYSTEM) (some Code.SYSTEM) none :=
  (C19_transactions_are_closed (AddIndexedRequest [107] [1] [([105], [107])]) (PolyDB.fresh [])
    { Faults.none with begin_transaction := some ⟨Code.SYSTEM, by decide⟩ } rfl).2.2
    ⟨Code.SYSTEM, by decide⟩ (by decide) rfl

/-- C20 (amended): when `replaceIndexed(k, v, index, remove)` delivers no error, the store
maps every index key of `index` that is not listed in `remove` to its expected value, and
every key of `remove` that is not a key of `index` is absent. -/
theorem C20_replaceIndexed_success (db : PolyDB) (k v : Bytes) (index : StringMap)
    (remove : StringList) (f : Faults)
    (h : ((ReplaceIndexedRequest k v index remove).exec db f).1.error = Value.null) :
    (∀ ik ev, StringMap.find index ik = some ev → ik ∉ remove →
      ((ReplaceIndexedRequest k v index remove).exec db f).2.get ik = some ev) ∧
    (∀ rk, rk ∈ remove → StringMap.find index rk = none →
      ((ReplaceIndexedRequest k v index remove).exec db f).2.get rk = none) := by
  obtain ⟨-, hP, hQ, hfinal⟩ :=
    exec_success (ReplaceIndexedRequest k v index remove) db f rfl h
  obtain ⟨h1, h2⟩ := clean_passes_records index remove k _ _ hP hQ hfinal
  exact ⟨h1, fun rk hrk _ => h2 rk hrk⟩

/-- C20 (witness): `replaceIndexed("k", v, {"i": "k"}, ["r"])` on a store holding `"k"` and
the entry `"r"` owned by `"k"`. -/
theorem C20_replaceIndexed_success_witness :
    (∀ ik ev, StringMap.find [([105], [107])] ik = some ev → ik ∉ [([114] : Bytes)] →
      ((ReplaceIndexedRequest [107] [1] [([105], [107])] [[114]]).exec
        (PolyDB.fresh [([107], [0]), ([114], [107])]) Faults.none).2.get ik = some ev) ∧
    (∀ rk, rk ∈ [([114] : Bytes)] → StringMap.find [([105], [107])] rk = none →
      ((ReplaceIndexedRequest [107] [1] [([105], [107])] [[114]]).exec
        (PolyDB.fresh [([107], [0]), ([114], [107])]) Faults.none).2.get rk = none) :=
  C20_replaceIndexed_success (PolyDB.fresh [([107], [0]), ([114], [107])]) [107] [1]
    [([105], [107])] [[114]] Faults.none (by decide)

/-- C20 (counterexample): `replaceIndexed("k", v, {"i": "k"}, ["i"])` on a store holding
`"k"`: the call delivers no error, `("i", "k")` is an entry of the upserts, and afterwards
`"i"` is absent, because the removal pass removes what the upsert pass wrote. -/
theorem C20_counterexample :
    ((ReplaceIndexedRequest [107] [1] [([105], [107])] [[105]]).exec
        (PolyDB.fresh [([107], [0])]) Faults.none).1.error = Value.null ∧
    StringMap.find [([105], [107])] [105] = some [107] ∧
    ((ReplaceIndexedRequest [107] [1] [([105], [107])] [[105]]).exec
        (PolyDB.fresh [([107], [0])]) Faults.none).2.get [105] = none := by
  decide

/-- C14: in every state reached from one with nothing in flight, the reference count of each
wrapper is its initial count plus the number of its requests submitted and not yet delivered,
and likewise for the event loop; there an accepted submission adds exactly one to the count
of its wrapper and of the event loop, and a delivery, whatever the outcome of `exec()`, takes
exactly one from each. -/
theorem C14_reference_count_balance (p0 p : Process) (hs : p0.scheduled = [])
    (he : p0.executed = []) (hr : Reachable p0 p) :
    (∀ w, p.refs w = p0.refs w + p.inFlight w) ∧
    p.loopRefs = p0.loopRefs + (p.scheduled.length + p.executed.length) ∧
    (∀ w m args, validate m args = true →
      (p.submit w m args).2.refs w = p.refs w + 1 ∧
      (p.submit w m args).2.loopRefs = p.loopRefs + 1 ∧
      (p.submit w m args).2.inFlight w = p.inFlight w + 1) ∧
    (∀ i x, p.executed.get? i = some x →
      (p.DEFINE_AFTER i).refs x.wrap + 1 = p.refs x.wrap ∧
      (p.DEFINE_AFTER i).loopRefs + 1 = p.loopRefs ∧
      (p.DEFINE_AFTER i).inFlight x.wrap + 1 = p.inFlight x.wrap) := by
  obtain ⟨hrefs, hloop⟩ := reachable_refs p0 p hs he hr
  refine ⟨hrefs, hloop, ?_, ?_⟩
  · intro w m args hv
    obtain ⟨h1, h2, h3, h4, -⟩ := submit_accept p w m args hv
    refine ⟨by rw [h1]; simp, h2, ?_⟩
    rw [inFlight_eq, inFlight_eq, h3, h4]
    simp [List.filter_append]
    omega
  · intro i x hx
    obtain ⟨h1, h2, h3, h4, -, -⟩ := after_fields p i x hx
    have hmem : x ∈ p.scheduled ++ p.executed :=
      List.mem_append.2 (Or.inr (mem_of_get? _ _ _ hx))
    have hpos := inFlight_pos_of_mem p x hmem
    have hr1 := hrefs x.wrap
    have hlen := length_eraseIdx_add_one p.executed i x hx
    have hcount := length_filter_eraseIdx (fun y : InFlight => decide (y.wrap = x.wrap))
      p.executed i x hx
    simp at hcount
    refine ⟨?_, ?_, ?_⟩
    · rw [h1]; simp; omega
    · rw [h2]; omega
    · rw [inFlight_eq, inFlight_eq, h3, h4]; omega

/-- C14 (witness): the state after one accepted `set` on wrapper `0` of an idle process. -/
theorem C14_reference_count_balance_witness :
    ((Process.idle (fun _ => 0) 0).submit 0 Method.Set
        [Value.string [107], Value.string [118], Value.function 1]).2.refs 0 =
      (Process.idle (fun _ => 0) 0).refs 0 +
        ((Process.idle (fun _ => 0) 0).submit 0 Method.Set
          [Value.string [107], Value.string [118], Value.function 1]).2.inFlight 0 :=
  (C14_reference_count_balance (Process.idle (fun _ => 0) 0)
    ((Process.idle (fun _ => 0) 0).submit 0 Method.Set
      [Value.string [107], Value.string [118], Value.function 1]).2 rfl rfl
    (Reachable.step _ _ Reachable.start
      (Step.submit _ 0 Method.Set _ (by simp [Process.idle])))).1 0

/-- C15 (amended): in every state reached from one with nothing in flight, a wrapper with a
request in flight holds a positive reference count and has not been destroyed: the
references held by requests in flight keep the wrapper, and with it the engine handle,
alive. -/
theorem C15_in_flight_requests_keep_wrapper_alive (p0 p : Process)
    (hs : p0.scheduled = []) (he : p0.executed = []) (hr : Reachable p0 p) :
    ∀ x ∈ p.scheduled ++ p.executed, 0 < p.refs x.wrap ∧ x.wrap ∉ p.destroyed := by
  intro x hx
  have hrefs := (reachable_refs p0 p hs he hr).1 x.wrap
  have hpos := inFlight_pos_of_mem p x hx
  exact ⟨by omega, reachable_alive p0 p hs he hr x hx⟩

/-- C15 (witness): after one accepted `set` on wrapper `0` of an idle process, wrapper `0`
holds a reference and is not destroyed. -/
theorem C15_in_flight_requests_keep_wrapper_alive_witness :
    0 < ((Process.idle (fun _ => 0) 0).submit 0 Method.Set
        [Value.string [107], Value.string [118], Value.function 1]).2.refs 0 ∧
    0 ∉ ((Process.idle (fun _ => 0) 0).submit 0 Method.Set
        [Value.string [107], Value.string [118], Value.function 1]).2.destroyed :=
  C15_in_flight_requests_keep_wrapper_alive (Process.idle (fun _ => 0) 0)
    ((Process.idle (fun _ => 0) 0).submit 0 Method.Set
      [Value.string [107], Value.string [118], Value.function 1]).2 rfl rfl
    (Reachable.step _ _ Reachable.start
      (Step.submit _ 0 Method.Set _ (by simp [Process.idle])))
    { wrap := 0,
      req := { method := Method.Set,
               args := [Value.string [107], Value.string [118], Value.function 1],
               next := Value.function 1 },
      members := Members.init }
    (by decide)

/-- C15 (counterexample): on an idle process, `set` is submitted on wrapper `0` and, while it
is scheduled and not yet executed, `closeSync` performs the engine close; likewise an
asynchronous `close` submitted after the `set` and executed before it.  Both states are
reachable, and each records a close with one other request of the wrapper still scheduled. -/
theorem C15_counterexample :
    Reachable (Process.idle (fun _ => 0) 0)
      (((Process.idle (fun _ => 0) 0).submit 0 Method.Set
        [Value.string [107], Value.string [118], Value.function 1]).2.CloseSync 0) ∧
    (((Process.idle (fun _ => 0) 0).submit 0 Method.Set
        [Value.string [107], Value.string [118], Value.function 1]).2.CloseSync 0).closes
      = [(0, 1)] ∧
    Reachable (Process.idle (fun _ => 0) 0)
      (((((Process.idle (fun _ => 0) 0).submit 0 Method.Set
        [Value.string [107], Value.string [118], Value.function 1]).2.submit 0 Method.Close
        [Value.function 2]).2).DEFINE_EXEC 1 Members.init) ∧
    (((((Process.idle (fun _ => 0) 0).submit 0 Method.Set
        [Value.string [107], Value.string [118], Value.function 1]).2.submit 0 Method.Close
        [Value.function 2]).2).DEFINE_EXEC 1 Members.init).closes
      = [(0, 1)] := by
  refine ⟨?_, by decide, ?_, by decide⟩
  · exact Reachable.step _ _
      (Reachable.step _ _ Reachable.start
        (Step.submit _ 0 Method.Set _ (by simp [Process.idle])))
      (Step.closeSync _ 0 (by simp [Process.idle, Process.submit]))
  · exact Reachable.step _ _
      (Reachable.step _ _
        (Reachable.step _ _ Reachable.start
          (Step.submit _ 0 Method.Set _ (by simp [Process.idle])))
        (Step.submit _ 0 Method.Close _ (by simp [Process.idle, Process.submit])))
      (Step.execute _ 1 Members.init (by decide))

/-- C21 (failing inputs): the guard of `CursorWrap::New` holds for no argument list, so the
constructor never returns the `Bad argument` error: called without arguments, or with the
number `5`, it goes on to unwrap `undefined` resp. `5` and, where the host returns a handle,
creates an engine cursor; in general `New` does whatever unwrapping `args[0]` leads to. -/
theorem C21_cursor_constructor_never_rejects :
    CursorWrap.New.guard [] = false ∧
    CursorWrap.New.guard [Value.number 5] = false ∧
    CursorWrap.New (fun _ => some (PolyDB.fresh [])) [] =
      some (Returned.this, some { rest := [], err := Code.SUCCESS }) ∧
    CursorWrap.New (fun _ => some (PolyDB.fresh [])) [Value.number 5] =
      some (Returned.this, some { rest := [], err := Code.SUCCESS }) ∧
    (∀ (unwrap : Value → Option PolyDB) (args : List Value),
      CursorWrap.New unwrap args ≠ some (THROW_BAD_ARGS, none) ∧
      CursorWrap.New unwrap args =
        (unwrap (arg args 0)).map (fun db => (Returned.this, some db.cursor))) := by
  refine ⟨rfl, rfl, rfl, rfl, ?_⟩
  intro unwrap args
  have hg := CursorWrap.New.guard_false args
  unfold CursorWrap.New
  rw [hg]
  cases unwrap (arg args 0) with
  | none => simp
  | some db => simp [THROW_BAD_ARGS]

end Kyoto
